import Mathlib

/-!
Verification of the CPL-to-QUAD compiler (repository nof-sh/CPL-to-QUAD-compiler).

This file shallowly embeds the compiler's three stages in Lean 4 and proves or
refutes the frozen claims about them:

* the lexical scanner (src/unnamed/part_000: Scan, scanIdentifier, scanNumber,
  scanWhitespace, skipUntilEndComment, and the position bookkeeping of read);
* the recursive-descent CPL parser (src/unnamed/part_003 resp. the identical
  copy in src/cpq/parser.go: ParseProgram and its subordinate productions);
* the tree-walking code generator (src/cpq/codeGen.go: CodegenProgram and its
  subordinate functions) together with the label-finalization pass
  RemoveLabels (textually identical in codeGen.go, cpl_pars.go and
  main_cpq.go).

Modelling conventions, used consistently below:

* Go strings are modelled as List Char (abbreviated Str); strings.ReplaceAll
  and strings.Split are modelled by executable functions on Str whose
  semantics matches Go's (leftmost, non-overlapping, non-rescanning
  replacement; splitting that keeps empty fields).
* Go interface values that may be nil (Expression, BooleanExpression and
  Statement fields filled in by the parser) are modelled as Option of the
  corresponding inductive type; a nil interface hitting a type switch with no
  matching case falls through to the default branch exactly as in Go.
* Go maps used only via insert-if-absent and keyed lookup (the symbol table)
  are modelled as association lists with first-match lookup.
* Methods mutating a receiver are modelled by explicit state passing: each
  embedded function takes the generator/parser state and returns the updated
  state alongside its result.
* int64 is modelled as Int (no claim exercises 64-bit overflow); float64
  literal values are carried as their fmt %f rendering, since no claim
  depends on float arithmetic, only on the emitted text and on types.
* The parser can fail to terminate (this is one of the verified findings), so
  its embedding takes a recursion-depth fuel argument; returning none means
  the depth bound was exceeded.  All parser functions are total in Lean; the
  divergence of the Go original is expressed by theorems of the form
  "for every fuel the result is none".
-/

namespace CPQ

/-- Go strings, modelled as lists of characters. -/
abbrev Str := List Char

/-- Coerce a Lean string literal to the Str model. -/
def str (s : String) : Str := s.toList

/-- Decimal digits of a natural number, fuelled helper (fuel bounds the number
of divisions by 10; fuel n+1 always suffices for n). -/
def natDigitsAux : Nat → Nat → Str
  | 0, _ => []
  | _ + 1, 0 => []
  | f + 1, n => natDigitsAux f (n / 10) ++ [Char.ofNat (48 + n % 10)]

/-- Decimal rendering of a natural number, as produced by strconv.Itoa and
fmt %d for non-negative values. -/
def natDigits (n : Nat) : Str := if n = 0 then ['0'] else natDigitsAux (n + 1) n

/-- Decimal rendering of an Int, as produced by fmt %d on an int64. -/
def intRender (i : Int) : Str :=
  if i < 0 then '-' :: natDigits i.natAbs else natDigits i.natAbs

/-- Position of a token or AST node (source: Position in part_000).  Line and
column are zero-based; the Go fields are ints that are never negative. -/
structure Position where
  line : Nat
  column : Nat
deriving DecidableEq, Repr

/-- The token kinds of CPL (source: TokenType constants in part_000). -/
inductive TokenType where
  | ILLEGAL | EOF
  | LPAREN | RPAREN | LBRACKET | RBRACKET | COMMA | SEMICOLON | COLON | EQUALS
  | BREAK | CASE | DEFAULT | ELSE | FLOAT | IF | INPUT | INT | OUTPUT
  | STATICCAST | SWITCH | WHILE
  | RELOP | ADDOP | MULOP | OR | AND | NOT
  | ID | NUM
deriving DecidableEq, Repr

/-- A lexical token (source: Token in part_000). -/
structure Token where
  tokenType : TokenType
  lexeme : Str
  position : Position
deriving DecidableEq, Repr

/-- source: isWhitespace in part_000. -/
def isWhitespaceC (c : Char) : Bool := c = ' ' || c = '\t' || c = '\n'

/-- source: isLetter in part_000. -/
def isLetterC (c : Char) : Bool := ('a' ≤ c && c ≤ 'z') || ('A' ≤ c && c ≤ 'Z')

/-- source: isDigit in part_000. -/
def isDigitC (c : Char) : Bool := '0' ≤ c && c ≤ '9'

/-- source: MaxIdentifierLength in part_000. -/
def MaxIdentifierLength : Nat := 9

/-! ## Scanner (src/unnamed/part_000)

The Go scanner pulls runes from a buffered reader with single-rune pushback
(read/Unscan) and tracks positions imperatively inside read().  We model the
same behaviour denotationally: the carriage-return collapse performed inside
read() is applied to the character stream first, every character is annotated
with the position read() would store for it, and pushback becomes simply not
consuming list elements.  The position attached to the EOF pseudo-character is
the scanner position after the last real character, exactly the value read()
saves the first time it hits the end of input. -/

/-- The \r\n to \n collapse performed inside read() of part_000: a \r\n pair
becomes one \n, a lone \r becomes \n. -/
def collapseCR : Str → Str
  | [] => []
  | '\r' :: '\n' :: rest => '\n' :: collapseCR rest
  | '\r' :: rest => '\n' :: collapseCR rest
  | c :: rest => c :: collapseCR rest

/-- Position update of read() in part_000: newline increments the line and
resets the column, any other character increments the column. -/
def advancePos (p : Position) (c : Char) : Position :=
  if c = '\n' then ⟨p.line + 1, 0⟩ else ⟨p.line, p.column + 1⟩

/-- Annotate every character with the position read() saves for it (the
position before consuming it). -/
def annotateFrom (p : Position) : Str → List (Char × Position)
  | [] => []
  | c :: rest => (c, p) :: annotateFrom (advancePos p c) rest

/-- The scanner position after consuming an entire character stream; this is
the position the first EOF token receives. -/
def endPosOf (p : Position) : Str → Position
  | [] => p
  | c :: rest => endPosOf (advancePos p c) rest

/-- Scanner state: the unconsumed annotated input and the stable EOF
position. -/
structure ScanState where
  input : List (Char × Position)
  eofPos : Position
deriving Repr

/-- Characters that may continue an identifier (the loop condition of
scanIdentifier in part_000: letters, digits and underscore). -/
def identChar (c : Char) : Bool := isLetterC c || isDigitC c || c = '_'

/-- Characters that may continue a number (the loop condition of scanNumber in
part_000: digits and the dot). -/
def numChar (c : Char) : Bool := isDigitC c || c = '.'

/-- The token kind scanIdentifier in part_000 assigns to a completed lexeme:
first the keyword switch, then an ID only if the length is at most
MaxIdentifierLength and no underscore occurs, otherwise ILLEGAL. -/
def classifyIdent (s : Str) : TokenType :=
  if s = str "break" then .BREAK
  else if s = str "case" then .CASE
  else if s = str "default" then .DEFAULT
  else if s = str "else" then .ELSE
  else if s = str "float" then .FLOAT
  else if s = str "if" then .IF
  else if s = str "input" then .INPUT
  else if s = str "int" then .INT
  else if s = str "output" then .OUTPUT
  else if s = str "switch" then .SWITCH
  else if s = str "while" then .WHILE
  else if s = str "static_cast" then .STATICCAST
  else if s.length ≤ MaxIdentifierLength ∧ ¬ s.contains '_' then .ID
  else .ILLEGAL

/-- source: scanIdentifier in part_000.  The first character (a letter, the
caller checked) is at position p; the lexeme extends over the maximal run of
identifier characters. -/
def scanIdentifier (c : Char) (p : Position) (rest : List (Char × Position)) :
    Token × List (Char × Position) :=
  let tail := rest.takeWhile (fun cp => identChar cp.1)
  let lex := c :: tail.map (·.1)
  (⟨classifyIdent lex, lex, p⟩, rest.dropWhile (fun cp => identChar cp.1))

/-- source: scanNumber in part_000: the maximal run of digits and dots. -/
def scanNumber (c : Char) (p : Position) (rest : List (Char × Position)) :
    Token × List (Char × Position) :=
  let all := (c, p) :: rest
  let lex := all.takeWhile (fun cp => numChar cp.1)
  (⟨.NUM, lex.map (·.1), p⟩, all.dropWhile (fun cp => numChar cp.1))

mutual
/-- source: skipUntilEndComment in part_000, outer loop: scan forward for a
star. none models the io.EOF return (unterminated comment). -/
def skipUntilEndComment : List (Char × Position) → Option (List (Char × Position))
  | [] => none
  | (c, _) :: rest => if c = '*' then skipCommentStar rest else skipUntilEndComment rest

/-- source: the star state of skipUntilEndComment (the goto star loop). -/
def skipCommentStar : List (Char × Position) → Option (List (Char × Position))
  | [] => none
  | (c, _) :: rest =>
    if c = '/' then some rest
    else if c = '*' then skipCommentStar rest
    else skipUntilEndComment rest
end

/-- source: Scan in part_000.  The fuel bounds the iterations of the
whitespace/comment skip loop; any fuel larger than the input length is
enough. -/
def scanToken : Nat → ScanState → Option (Token × ScanState)
  | 0, _ => none
  | fuel + 1, st =>
    match st.input with
    | [] => some (⟨.EOF, str "EOF", st.eofPos⟩, st)
    | (c, p) :: rest =>
      if c = '/' then
        match rest with
        | (c2, _) :: rest2 =>
          if c2 = '*' then
            match skipUntilEndComment rest2 with
            | none => some (⟨.ILLEGAL, [], p⟩, { st with input := [] })
            | some rest3 => scanToken fuel { st with input := rest3 }
          else some (⟨.MULOP, [c], p⟩, { st with input := rest })
        | [] => some (⟨.MULOP, [c], p⟩, { st with input := [] })
      else if isWhitespaceC c then
        scanToken fuel { st with input := rest.dropWhile (fun cp => isWhitespaceC cp.1) }
      else if isLetterC c then
        let (tok, input') := scanIdentifier c p rest
        some (tok, { st with input := input' })
      else if isDigitC c then
        let (tok, input') := scanNumber c p rest
        some (tok, { st with input := input' })
      else if c = '>' ∨ c = '<' then
        match rest with
        | (c2, _) :: rest2 =>
          if c2 = '=' then some (⟨.RELOP, [c, c2], p⟩, { st with input := rest2 })
          else some (⟨.RELOP, [c], p⟩, { st with input := rest })
        | [] => some (⟨.RELOP, [c], p⟩, { st with input := [] })
      else if c = '=' then
        match rest with
        | (c2, _) :: rest2 =>
          if c2 = '=' then some (⟨.RELOP, str "==", p⟩, { st with input := rest2 })
          else some (⟨.EQUALS, [c], p⟩, { st with input := rest })
        | [] => some (⟨.EQUALS, [c], p⟩, { st with input := [] })
      else if c = '!' then
        match rest with
        | (c2, _) :: rest2 =>
          if c2 = '=' then some (⟨.RELOP, str "!=", p⟩, { st with input := rest2 })
          else some (⟨.NOT, [c], p⟩, { st with input := rest })
        | [] => some (⟨.NOT, [c], p⟩, { st with input := [] })
      else if c = '|' then
        match rest with
        | (c2, _) :: rest2 =>
          if c2 = '|' then some (⟨.OR, str "||", p⟩, { st with input := rest2 })
          else some (⟨.ILLEGAL, [c], p⟩, { st with input := rest })
        | [] => some (⟨.ILLEGAL, [c], p⟩, { st with input := [] })
      else if c = '&' then
        match rest with
        | (c2, _) :: rest2 =>
          if c2 = '&' then some (⟨.AND, str "&&", p⟩, { st with input := rest2 })
          else some (⟨.ILLEGAL, [c], p⟩, { st with input := rest })
        | [] => some (⟨.ILLEGAL, [c], p⟩, { st with input := [] })
      else if c = '+' ∨ c = '-' then some (⟨.ADDOP, [c], p⟩, { st with input := rest })
      else if c = '*' then some (⟨.MULOP, [c], p⟩, { st with input := rest })
      else if c = ';' then some (⟨.SEMICOLON, [c], p⟩, { st with input := rest })
      else if c = '(' then some (⟨.LPAREN, [c], p⟩, { st with input := rest })
      else if c = ')' then some (⟨.RPAREN, [c], p⟩, { st with input := rest })
      else if c = '\x7b' then some (⟨.LBRACKET, [c], p⟩, { st with input := rest })
      else if c = '\x7d' then some (⟨.RBRACKET, [c], p⟩, { st with input := rest })
      else if c = ',' then some (⟨.COMMA, [c], p⟩, { st with input := rest })
      else if c = ':' then some (⟨.COLON, [c], p⟩, { st with input := rest })
      else some (⟨.ILLEGAL, [c], p⟩, { st with input := rest })

/-- Initial scanner state for a source text. -/
def initScan (source : Str) : ScanState :=
  let chars := collapseCR source
  ⟨annotateFrom ⟨0, 0⟩ chars, endPosOf ⟨0, 0⟩ chars⟩

/-- The token stream the scanner produces for a source text, up to and
including the first EOF token (subsequent Scan calls keep returning EOF). -/
def tokenizeAux : Nat → ScanState → List Token
  | 0, _ => []
  | fuel + 1, st =>
    match scanToken (st.input.length + 1) st with
    | none => []
    | some (tok, st') =>
      if tok.tokenType = .EOF then [tok] else tok :: tokenizeAux fuel st'

/-- Scan a whole source text into its token list. -/
def tokenize (source : Str) : List Token :=
  tokenizeAux (source.length + 1) (initScan source)

/-! ## AST (src/cpq/dataType.go, identical shapes in src/unnamed/part_002)

Fields typed as Go interfaces that the parser may leave nil are Option-typed
here (the assignment value, the output value, the switch selector, the if/else
branches, the while body, the boolean conditions).  The SwitchCase struct is
inlined as a triple (value, position, statements) so that the statement tree
is a single nested inductive.  A Go field named "variable" appears as varName
(variable is a Lean keyword). -/

/-- source: DataType in dataType.go (Unknown = 0, Float = 1, Integer = 2). -/
inductive DataType where
  | Unknown | Float | Integer
deriving DecidableEq, Repr

/-- source: Operator in dataType.go. -/
inductive Operator where
  | Add | Subtract | Multiply | Divide
  | EqualTo | NotEqualTo | GreaterThan | LessThan
  | GreaterThanOrEqualTo | LessThenOrEqualTo
deriving DecidableEq, Repr

/-- Numeric expressions (source: VariableExpression, IntLiteral, FloatLiteral,
ArithmeticExpression in dataType.go).  A FloatLiteral carries the fmt %f
rendering of its float64 value. -/
inductive Expr where
  | variableE (varName : Str) (position : Position)
  | intLiteral (value : Int) (position : Position)
  | floatLiteral (rendered : Str) (position : Position)
  | arithmeticE (lhs : Expr) (operator : Operator) (rhs : Expr) (position : Position)
deriving DecidableEq

/-- Boolean expressions (source: OrBooleanExpression, AndBooleanExpression,
NotBooleanExpression, CompareBooleanExpression in dataType.go); a distinct
type from Expr, exactly as in the source. -/
inductive BExpr where
  | orB (lhs rhs : BExpr) (position : Position)
  | andB (lhs rhs : BExpr) (position : Position)
  | notB (value : BExpr) (position : Position)
  | compareB (lhs : Expr) (operator : Operator) (rhs : Expr) (position : Position)
deriving DecidableEq

/-- Statements (source: AssignmentStatement, InputStatement, OutputStatement,
IfStatement, WhileStatement, SwitchStatement with its SwitchCase list,
BreakStatement, StatementsBlock in dataType.go).  A switch case (value,
position, statements) inlines the SwitchCase struct. -/
inductive Stmt where
  | assignS (varName : Str) (value : Option Expr) (castType : DataType) (position : Position)
  | inputS (varName : Str) (position : Position)
  | outputS (value : Option Expr) (position : Position)
  | ifS (condition : Option BExpr) (ifBranch : Option Stmt) (elseBranch : Option Stmt)
      (position : Position)
  | whileS (condition : Option BExpr) (body : Option Stmt) (position : Position)
  | switchS (selector : Option Expr) (cases : List (Int × Position × List Stmt))
      (defaultCase : List Stmt) (position : Position)
  | breakS (position : Position)
  | blockS (statements : List Stmt) (position : Position)

/-- source: Declaration in dataType.go. -/
structure Decl where
  names : List Str
  type : DataType
  position : Position
deriving DecidableEq

/-- source: Program in dataType.go.  The parser always fills statementsBlock
with a StatementsBlock node. -/
structure Prog where
  declarations : List Decl
  statementsBlock : Stmt
  position : Position

/-! ## Parser (src/unnamed/part_003; src/cpq/parser.go carries the same
functions under slightly different names)

The parser state carries the one-token lookahead, the rest of the token
stream (the scanner repeats its EOF token forever, so advancing past the last
token keeps the lookahead) and the accumulated diagnostics.

Every production takes a fuel argument bounding the recursion depth; a none
result means the bound was exceeded.  The Go parser has no such bound: the
fuel is the device that lets the divergence of ParseBooleanFactor (which
re-enters ParseBooleanExpression without consuming a token) be expressed as
statements quantified over all fuels.

One Go aliasing detail is reproduced faithfully: matchToken returns a pointer
to the parser's lookahead field on failure, so a diagnostic built after a
subsequent skip() reads the post-skip lookahead (this happens in ParseType,
and for the block position of a brace-less statement block). -/

/-- source: ErrorType in part_003.  A syntax error has message = "" and uses
found/expected; a message-style error leaves found/expected empty. -/
structure ParseError where
  message : Str
  found : Str
  expected : List Str
  pos : Position
deriving DecidableEq, Repr

/-- source: newError in part_003. -/
def newError (found : Str) (expected : List Str) (pos : Position) : ParseError :=
  ⟨[], found, expected, pos⟩

/-- Parser state: lookahead token, remaining tokens, diagnostics. -/
structure PState where
  lookahead : Token
  rest : List Token
  errors : List ParseError
deriving DecidableEq, Repr

/-- Advance the lookahead (scanner.Scan in the source); past the end the
scanner keeps returning its EOF token. -/
def advanceP (st : PState) : PState :=
  match st.rest with
  | [] => st
  | t :: ts => ⟨t, ts, st.errors⟩

/-- source: addError in part_003 — a diagnostic is dropped if one was already
recorded at the same position. -/
def addError (e : ParseError) (st : PState) : PState :=
  if st.errors.any (fun err => err.pos = e.pos) then st
  else { st with errors := st.errors ++ [e] }

/-- source: matchToken/match in part_003.  On success the consumed token is
returned with the advanced state; on failure the state is unchanged and the
caller reads the (unchanged) lookahead for its diagnostic. -/
def matchTok (tokenTypes : List TokenType) (st : PState) : Token × Bool × PState :=
  if tokenTypes.contains st.lookahead.tokenType then (st.lookahead, true, advanceP st)
  else (st.lookahead, false, st)

/-- strconv.ParseInt(lexeme, 10, 64) as used by ParseSwitchCases: an optional
sign followed by at least one digit parses to its value, anything else is an
error (and Go then leaves the value 0).  64-bit range errors are not modelled
(no claim exercises them). -/
def parseIntLexeme (s : Str) : Option Int :=
  let (neg, digits) := match s with
    | '-' :: rest => (true, rest)
    | '+' :: rest => (false, rest)
    | rest => (false, rest)
  if digits ≠ [] ∧ digits.all (fun c => isDigitC c) then
    let n : Nat := digits.foldl (fun acc c => acc * 10 + (c.toNat - 48)) 0
    some (if neg then -(n : Int) else (n : Int))
  else none

/-- source: ParseType in part_003.  On failure the parser first skips a token
and then reports — through the Go pointer aliasing of matchToken — the
post-skip lookahead. -/
def ParseTypeP (st : PState) : DataType × PState :=
  let (token, ok, st1) := matchTok [.INT, .FLOAT] st
  if ¬ ok then
    let st2 := advanceP st1
    let st3 := addError (newError st2.lookahead.lexeme [str "int", str "float"]
      st2.lookahead.position) st2
    (.Unknown, st3)
  else
    match token.tokenType with
    | .INT => (.Integer, st1)
    | .FLOAT => (.Float, st1)
    | _ => (.Unknown, st1)

mutual

/-- source: ParseProgram in part_003. -/
def ParseProgram : Nat → PState → Option (Prog × PState)
  | 0, _ => none
  | fuel + 1, st => do
    let pos := st.lookahead.position
    let (decls, st1) ← ParseDeclarations fuel st
    let (blockStmt, st2) ← ParseStatementsBlock fuel st1
    let (_, okE, st3) := matchTok [.EOF] st2
    let st4 := if okE then st3 else
      addError (newError st3.lookahead.lexeme [str "EOF"] pos) st3
    return (⟨decls, blockStmt, pos⟩, st4)

/-- source: ParseDeclarations in part_003. -/
def ParseDeclarations : Nat → PState → Option (List Decl × PState)
  | 0, _ => none
  | fuel + 1, st =>
    if st.lookahead.tokenType = .ID then do
      let (d, st1) ← ParseDeclaration fuel st
      let (ds, st2) ← ParseDeclarations fuel st1
      return (d :: ds, st2)
    else some ([], st)

/-- source: ParseDeclaration in part_003 (the empty `if declaration.Type ==
Unknown` block of the source has no effect and is omitted). -/
def ParseDeclaration : Nat → PState → Option (Decl × PState)
  | 0, _ => none
  | fuel + 1, st => do
    let pos := st.lookahead.position
    let (names, st1) ← ParseIDList fuel st
    let (_, okC, st2) := matchTok [.COLON] st1
    let st2' := if okC then st2 else
      addError (newError st2.lookahead.lexeme [str ":"] st2.lookahead.position) st2
    let (ty, st3) := ParseTypeP st2'
    let (_, okS, st4) := matchTok [.SEMICOLON] st3
    let st4' := if okS then st4 else
      addError (newError st4.lookahead.lexeme [str ";"] st4.lookahead.position) st4
    return (⟨names, ty, pos⟩, st4')

/-- source: ParseIDList in part_003. -/
def ParseIDList : Nat → PState → Option (List Str × PState)
  | 0, _ => none
  | fuel + 1, st => do
    let (tok, ok, st1) := matchTok [.ID] st
    let (names0, st1') := if ok then ([tok.lexeme], st1)
      else (([] : List Str),
        addError (newError st1.lookahead.lexeme [str "ID"] st1.lookahead.position) st1)
    let (more, st2) ← ParseIDListRest fuel st1'
    return (names0 ++ more, st2)

/-- The comma loop of ParseIDList. -/
def ParseIDListRest : Nat → PState → Option (List Str × PState)
  | 0, _ => none
  | fuel + 1, st =>
    if st.lookahead.tokenType = .COMMA then do
      let (_, _, st1) := matchTok [.COMMA] st
      let (tok, ok, st2) := matchTok [.ID] st1
      let (names0, st2') := if ok then ([tok.lexeme], st2)
        else (([] : List Str),
          addError (newError st2.lookahead.lexeme [str "ID"] st2.lookahead.position) st2)
      let (more, st3) ← ParseIDListRest fuel st2'
      return (names0 ++ more, st3)
    else some ([], st)

/-- source: ParseStatement in part_003: dispatch on the lookahead kind; an
unrecognized kind yields nil (none), ending the enclosing statement list. -/
def ParseStatement : Nat → PState → Option (Option Stmt × PState)
  | 0, _ => none
  | fuel + 1, st =>
    match st.lookahead.tokenType with
    | .ID => ParseAssignmentStatement fuel st
    | .INPUT => ParseInputStatement fuel st
    | .OUTPUT => ParseOutputStatement fuel st
    | .IF => ParseIfStatement fuel st
    | .WHILE => ParseWhileStatement fuel st
    | .SWITCH => ParseSwitchStatement fuel st
    | .BREAK => ParseBreakStatement fuel st
    | .LBRACKET => do
      let (b, st1) ← ParseStatementsBlock fuel st
      return (some b, st1)
    | _ => some (none, st)

/-- source: ParseAssignmentStatement in part_003.  The source never parses
the assigned value expression: Value stays nil (none here).  The expected-set
reported for a failed EQUALS match is the literal []string{"ID"} of the
source. -/
def ParseAssignmentStatement : Nat → PState → Option (Option Stmt × PState)
  | 0, _ => none
  | _fuel + 1, st =>
    let pos := st.lookahead.position
    let (tokV, okV, st1) := matchTok [.ID] st
    let (varNm, st1') := if okV then (tokV.lexeme, st1)
      else (([] : Str),
        addError (newError st1.lookahead.lexeme [str "ID"] st1.lookahead.position) st1)
    let (_, okE, st2) := matchTok [.EQUALS] st1'
    let st2' := if okE then st2 else
      addError (newError st2.lookahead.lexeme [str "ID"] st2.lookahead.position) st2
    let (castType, st3) :=
      if st2'.lookahead.tokenType = .STATICCAST then
        let (_, _, sta) := matchTok [.STATICCAST] st2'
        let (_, okL, stb) := matchTok [.LPAREN] sta
        let stb' := if okL then stb else
          addError (newError stb.lookahead.lexeme [str "("] stb.lookahead.position) stb
        let (ty, stc) := ParseTypeP stb'
        let (_, okR, std) := matchTok [.RPAREN] stc
        let std' := if okR then std else
          addError (newError std.lookahead.lexeme [str ")"] std.lookahead.position) std
        (ty, std')
      else (DataType.Unknown, st2')
    let (_, okS, st4) := matchTok [.SEMICOLON] st3
    let st4' := if okS then st4 else
      addError (newError st4.lookahead.lexeme [str ";"] st4.lookahead.position) st4
    some (some (Stmt.assignS varNm none castType pos), st4')

/-- source: ParseInputStatement in part_003. -/
def ParseInputStatement : Nat → PState → Option (Option Stmt × PState)
  | 0, _ => none
  | _fuel + 1, st =>
    let (_, okI, st0) := matchTok [.INPUT] st
    if ¬ okI then some (none, st0) else
    let pos := st0.lookahead.position
    let (_, okL, st1) := matchTok [.LPAREN] st0
    let st1' := if okL then st1 else
      addError (newError st1.lookahead.lexeme [str "("] st1.lookahead.position) st1
    let (tokV, okV, st2) := matchTok [.ID] st1'
    let (varNm, st2') := if okV then (tokV.lexeme, st2)
      else (([] : Str),
        addError (newError st2.lookahead.lexeme [str "ID"] st2.lookahead.position) st2)
    let (_, okR, st3) := matchTok [.RPAREN] st2'
    let st3' := if okR then st3 else
      addError (newError st3.lookahead.lexeme [str ")"] st3.lookahead.position) st3
    let (_, okS, st4) := matchTok [.SEMICOLON] st3'
    let st4' := if okS then st4 else
      addError (newError st4.lookahead.lexeme [str ";"] st4.lookahead.position) st4
    some (some (Stmt.inputS varNm pos), st4')

/-- source: ParseOutputStatement in part_003.  The source never parses the
printed expression: after the LPAREN it immediately expects RPAREN, and Value
stays nil (none here). -/
def ParseOutputStatement : Nat → PState → Option (Option Stmt × PState)
  | 0, _ => none
  | _fuel + 1, st =>
    let (_, okO, st0) := matchTok [.OUTPUT] st
    if ¬ okO then some (none, st0) else
    let pos := st0.lookahead.position
    let (_, okL, st1) := matchTok [.LPAREN] st0
    let st1' := if okL then st1 else
      addError (newError st1.lookahead.lexeme [str "("] st1.lookahead.position) st1
    let (_, okR, st2) := matchTok [.RPAREN] st1'
    let st2' := if okR then st2 else
      addError (newError st2.lookahead.lexeme [str ")"] st2.lookahead.position) st2
    let (_, okS, st3) := matchTok [.SEMICOLON] st2'
    let st3' := if okS then st3 else
      addError (newError st3.lookahead.lexeme [str ";"] st3.lookahead.position) st3
    some (some (Stmt.outputS none pos), st3')

/-- source: ParseIfStatement in part_003. -/
def ParseIfStatement : Nat → PState → Option (Option Stmt × PState)
  | 0, _ => none
  | fuel + 1, st => do
    let (_, okI, st0) := matchTok [.IF] st
    if ¬ okI then return (none, st0)
    let pos := st0.lookahead.position
    let (_, okL, st1) := matchTok [.LPAREN] st0
    let st1' := if okL then st1 else
      addError (newError st1.lookahead.lexeme [str "("] st1.lookahead.position) st1
    let (cond, st2) ← ParseBooleanExpression fuel st1'
    let (_, okR, st3) := matchTok [.RPAREN] st2
    let st3' := if okR then st3 else
      addError (newError st3.lookahead.lexeme [str ")"] st3.lookahead.position) st3
    let (ifBranch, st4) ← ParseStatement fuel st3'
    let (_, okEl, st5) := matchTok [.ELSE] st4
    if ¬ okEl then
      let st5' := addError (newError st5.lookahead.lexeme [str "else"] st5.lookahead.position) st5
      return (some (Stmt.ifS (some cond) ifBranch none pos), st5')
    let (elseBranch, st6) ← ParseStatement fuel st5
    return (some (Stmt.ifS (some cond) ifBranch elseBranch pos), st6)

/-- source: ParseWhileStatement in part_003. -/
def ParseWhileStatement : Nat → PState → Option (Option Stmt × PState)
  | 0, _ => none
  | fuel + 1, st => do
    let (_, okW, st0) := matchTok [.WHILE] st
    if ¬ okW then return (none, st0)
    let pos := st0.lookahead.position
    let (_, okL, st1) := matchTok [.LPAREN] st0
    let st1' := if okL then st1 else
      addError (newError st1.lookahead.lexeme [str "("] st1.lookahead.position) st1
    let (cond, st2) ← ParseBooleanExpression fuel st1'
    let (_, okR, st3) := matchTok [.RPAREN] st2
    let st3' := if okR then st3 else
      addError (newError st3.lookahead.lexeme [str ")"] st3.lookahead.position) st3
    let (body, st4) ← ParseStatement fuel st3'
    return (some (Stmt.whileS (some cond) body pos), st4)

/-- source: ParseSwitchStatement in part_003.  The source never parses the
selector expression: after LPAREN it immediately expects RPAREN, and
Expression stays nil (none here). -/
def ParseSwitchStatement : Nat → PState → Option (Option Stmt × PState)
  | 0, _ => none
  | fuel + 1, st => do
    let (_, okSw, st0) := matchTok [.SWITCH] st
    if ¬ okSw then return (none, st0)
    let pos := st0.lookahead.position
    let (_, okL, st1) := matchTok [.LPAREN] st0
    let st1' := if okL then st1 else
      addError (newError st1.lookahead.lexeme [str "("] st1.lookahead.position) st1
    let (_, okR, st2) := matchTok [.RPAREN] st1'
    let st2' := if okR then st2 else
      addError (newError st2.lookahead.lexeme [str ")"] st2.lookahead.position) st2
    let (_, okB, st3) := matchTok [.LBRACKET] st2'
    let st3' := if okB then st3 else
      addError (newError st3.lookahead.lexeme [str "\x7b"] st3.lookahead.position) st3
    let (cases, st4) ← ParseSwitchCases fuel st3'
    let (_, okD, st5) := matchTok [.DEFAULT] st4
    let st5' := if okD then st5 else
      addError (newError st5.lookahead.lexeme [str "DEFAULT"] st5.lookahead.position) st5
    let (_, okC, st6) := matchTok [.COLON] st5'
    let st6' := if okC then st6 else
      addError (newError st6.lookahead.lexeme [str ":"] st6.lookahead.position) st6
    let (defaults, st7) ← ParseStatements fuel st6'
    let (_, okRb, st8) := matchTok [.RBRACKET] st7
    let st8' := if okRb then st8 else
      addError (newError st8.lookahead.lexeme [str "\x7d"] st8.lookahead.position) st8
    return (some (Stmt.switchS none cases defaults pos), st8')

/-- source: ParseSwitchCases in part_003.  A NUM lexeme that strconv.ParseInt
rejects yields a message-style diagnostic with the zero-value Position, and
the case value stays 0. -/
def ParseSwitchCases : Nat → PState → Option (List (Int × Position × List Stmt) × PState)
  | 0, _ => none
  | fuel + 1, st =>
    if st.lookahead.tokenType = .CASE then do
      let casePos := st.lookahead.position
      let (_, _, st0) := matchTok [.CASE] st
      let (tokN, okN, st1) := matchTok [.NUM] st0
      let (value, st1') :=
        if okN then
          match parseIntLexeme tokN.lexeme with
          | some v => (v, st1)
          | none =>
            ((0 : Int), addError ⟨tokN.lexeme ++ str " is not an int", [], [], ⟨0, 0⟩⟩ st1)
        else
          ((0 : Int),
            addError (newError st1.lookahead.lexeme [str "NUM"] st1.lookahead.position) st1)
      let (_, okC, st2) := matchTok [.COLON] st1'
      let st2' := if okC then st2 else
        addError (newError st2.lookahead.lexeme [str ":"] st2.lookahead.position) st2
      let (stmts, st3) ← ParseStatements fuel st2'
      let (more, st4) ← ParseSwitchCases fuel st3
      return ((value, casePos, stmts) :: more, st4)
    else some ([], st)

/-- source: ParseBreakStatement in part_003 (the result position is captured
before BREAK is consumed). -/
def ParseBreakStatement : Nat → PState → Option (Option Stmt × PState)
  | 0, _ => none
  | _fuel + 1, st =>
    let pos := st.lookahead.position
    let (_, okB, st0) := matchTok [.BREAK] st
    if ¬ okB then some (none, st0) else
    let (_, okS, st1) := matchTok [.SEMICOLON] st0
    let st1' := if okS then st1 else
      addError (newError st1.lookahead.lexeme [str ";"] st1.lookahead.position) st1
    some (some (Stmt.breakS pos), st1')

/-- source: ParseStatementsBlock in part_003.  On a missing opening bracket
the closing-bracket diagnostic is suppressed, and — faithfully to the Go
pointer aliasing — the block position read at the end through the failed
match's token pointer is whatever the lookahead is at that point. -/
def ParseStatementsBlock : Nat → PState → Option (Stmt × PState)
  | 0, _ => none
  | fuel + 1, st => do
    let (startTok, startBlock, st1) := matchTok [.LBRACKET] st
    let st1' := if startBlock then st1 else
      addError (newError st1.lookahead.lexeme [str "\x7b"] st1.lookahead.position) st1
    let (stmts, st2) ← ParseStatements fuel st1'
    let (_, okR, st3) := matchTok [.RBRACKET] st2
    let st3' := if ¬ okR ∧ startBlock then
      addError (newError st3.lookahead.lexeme [str "\x7d"] st3.lookahead.position) st3
    else st3
    let blockPos := if startBlock then startTok.position else st3'.lookahead.position
    return (Stmt.blockS stmts blockPos, st3')

/-- source: ParseStatements in part_003: collect statements until
ParseStatement yields nil. -/
def ParseStatements : Nat → PState → Option (List Stmt × PState)
  | 0, _ => none
  | fuel + 1, st => do
    let (stmt?, st1) ← ParseStatement fuel st
    match stmt? with
    | none => return ([], st1)
    | some s => do
      let (more, st2) ← ParseStatements fuel st1
      return (s :: more, st2)

/-- source: ParseBooleanExpression in part_003. -/
def ParseBooleanExpression : Nat → PState → Option (BExpr × PState)
  | 0, _ => none
  | fuel + 1, st => do
    let (t, st1) ← ParseBooleanTerm fuel st
    ParseBooleanExpressionLoop fuel t st1

/-- The OR loop of ParseBooleanExpression. -/
def ParseBooleanExpressionLoop : Nat → BExpr → PState → Option (BExpr × PState)
  | 0, _, _ => none
  | fuel + 1, acc, st =>
    if st.lookahead.tokenType = .OR then do
      let (tok, _, st1) := matchTok [.OR] st
      let (t, st2) ← ParseBooleanTerm fuel st1
      ParseBooleanExpressionLoop fuel (BExpr.orB acc t tok.position) st2
    else some (acc, st)

/-- source: ParseBooleanTerm in part_003. -/
def ParseBooleanTerm : Nat → PState → Option (BExpr × PState)
  | 0, _ => none
  | fuel + 1, st => do
    let (t, st1) ← ParseBooleanFactor fuel st
    ParseBooleanTermLoop fuel t st1

/-- The AND loop of ParseBooleanTerm. -/
def ParseBooleanTermLoop : Nat → BExpr → PState → Option (BExpr × PState)
  | 0, _, _ => none
  | fuel + 1, acc, st =>
    if st.lookahead.tokenType = .AND then do
      let (tok, _, st1) := matchTok [.AND] st
      let (t, st2) ← ParseBooleanFactor fuel st1
      ParseBooleanTermLoop fuel (BExpr.andB acc t tok.position) st2
    else some (acc, st)

/-- source: ParseBooleanFactor in part_003.  This is the divergent
production: when the lookahead is not NOT (and also after a NOT with its
opening parenthesis), it calls ParseBooleanExpression on the very same state
and wraps the result in a Not node; no RELOP comparison is ever parsed. -/
def ParseBooleanFactor : Nat → PState → Option (BExpr × PState)
  | 0, _ => none
  | fuel + 1, st =>
    let position := st.lookahead.position
    if st.lookahead.tokenType = .NOT then
      let (_, _, st1) := matchTok [.NOT] st
      let (_, okL, st2) := matchTok [.LPAREN] st1
      if ¬ okL then do
        let st3 := addError (newError st2.lookahead.lexeme [str "("] st2.lookahead.position) st2
        let (expr, st4) ← ParseBooleanExpression fuel st3
        let (_, okR, st5) := matchTok [.RPAREN] st4
        let st5' := if okR then st5 else
          addError (newError st5.lookahead.lexeme [str ")"] st5.lookahead.position) st5
        return (BExpr.notB expr position, st5')
      else do
        let (expr, st3) ← ParseBooleanExpression fuel st2
        return (BExpr.notB expr position, st3)
    else do
      let (expr, st1) ← ParseBooleanExpression fuel st
      return (BExpr.notB expr position, st1)

end

/-- source: Parse in part_003: scan the text, seed the lookahead, run
ParseProgram; returns the AST and the diagnostics. -/
def Parse (fuel : Nat) (s : Str) : Option (Prog × List ParseError) :=
  match tokenize s with
  | [] => none
  | t :: ts => do
    let (prog, st) ← ParseProgram fuel ⟨t, ts, []⟩
    return (prog, st.errors)

/-! ## Code generator (src/cpq/codeGen.go)

codeGen.go is the coherent code generator of the repository (its functions
are written against the AST of dataType.go).  State mutation of the
CodeGenerator receiver becomes explicit state passing; Go's multiple
assignments from method calls appear as pair projections (.1/.2).  The
panic("Invalid type!") branch of codegenCastExpression is modelled by a
panicked flag: Go would abort there, and the safety claim is precisely that
the flag is never set.

The bounded breakStack accesses breakStack[len-1] of the source are modelled
with getLast?/getLastD; on an empty stack Go would panic, and the stack-
restoration invariant proved below shows the guarded accesses only ever run
on the non-empty stacks where both semantics agree.

One structural transformation, documented at the definitions: the source's
CodegenCompareBooleanExpression handles >= and <= by delegating to
CodegenOrBooleanExpression on a rewritten Or node, and
CodegenArithmeticExpression generates its two operands before its shared
tail; here the delegation is unfolded one step (the Or handler applied to two
primitive comparisons) and the arithmetic tail is its own function, so that
the recursions stay structural.  The delegation identity is exactly what the
claim-C7 theorem states and proves. -/

/-- source: Error in errors.go. -/
structure CGError where
  message : Str
  pos : Position
deriving DecidableEq, Repr

/-- source: the CodeGenerator receiver state in codeGen.go, plus the panicked
flag modelling panic("Invalid type!").  The source field Variables appears as
vars (variables is a Lean command keyword). -/
structure CGState where
  output : Str
  errors : List CGError
  vars : List (Str × DataType)
  temporaryIndex : Nat
  labelIndex : Nat
  breakStack : List Str
  panicked : Bool
deriving DecidableEq, Repr

/-- source: the Expression result struct in codeGen.go. -/
structure ExprRes where
  code : Str
  type : DataType
deriving DecidableEq, Repr

/-- Keyed lookup in the Variables map. -/
def lookupVar (vars : List (Str × DataType)) (name : Str) : Option DataType :=
  match vars.find? (fun p => p.1 = name) with
  | some p => some p.2
  | none => none

/-- Append text to the generator's output writer. -/
def emit (st : CGState) (line : Str) : CGState := { st with output := st.output ++ line }

/-- Append a diagnostic. -/
def addCGError (st : CGState) (msg : Str) (pos : Position) : CGState :=
  { st with errors := st.errors ++ [⟨msg, pos⟩] }

/-- source: getNewTemporary in codeGen.go. -/
def getNewTemporary (st : CGState) : Str × CGState :=
  (str "_t" ++ natDigits (st.temporaryIndex + 1),
   { st with temporaryIndex := st.temporaryIndex + 1 })

/-- source: getNewLabel in codeGen.go. -/
def getNewLabel (st : CGState) : Str × CGState :=
  (str "@" ++ natDigits (st.labelIndex + 1), { st with labelIndex := st.labelIndex + 1 })

/-- source: calculateExpressionType in codeGen.go (variadic in Go, always
called with exactly two types). -/
def calculateExpressionType (a b : DataType) : DataType :=
  if a = .Float ∨ b = .Float then .Float else .Integer

/-- source: codegenCastExpression in codeGen.go.  The default branch of the
target-type switch is panic("Invalid type!"); it sets the panicked flag
here. -/
def codegenCastExpression (st : CGState) (exp : ExprRes) (targetType : DataType) :
    ExprRes × CGState :=
  if exp.type = targetType then (exp, st)
  else
    let tp := getNewTemporary st
    let result : ExprRes := ⟨tp.1, targetType⟩
    match targetType with
    | .Integer => (result, emit tp.2 (str "RTOI " ++ tp.1 ++ [' '] ++ exp.code ++ ['\n']))
    | .Float => (result, emit tp.2 (str "ITOR " ++ tp.1 ++ [' '] ++ exp.code ++ ['\n']))
    | .Unknown => (result, { tp.2 with panicked := true })

/-- source: CodegenVariableExpression in codeGen.go. -/
def CodegenVariableExpression (st : CGState) (varNm : Str) (pos : Position) :
    Option ExprRes × CGState :=
  match lookupVar st.vars varNm with
  | none => (none, addCGError st (str "undefined variable " ++ varNm) pos)
  | some t => (some ⟨varNm, t⟩, st)

/-- The tail of CodegenArithmeticExpression in codeGen.go once both operands
are generated: nil propagates; otherwise allocate the result temporary,
promote the type, widen integer operands if the result is float, and emit the
typed opcode. -/
def arithTail (st : CGState) (lhs? : Option ExprRes) (op : Operator)
    (rhs? : Option ExprRes) : Option ExprRes × CGState :=
  match lhs?, rhs? with
  | some lhs, some rhs =>
    let tp := getNewTemporary st
    let resType := calculateExpressionType lhs.type rhs.type
    let result : ExprRes := ⟨tp.1, resType⟩
    let cast3 : ExprRes × ExprRes × CGState :=
      if resType = .Float then
        let l' := codegenCastExpression tp.2 lhs .Float
        let r' := codegenCastExpression l'.2 rhs .Float
        (l'.1, r'.1, r'.2)
      else (lhs, rhs, tp.2)
    let lhs' := cast3.1
    let rhs' := cast3.2.1
    let st4 := cast3.2.2
    let opLine (mnem : String) : Str :=
      str mnem ++ [' '] ++ result.code ++ [' '] ++ lhs'.code ++ [' '] ++ rhs'.code ++ ['\n']
    let st5 :=
      match op with
      | .Add =>
        if resType = .Integer then emit st4 (opLine "IADD")
        else if resType = .Float then emit st4 (opLine "RADD") else st4
      | .Subtract =>
        if resType = .Integer then emit st4 (opLine "ISUB")
        else if resType = .Float then emit st4 (opLine "RSUB") else st4
      | .Multiply =>
        if resType = .Integer then emit st4 (opLine "IMLT")
        else if resType = .Float then emit st4 (opLine "RMLT") else st4
      | .Divide =>
        if resType = .Integer then emit st4 (opLine "IDIV")
        else if resType = .Float then emit st4 (opLine "RDIV") else st4
      | _ => st4
    (some result, st5)
  | _, _ => (none, st)

/-- source: CodegenExpression in codeGen.go, for a non-nil expression node.
The body of CodegenArithmeticExpression is the two recursive operand
generations followed by arithTail. -/
def CodegenExpressionE (st : CGState) : Expr → Option ExprRes × CGState
  | .arithmeticE lhsE op rhsE _ =>
    let l := CodegenExpressionE st lhsE
    let r := CodegenExpressionE l.2 rhsE
    arithTail r.2 l.1 op r.1
  | .variableE varNm pos => CodegenVariableExpression st varNm pos
  | .intLiteral v _ => (some ⟨intRender v, .Integer⟩, st)
  | .floatLiteral r _ => (some ⟨r, .Float⟩, st)

/-- source: CodegenExpression in codeGen.go: a nil expression (or a node kind
outside the type switch) yields nil. -/
def CodegenExpression (st : CGState) : Option Expr → Option ExprRes × CGState
  | none => (none, st)
  | some e => CodegenExpressionE st e

/-- The tail of CodegenOrBooleanExpression in codeGen.go once both operands
are generated: "" propagates; otherwise temp = a+b clamped to 0/1 via IGRT. -/
def orCombine (st : CGState) (a b : Str) : Str × CGState :=
  if a = [] ∨ b = [] then ([], st)
  else
    let tp := getNewTemporary st
    let st2 := emit tp.2 (str "IADD " ++ tp.1 ++ [' '] ++ a ++ [' '] ++ b ++ ['\n'])
    let st3 := emit st2 (str "IGRT " ++ tp.1 ++ [' '] ++ tp.1 ++ str " 0" ++ ['\n'])
    (tp.1, st3)

/-- The tail of CodegenAndBooleanExpression in codeGen.go: temp = a*b. -/
def andCombine (st : CGState) (a b : Str) : Str × CGState :=
  if a = [] ∨ b = [] then ([], st)
  else
    let tp := getNewTemporary st
    (tp.1, emit tp.2 (str "IMLT " ++ tp.1 ++ [' '] ++ a ++ [' '] ++ b ++ ['\n']))

/-- The tail of CodegenNotBooleanExpression in codeGen.go: temp = 1 - a. -/
def notCombine (st : CGState) (a : Str) : Str × CGState :=
  if a = [] then ([], st)
  else
    let tp := getNewTemporary st
    (tp.1, emit tp.2 (str "ISUB " ++ tp.1 ++ str " 1 " ++ a ++ ['\n']))

/-- source: CodegenCompareBooleanExpression in codeGen.go for the four
primitive operators (the part after the >= and <= rewrites): generate both
sides, promote to float if either side is float, emit the typed comparison
opcode into a fresh temporary. -/
def CodegenComparePrim (st : CGState) (lhsE : Expr) (op : Operator) (rhsE : Expr) :
    Str × CGState :=
  let l := CodegenExpressionE st lhsE
  let r := CodegenExpressionE l.2 rhsE
  match l.1, r.1 with
  | some lhs, some rhs =>
    let compareType := calculateExpressionType lhs.type rhs.type
    let cast3 : ExprRes × ExprRes × CGState :=
      if compareType = .Float then
        let l' := codegenCastExpression r.2 lhs .Float
        let r' := codegenCastExpression l'.2 rhs .Float
        (l'.1, r'.1, r'.2)
      else (lhs, rhs, r.2)
    let lhs' := cast3.1
    let rhs' := cast3.2.1
    let tp := getNewTemporary cast3.2.2
    let opLine (mnem : String) : Str :=
      str mnem ++ [' '] ++ tp.1 ++ [' '] ++ lhs'.code ++ [' '] ++ rhs'.code ++ ['\n']
    let st5 :=
      match op with
      | .EqualTo =>
        if compareType = .Integer then emit tp.2 (opLine "IEQL")
        else if compareType = .Float then emit tp.2 (opLine "REQL") else tp.2
      | .NotEqualTo =>
        if compareType = .Integer then emit tp.2 (opLine "INQL")
        else if compareType = .Float then emit tp.2 (opLine "RNQL") else tp.2
      | .GreaterThan =>
        if compareType = .Integer then emit tp.2 (opLine "IGRT")
        else if compareType = .Float then emit tp.2 (opLine "RGRT") else tp.2
      | .LessThan =>
        if compareType = .Integer then emit tp.2 (opLine "ILSS")
        else if compareType = .Float then emit tp.2 (opLine "RLSS") else tp.2
      | _ => tp.2
    (tp.1, st5)
  | _, _ => ([], r.2)

/-- source: CodegenBooleanExpression in codeGen.go and its four handlers.
In codeGen.go the >= (resp. <=) branch of CodegenCompareBooleanExpression
delegates to CodegenOrBooleanExpression applied to the rewritten node
Or(Compare(==), Compare(>)) (resp. Compare(<)); since the Or handler on a
Compare child is exactly CodegenComparePrim, that delegation is unfolded one
step here to keep the recursion structural.  The claim-C7 theorem states and
proves the delegation identity against this definition. -/
def CodegenBooleanExpressionB (st : CGState) : BExpr → Str × CGState
  | .orB l r _ =>
    let a := CodegenBooleanExpressionB st l
    let b := CodegenBooleanExpressionB a.2 r
    orCombine b.2 a.1 b.1
  | .andB l r _ =>
    let a := CodegenBooleanExpressionB st l
    let b := CodegenBooleanExpressionB a.2 r
    andCombine b.2 a.1 b.1
  | .notB v _ =>
    let a := CodegenBooleanExpressionB st v
    notCombine a.2 a.1
  | .compareB lhs op rhs _ =>
    if op = .GreaterThanOrEqualTo then
      let a := CodegenComparePrim st lhs .EqualTo rhs
      let b := CodegenComparePrim a.2 lhs .GreaterThan rhs
      orCombine b.2 a.1 b.1
    else if op = .LessThenOrEqualTo then
      let a := CodegenComparePrim st lhs .EqualTo rhs
      let b := CodegenComparePrim a.2 lhs .LessThan rhs
      orCombine b.2 a.1 b.1
    else CodegenComparePrim st lhs op rhs

/-- source: CodegenBooleanExpression on a possibly-nil node: nil (or a node
kind outside the type switch) yields "". -/
def CodegenBooleanExpression (st : CGState) : Option BExpr → Str × CGState
  | none => ([], st)
  | some b => CodegenBooleanExpressionB st b

/-- source: CodegenAssignmentStatement in codeGen.go. -/
def CodegenAssignmentStatement (st : CGState) (varNm : Str) (value : Option Expr)
    (castType : DataType) (pos : Position) : CGState :=
  let e := CodegenExpression st value
  match lookupVar e.2.vars varNm with
  | none => addCGError e.2 (str "undefined variable " ++ varNm) pos
  | some vt =>
    match e.1 with
    | none => e.2
    | some exp0 =>
      let c1 : ExprRes × CGState :=
        if castType ≠ .Unknown ∧ castType ≠ exp0.type then
          codegenCastExpression e.2 exp0 castType
        else (exp0, e.2)
      if vt = .Integer ∧ c1.1.type = .Float then
        addCGError c1.2 (str "cannot assign float value to int variable " ++ varNm) pos
      else
        let c2 : ExprRes × CGState :=
          if vt = .Float ∧ c1.1.type = .Integer then codegenCastExpression c1.2 c1.1 .Float
          else c1
        if vt = .Integer then emit c2.2 (str "IASN " ++ varNm ++ [' '] ++ c2.1.code ++ ['\n'])
        else if vt = .Float then
          emit c2.2 (str "RASN " ++ varNm ++ [' '] ++ c2.1.code ++ ['\n'])
        else c2.2

/-- source: CodegenInputStatement in codeGen.go. -/
def CodegenInputStatement (st : CGState) (varNm : Str) (pos : Position) : CGState :=
  match lookupVar st.vars varNm with
  | none => addCGError st (str "undefined variable " ++ varNm) pos
  | some vt =>
    if vt = .Integer then emit st (str "IINP " ++ varNm ++ ['\n'])
    else if vt = .Float then emit st (str "RINP " ++ varNm ++ ['\n'])
    else st

/-- source: CodegenOutputStatement in codeGen.go. -/
def CodegenOutputStatement (st : CGState) (value : Option Expr) : CGState :=
  let e := CodegenExpression st value
  match e.1 with
  | none => e.2
  | some exp =>
    if exp.type = .Integer then emit e.2 (str "IPRT " ++ exp.code ++ ['\n'])
    else if exp.type = .Float then emit e.2 (str "RPRT " ++ exp.code ++ ['\n'])
    else e.2

/-- source: CodegenBreakStatement in codeGen.go. -/
def CodegenBreakStatement (st : CGState) (pos : Position) : CGState :=
  if st.breakStack = [] then
    addCGError st (str "break statement must be inside a while loop or a switch case") pos
  else
    emit st (str "JUMP " ++ st.breakStack.getLastD [] ++ ['\n'])

/-- The guarded break-stack pop shared by CodegenWhileStatement and
CodegenSwitchStatement in codeGen.go: pop only if the top of the stack is
still this construct's own end label. -/
def popGuard (st : CGState) (endLabel : Str) : CGState :=
  if st.breakStack.getLast? = some endLabel then
    { st with breakStack := st.breakStack.dropLast }
  else st

/-- The selector type check of CodegenSwitchStatement in codeGen.go: a
non-integer selector is reported but generation continues. -/
def switchTypeCheck (st : CGState) (ty : DataType) (pos : Position) : CGState :=
  if ty ≠ .Integer then addCGError st (str "switch expression must be an integer") pos
  else st

/-- The first loop of CodegenSwitchStatement in codeGen.go: per case, allocate
a fresh label, emit the INQL test into the shared temporary and the JMPZ to
that label; returns the final state and the per-case labels in order. -/
def CodegenSwitchJumps (st : CGState) (temp expCode : Str) :
    List (Int × Position × List Stmt) → CGState × List Str
  | [] => (st, [])
  | (v, _, _) :: rest =>
    let lp := getNewLabel st
    let st2 := emit lp.2
      (str "INQL " ++ temp ++ [' '] ++ expCode ++ [' '] ++ intRender v ++ ['\n'])
    let st3 := emit st2 (str "JMPZ " ++ lp.1 ++ [' '] ++ temp ++ ['\n'])
    let more := CodegenSwitchJumps st3 temp expCode rest
    (more.1, lp.1 :: more.2)

mutual

/-- source: CodegenStatement in codeGen.go: dispatch on the statement kind; a
nil statement falls through the type switch and generates nothing. -/
def CodegenStatement (st : CGState) : Option Stmt → CGState
  | none => st
  | some s => CodegenStatementS st s

/-- The per-kind cases of CodegenStatement in codeGen.go.  The recursive
statement handlers of the source (CodegenIfStatement, CodegenWhileStatement,
CodegenSwitchStatement) are inlined into their match arms so that the
recursion over the statement tree is structural; the non-recursive handlers
keep their own definitions. -/
def CodegenStatementS (st : CGState) : Stmt → CGState
  | .assignS v val ct pos => CodegenAssignmentStatement st v val ct pos
  | .inputS v pos => CodegenInputStatement st v pos
  | .outputS val _ => CodegenOutputStatement st val
  | .ifS cond ifBranch elseBranch _ =>
    -- source: CodegenIfStatement in codeGen.go
    let c := CodegenBooleanExpression st cond
    let endL := getNewLabel c.2
    (match elseBranch with
    | some _ =>
      let elseL := getNewLabel endL.2
      let st4 := emit elseL.2 (str "JMPZ " ++ elseL.1 ++ [' '] ++ c.1 ++ ['\n'])
      let st5 := CodegenStatement st4 ifBranch
      let st6 := emit st5 (str "JUMP " ++ endL.1 ++ ['\n'])
      let st7 := emit st6 (elseL.1 ++ str ":" ++ ['\n'])
      let st8 := CodegenStatement st7 elseBranch
      emit st8 (endL.1 ++ str ":" ++ ['\n'])
    | none =>
      let st3 := emit endL.2 (str "JMPZ " ++ endL.1 ++ [' '] ++ c.1 ++ ['\n'])
      let st4 := CodegenStatement st3 ifBranch
      emit st4 (endL.1 ++ str ":" ++ ['\n']))
  | .whileS cond body _ =>
    -- source: CodegenWhileStatement in codeGen.go
    let condL := getNewLabel st
    let endL := getNewLabel condL.2
    let st3 := emit endL.2 (condL.1 ++ str ":" ++ ['\n'])
    let c := CodegenBooleanExpression st3 cond
    let st5 := emit c.2 (str "JMPZ " ++ endL.1 ++ [' '] ++ c.1 ++ ['\n'])
    let st6 := { st5 with breakStack := st5.breakStack ++ [endL.1] }
    let st7 := CodegenStatement st6 body
    let st8 := popGuard st7 endL.1
    let st9 := emit st8 (str "JUMP " ++ condL.1 ++ ['\n'])
    emit st9 (endL.1 ++ str ":" ++ ['\n'])
  | .switchS sel cases dflt pos =>
    -- source: CodegenSwitchStatement in codeGen.go
    let e := CodegenExpression st sel
    (match e.1 with
    | none => e.2
    | some exp =>
      let st2 := switchTypeCheck e.2 exp.type pos
      let tp := getNewTemporary st2
      let jmps := CodegenSwitchJumps tp.2 tp.1 exp.code cases
      let defL := getNewLabel jmps.1
      let endL := getNewLabel defL.2
      let st7 := emit endL.2 (str "JUMP " ++ defL.1 ++ ['\n'])
      let st8 := { st7 with breakStack := st7.breakStack ++ [endL.1] }
      let st9 := CodegenSwitchBodies st8 jmps.2 cases
      let st10 := emit st9 (defL.1 ++ str ":" ++ ['\n'])
      let st11 := CodegenStatementsBlock st10 dflt
      let st12 := popGuard st11 endL.1
      emit st12 (endL.1 ++ str ":" ++ ['\n']))
  | .breakS pos => CodegenBreakStatement st pos
  | .blockS stmts _ => CodegenStatementsBlock st stmts

/-- The second loop of CodegenSwitchStatement in codeGen.go: per case, place
its label and generate its statements (wrapped in a StatementsBlock by the
source). -/
def CodegenSwitchBodies (st : CGState) (labels : List Str) :
    List (Int × Position × List Stmt) → CGState
  | [] => st
  | (_, _, body) :: rest =>
    let st1 := emit st (labels.headD [] ++ str ":" ++ ['\n'])
    let st2 := CodegenStatementsBlock st1 body
    CodegenSwitchBodies st2 labels.tail rest

/-- source: CodegenStatementsBlock in codeGen.go. -/
def CodegenStatementsBlock (st : CGState) : List Stmt → CGState
  | [] => st
  | s :: rest => CodegenStatementsBlock (CodegenStatementS st s) rest

end

/-- The inner declaration-name loop of CodegenProgram: insert each declared
name, or report a redefinition keeping the first binding. -/
def buildNames (st : CGState) (ty : DataType) (pos : Position) : List Str → CGState
  | [] => st
  | name :: rest =>
    if (lookupVar st.vars name).isSome then
      buildNames (addCGError st (str "variable " ++ name ++ str " already defined") pos)
        ty pos rest
    else buildNames { st with vars := st.vars ++ [(name, ty)] } ty pos rest

/-- The outer declaration loop of CodegenProgram. -/
def buildVariables (st : CGState) : List Decl → CGState
  | [] => st
  | d :: rest => buildVariables (buildNames st d.type d.position d.names) rest

/-- source: CodegenProgram in codeGen.go: symbol table, statements, HALT. -/
def CodegenProgram (st : CGState) (prog : Prog) : CGState :=
  let st1 := buildVariables st prog.declarations
  let st2 := CodegenStatement st1 (some prog.statementsBlock)
  emit st2 (str "HALT" ++ ['\n'])

/-- The fresh generator state of NewCodeGenerator. -/
def initCG : CGState := ⟨[], [], [], 0, 0, [], false⟩

/-- source: Codegen in codeGen.go: run a fresh generator over the program and
return the generated text with the diagnostics. -/
def Codegen (prog : Prog) : Str × List CGError :=
  let st := CodegenProgram initCG prog
  (st.output, st.errors)

/-! ## Label finalization (RemoveLabels, src/cpq/codeGen.go; the same function
appears in cpl_pars.go and main_cpq.go)

strings.ReplaceAll is modelled by replaceAll below: leftmost-first,
non-overlapping replacement that continues scanning after the replacement
text (never rescanning it), exactly Go's semantics for a non-empty pattern.
The recursion is driven by an explicit fuel so that the definition reduces
inside the kernel; fuel s.length always suffices, which is what the wrapper
passes.  strings.Split on "\n" is splitNl (keeping empty fields, so a text
ending in a newline yields a final empty line). -/

/-- strings.ReplaceAll with explicit fuel.  Each step either consumes one
character or a whole pattern occurrence, so fuel = length of the text is
always enough (an empty pattern, which Go treats specially, never occurs in
RemoveLabels and is treated as no match). -/
def replaceAllF : Nat → Str → Str → Str → Str
  | 0, _, _, s => s
  | fuel + 1, pat, rep, s =>
    match s with
    | [] => []
    | c :: rest =>
      if pat ≠ [] ∧ pat.isPrefixOf (c :: rest) then
        rep ++ replaceAllF fuel pat rep (List.drop (pat.length - 1) rest)
      else c :: replaceAllF fuel pat rep rest

/-- strings.ReplaceAll(s, pat, rep). -/
def replaceAll (pat rep s : Str) : Str := replaceAllF s.length pat rep s

/-- strings.Split(s, "\n"): split at every newline, keeping empty fields. -/
def splitNl : Str → List Str
  | [] => [[]]
  | c :: rest =>
    if c = '\n' then [] :: splitNl rest
    else
      match splitNl rest with
      | [] => [[c]]
      | l :: ls => (c :: l) :: ls

/-- Join lines with newlines (the inverse of splitNl on newline-free lines). -/
def joinNl : List Str → Str
  | [] => []
  | [l] => l
  | l :: ls => l ++ '\n' :: joinNl ls

/-- One iteration of the RemoveLabels loop in codeGen.go: when the original
line i (0-based) is a label-definition line, delete that line from the
current text and substitute the label text by the decimal line number
i - labels + 1 everywhere; labels counts the label lines already processed. -/
def rlStep : Str × Nat → Nat × Str → Str × Nat :=
  fun ql il =>
    let quad := ql.1
    let labels := ql.2
    let i := il.1
    let line := il.2
    if line.getLast? = some ':' then
      let label := line.dropLast
      let q1 := replaceAll (line ++ ['\n']) [] quad
      let q2 := replaceAll label (natDigits (i - labels + 1)) q1
      (q2, labels + 1)
    else (quad, labels)

/-- source: RemoveLabels in codeGen.go: iterate over the lines of the
original text (computed once, before any mutation) while mutating the running
text. -/
def RemoveLabels (quad : Str) : Str :=
  ((splitNl quad).enum.foldl rlStep (quad, 0)).1

/-- The full pipeline of the repository's main: Parse, then Codegen, then
label finalization of the generated text.  The fuel is the parser's
recursion-depth bound. -/
def compile (fuel : Nat) (source : Str) :
    Option (Str × List ParseError × List CGError) :=
  match Parse fuel source with
  | none => none
  | some (prog, perrs) =>
    let (out, cerrs) := Codegen prog
    some (RemoveLabels out, perrs, cerrs)

/-- The fixed keyword table of scanIdentifier in part_000, in source order. -/
def keywordTable : List (Str × TokenType) :=
  [(str "break", .BREAK), (str "case", .CASE), (str "default", .DEFAULT),
   (str "else", .ELSE), (str "float", .FLOAT), (str "if", .IF),
   (str "input", .INPUT), (str "int", .INT), (str "output", .OUTPUT),
   (str "switch", .SWITCH), (str "while", .WHILE), (str "static_cast", .STATICCAST)]

/-- Whether a lexeme is one of the twelve keywords. -/
def isKeywordLexeme (s : Str) : Bool := keywordTable.any (fun k => k.1 = s)

/-- The text the first loop of CodegenSwitchStatement emits: per case, an
INQL of the shared temporary against the case value and a JMPZ to that
case's fresh label (labels are allocated consecutively from labelIdx + 1). -/
def switchPairsText (temp code : Str) (labelIdx : Nat) :
    List (Int × Position × List Stmt) → Str
  | [] => []
  | (v, _, _) :: rest =>
    (str "INQL " ++ temp ++ [' '] ++ code ++ [' '] ++ intRender v ++ ['\n']) ++
    (str "JMPZ @" ++ natDigits (labelIdx + 1) ++ [' '] ++ temp ++ ['\n']) ++
    switchPairsText temp code (labelIdx + 1) rest

/-- The per-case labels the first loop allocates, in case order. -/
def switchCaseLabels (labelIdx : Nat) : List (Int × Position × List Stmt) → List Str
  | [] => []
  | _ :: rest => (str "@" ++ natDigits (labelIdx + 1)) :: switchCaseLabels (labelIdx + 1) rest

/-! ### A structural model of generator quad texts (claim C3, amended)

A quad text is a list of lines; each line is either a label definition
"@d:" or an instruction assembled from '@'-free text segments and label
references "@d".  This is the shape of every text the code generator
produces. -/

/-- A segment of an instruction line: literal text or a label reference. -/
inductive QuadTok where
  | txt (s : Str)
  | ref (d : Nat)
deriving DecidableEq, Repr

/-- A line of a quad text: a label definition or an instruction. -/
inductive QLine where
  | lbl (d : Nat)
  | ins (toks : List QuadTok)
deriving DecidableEq, Repr

def renderTok : QuadTok → Str
  | .txt s => s
  | .ref d => '@' :: natDigits d

def renderToks : List QuadTok → Str
  | [] => []
  | t :: ts => renderTok t ++ renderToks ts

def renderQLine : QLine → Str
  | .lbl d => '@' :: (natDigits d ++ [':'])
  | .ins toks => renderToks toks

def isLbl : QLine → Bool
  | .lbl _ => true
  | .ins _ => false

/-- Conditions on a token of an instruction line: text is free of '@' and of
newlines; references name an existing label. -/
def tokOK (k : Nat) : QuadTok → Prop
  | .txt s => '@' ∉ s ∧ '\n' ∉ s
  | .ref d => 1 ≤ d ∧ d ≤ k

instance (k : Nat) (t : QuadTok) : Decidable (tokOK k t) := by
  cases t <;> dsimp [tokOK] <;> infer_instance

/-- Conditions on a line: labels are in range; instruction lines are made of
well-formed tokens and do not end with ':'. -/
def lineOK (k : Nat) : QLine → Prop
  | .lbl d => 1 ≤ d ∧ d ≤ k
  | .ins toks => (∀ t ∈ toks, tokOK k t) ∧ (renderToks toks).getLast? ≠ some ':'

instance (k : Nat) (l : QLine) : Decidable (lineOK k l) := by
  cases l <;> dsimp [lineOK] <;> infer_instance

/-- Does a quad end with an instruction line?  (A generator text always ends
with the empty line after the final newline.) -/
def endsIns : List QLine → Bool
  | [] => false
  | [QLine.ins _] => true
  | _ :: ls => endsIns ls

/-- Well-formedness of a quad text with labels @1 .. @k, k ≤ 9: every line is
well formed, every label is defined exactly once, and the text ends with an
instruction line. -/
def QuadWF (k : Nat) (qs : List QLine) : Prop :=
  1 ≤ k ∧ k ≤ 9 ∧
  (∀ l ∈ qs, lineOK k l) ∧
  (∀ d ∈ List.range' 1 k, (qs.filter (fun l => l = QLine.lbl d)).length = 1) ∧
  endsIns qs = true

instance (k : Nat) (qs : List QLine) : Decidable (QuadWF k qs) := by
  dsimp [QuadWF]
  infer_instance

/-- Number of label lines. -/
def countLbl (qs : List QLine) : Nat := qs.countP (fun l => isLbl l)

/-- Index of the definition line of label d. -/
def lblIdx (qs : List QLine) (d : Nat) : Nat :=
  qs.findIdx (fun l => l = QLine.lbl d)

/-- The line number substituted for label d by RemoveLabels: its
definition-line index minus the number of label lines above it, plus one. -/
def lblNum (qs : List QLine) (d : Nat) : Nat :=
  lblIdx qs d - countLbl (qs.take (lblIdx qs d)) + 1

/-- The labels defined among a list of lines. -/
def lblsOf (pre : List QLine) : List Nat :=
  pre.filterMap (fun l => match l with | .lbl d => some d | .ins _ => none)

/-- Substitute the already-processed labels (those in σ) by their line
numbers. -/
def substTok (qs : List QLine) (σ : List Nat) : QuadTok → QuadTok
  | .txt s => .txt s
  | .ref d => if d ∈ σ then .txt (natDigits (lblNum qs d)) else .ref d

def substQLine (qs : List QLine) (σ : List Nat) : QLine → QLine
  | .lbl d => .lbl d
  | .ins toks => .ins (toks.map (substTok qs σ))

/-- The current line list of the RemoveLabels loop after processing the
lines of pre: label lines of pre are deleted, and the labels of pre are
substituted everywhere. -/
def viewLines (qs pre suf : List QLine) : List Str :=
  ((pre.filter (fun l => ¬ isLbl l)) ++ suf).map
    (fun l => renderQLine (substQLine qs (lblsOf pre) l))

/-- The loop state (current text, labels counter) after processing pre. -/
def viewStateRL (qs pre suf : List QLine) : Str × Nat :=
  (joinNl (viewLines qs pre suf), countLbl pre)

/-- How the deletion loop acts on a line list: delete every non-last line
equal to L (the last line, never followed by a newline, can never match). -/
def removeAllL (L : Str) : List Str → List Str
  | [] => []
  | [l] => [l]
  | l :: ls => if l = L then removeAllL L ls else l :: removeAllL L ls

/-- A program of five if/else statements over the integer variable x; its
generated code defines the ten labels @1 .. @10. -/
def fiveIfProg : Prog :=
  let posZ : Position := ⟨0, 0⟩
  let xvar : Expr := Expr.variableE (str "x") posZ
  let cond : BExpr := BExpr.compareB xvar Operator.EqualTo xvar posZ
  let emptyB : Stmt := Stmt.blockS [] posZ
  let oneIf : Stmt := Stmt.ifS (some cond) (some emptyB) (some emptyB) posZ
  ⟨[⟨[str "x"], DataType.Integer, posZ⟩],
   Stmt.blockS [oneIf, oneIf, oneIf, oneIf, oneIf] posZ, posZ⟩

/-- A concrete well-formed quad: the generated text of a single if/else
(labels @1 and @2), as a structural quad. -/
def c3WitnessLines : List QLine :=
  [QLine.ins [QuadTok.txt (str "IEQL _t1 x x")],
   QLine.ins [QuadTok.txt (str "JMPZ "), QuadTok.ref 2, QuadTok.txt (str " _t1")],
   QLine.ins [QuadTok.txt (str "JUMP "), QuadTok.ref 1],
   QLine.lbl 2,
   QLine.lbl 1,
   QLine.ins [QuadTok.txt (str "HALT")],
   QLine.ins []]

/-! ## Claim theorems -/

/-- C7: for every Compare node with operator GreaterThanOrEqualTo
(respectively LessThenOrEqualTo) and every generator state, code generation
emits exactly the same instruction sequence and returns the same temporary
name as code generation of Or(Compare(lhs, EqualTo, rhs), Compare(lhs,
GreaterThan, rhs)) (respectively with LessThan) from that same state: the
result pairs (temporary name, post state — including the emitted output
text) are equal, for arbitrary node positions. -/
theorem c7_compare_ge_le_rewrite (st : CGState) (lhs rhs : Expr) (p q r s : Position) :
    CodegenBooleanExpressionB st (.compareB lhs .GreaterThanOrEqualTo rhs p) =
      CodegenBooleanExpressionB st
        (.orB (.compareB lhs .EqualTo rhs q) (.compareB lhs .GreaterThan rhs r) s) ∧
    CodegenBooleanExpressionB st (.compareB lhs .LessThenOrEqualTo rhs p) =
      CodegenBooleanExpressionB st
        (.orB (.compareB lhs .EqualTo rhs q) (.compareB lhs .LessThan rhs r) s) :=
  ⟨rfl, rfl⟩

/-- C8: a break statement with an empty break-target stack records exactly
the diagnostic "break statement must be inside a while loop or a switch
case" (and emits nothing); with a non-empty stack it emits exactly one
unconditional JUMP to the top of the stack (and records nothing). -/
theorem c8_break_stack (st : CGState) (pos : Position) :
    (st.breakStack = [] →
      CodegenBreakStatement st pos =
        { st with errors := st.errors ++
          [⟨str "break statement must be inside a while loop or a switch case", pos⟩] }) ∧
    (st.breakStack ≠ [] →
      CodegenBreakStatement st pos =
        { st with output := st.output ++
          (str "JUMP " ++ st.breakStack.getLastD [] ++ ['\n']) }) := by
  constructor
  · intro h
    simp [CodegenBreakStatement, addCGError, h]
  · intro h
    simp [CodegenBreakStatement, h, emit]

/-- Witness for c8_break_stack: both branches exercised at concrete states. -/
theorem c8_break_stack_witness :
    (CodegenBreakStatement initCG ⟨0, 0⟩).errors.length = 1 ∧
    (CodegenBreakStatement { initCG with breakStack := [str "@1"] } ⟨0, 0⟩).output =
      str "JUMP @1\n" := by
  constructor
  · rw [(c8_break_stack initCG ⟨0, 0⟩).1 rfl]
    rfl
  · rw [(c8_break_stack { initCG with breakStack := [str "@1"] } ⟨0, 0⟩).2 (by simp)]
    rfl

/-! ### State-preservation lemmas for the code generator

Expression and boolean-expression generation never touches the break stack,
and no reachable cast call passes Unknown, so the panicked flag is never
set.  These small lemmas feed the claim-C9 and claim-C10 inductions. -/

theorem emit_breakStack (st : CGState) (l : Str) : (emit st l).breakStack = st.breakStack := rfl

theorem emit_panicked (st : CGState) (l : Str) : (emit st l).panicked = st.panicked := rfl

theorem getNewTemporary_breakStack (st : CGState) :
    (getNewTemporary st).2.breakStack = st.breakStack := rfl

theorem getNewTemporary_panicked (st : CGState) :
    (getNewTemporary st).2.panicked = st.panicked := rfl

theorem getNewLabel_breakStack (st : CGState) :
    (getNewLabel st).2.breakStack = st.breakStack := rfl

theorem getNewLabel_panicked (st : CGState) :
    (getNewLabel st).2.panicked = st.panicked := rfl

theorem codegenCastExpression_breakStack (st : CGState) (e : ExprRes) (t : DataType) :
    (codegenCastExpression st e t).2.breakStack = st.breakStack := by
  unfold codegenCastExpression
  split
  · rfl
  · cases t <;> rfl

theorem codegenCastExpression_panicked (st : CGState) (e : ExprRes) (t : DataType)
    (h : t ≠ .Unknown) : (codegenCastExpression st e t).2.panicked = st.panicked := by
  unfold codegenCastExpression
  split
  · rfl
  · cases t with
    | Unknown => exact absurd rfl h
    | Float => rfl
    | Integer => rfl

theorem arithTail_breakStack (st : CGState) (a : Option ExprRes) (op : Operator)
    (b : Option ExprRes) : (arithTail st a op b).2.breakStack = st.breakStack := by
  unfold arithTail
  cases a with
  | none => cases b <;> rfl
  | some lhs =>
    cases b with
    | none => rfl
    | some rhs =>
      dsimp only
      cases op <;> split_ifs <;>
        simp [emit_breakStack, codegenCastExpression_breakStack, getNewTemporary_breakStack]

theorem arithTail_panicked (st : CGState) (a : Option ExprRes) (op : Operator)
    (b : Option ExprRes) : (arithTail st a op b).2.panicked = st.panicked := by
  unfold arithTail
  cases a with
  | none => cases b <;> rfl
  | some lhs =>
    cases b with
    | none => rfl
    | some rhs =>
      dsimp only
      cases op <;> split_ifs <;>
        simp [emit_panicked, getNewTemporary_panicked,
          codegenCastExpression_panicked]

theorem addCGError_breakStack (st : CGState) (m : Str) (p : Position) :
    (addCGError st m p).breakStack = st.breakStack := rfl

theorem addCGError_panicked (st : CGState) (m : Str) (p : Position) :
    (addCGError st m p).panicked = st.panicked := rfl

theorem CodegenVariableExpression_breakStack (st : CGState) (v : Str) (p : Position) :
    (CodegenVariableExpression st v p).2.breakStack = st.breakStack := by
  unfold CodegenVariableExpression
  split <;> rfl

theorem CodegenVariableExpression_panicked (st : CGState) (v : Str) (p : Position) :
    (CodegenVariableExpression st v p).2.panicked = st.panicked := by
  unfold CodegenVariableExpression
  split <;> rfl

theorem CodegenExpressionE_breakStack (st : CGState) (e : Expr) :
    (CodegenExpressionE st e).2.breakStack = st.breakStack := by
  induction e generalizing st with
  | arithmeticE lhsE op rhsE _ ihl ihr =>
    simp only [CodegenExpressionE]
    rw [arithTail_breakStack, ihr, ihl]
  | variableE v p => exact CodegenVariableExpression_breakStack st v p
  | intLiteral v _ => rfl
  | floatLiteral r _ => rfl

theorem CodegenExpressionE_panicked (st : CGState) (e : Expr) :
    (CodegenExpressionE st e).2.panicked = st.panicked := by
  induction e generalizing st with
  | arithmeticE lhsE op rhsE _ ihl ihr =>
    simp only [CodegenExpressionE]
    rw [arithTail_panicked, ihr, ihl]
  | variableE v p => exact CodegenVariableExpression_panicked st v p
  | intLiteral v _ => rfl
  | floatLiteral r _ => rfl

theorem CodegenExpression_breakStack (st : CGState) (e : Option Expr) :
    (CodegenExpression st e).2.breakStack = st.breakStack := by
  cases e with
  | none => rfl
  | some e => exact CodegenExpressionE_breakStack st e

theorem CodegenExpression_panicked (st : CGState) (e : Option Expr) :
    (CodegenExpression st e).2.panicked = st.panicked := by
  cases e with
  | none => rfl
  | some e => exact CodegenExpressionE_panicked st e

theorem orCombine_breakStack (st : CGState) (a b : Str) :
    (orCombine st a b).2.breakStack = st.breakStack := by
  unfold orCombine
  split_ifs <;> simp [emit_breakStack, getNewTemporary_breakStack]

theorem orCombine_panicked (st : CGState) (a b : Str) :
    (orCombine st a b).2.panicked = st.panicked := by
  unfold orCombine
  split_ifs <;> simp [emit_panicked, getNewTemporary_panicked]

theorem andCombine_breakStack (st : CGState) (a b : Str) :
    (andCombine st a b).2.breakStack = st.breakStack := by
  unfold andCombine
  split_ifs <;> simp [emit_breakStack, getNewTemporary_breakStack]

theorem andCombine_panicked (st : CGState) (a b : Str) :
    (andCombine st a b).2.panicked = st.panicked := by
  unfold andCombine
  split_ifs <;> simp [emit_panicked, getNewTemporary_panicked]

theorem notCombine_breakStack (st : CGState) (a : Str) :
    (notCombine st a).2.breakStack = st.breakStack := by
  unfold notCombine
  split_ifs <;> simp [emit_breakStack, getNewTemporary_breakStack]

theorem notCombine_panicked (st : CGState) (a : Str) :
    (notCombine st a).2.panicked = st.panicked := by
  unfold notCombine
  split_ifs <;> simp [emit_panicked, getNewTemporary_panicked]

theorem CodegenComparePrim_breakStack (st : CGState) (l : Expr) (op : Operator) (r : Expr) :
    (CodegenComparePrim st l op r).2.breakStack = st.breakStack := by
  unfold CodegenComparePrim
  dsimp only
  have hl := CodegenExpressionE_breakStack st l
  have hr := CodegenExpressionE_breakStack (CodegenExpressionE st l).2 r
  split
  case h_1 lhs rhs heq1 heq2 =>
    cases op <;> split_ifs <;>
      simp_all [emit_breakStack, codegenCastExpression_breakStack, getNewTemporary_breakStack]
  case h_2 =>
    rw [hr, hl]

theorem CodegenComparePrim_panicked (st : CGState) (l : Expr) (op : Operator) (r : Expr) :
    (CodegenComparePrim st l op r).2.panicked = st.panicked := by
  unfold CodegenComparePrim
  dsimp only
  have hl := CodegenExpressionE_panicked st l
  have hr := CodegenExpressionE_panicked (CodegenExpressionE st l).2 r
  split
  case h_1 lhs rhs heq1 heq2 =>
    cases op <;> split_ifs <;>
      simp_all [emit_panicked, codegenCastExpression_panicked, getNewTemporary_panicked]
  case h_2 =>
    rw [hr, hl]

theorem CodegenBooleanExpressionB_breakStack (st : CGState) (b : BExpr) :
    (CodegenBooleanExpressionB st b).2.breakStack = st.breakStack := by
  induction b generalizing st with
  | orB l r _ ihl ihr =>
    simp only [CodegenBooleanExpressionB]
    rw [orCombine_breakStack, ihr, ihl]
  | andB l r _ ihl ihr =>
    simp only [CodegenBooleanExpressionB]
    rw [andCombine_breakStack, ihr, ihl]
  | notB v _ ih =>
    simp only [CodegenBooleanExpressionB]
    rw [notCombine_breakStack, ih]
  | compareB lhs op rhs _ =>
    simp only [CodegenBooleanExpressionB]
    split_ifs <;>
      simp [orCombine_breakStack, CodegenComparePrim_breakStack]

theorem CodegenBooleanExpressionB_panicked (st : CGState) (b : BExpr) :
    (CodegenBooleanExpressionB st b).2.panicked = st.panicked := by
  induction b generalizing st with
  | orB l r _ ihl ihr =>
    simp only [CodegenBooleanExpressionB]
    rw [orCombine_panicked, ihr, ihl]
  | andB l r _ ihl ihr =>
    simp only [CodegenBooleanExpressionB]
    rw [andCombine_panicked, ihr, ihl]
  | notB v _ ih =>
    simp only [CodegenBooleanExpressionB]
    rw [notCombine_panicked, ih]
  | compareB lhs op rhs _ =>
    simp only [CodegenBooleanExpressionB]
    split_ifs <;>
      simp [orCombine_panicked, CodegenComparePrim_panicked]

theorem CodegenBooleanExpression_breakStack (st : CGState) (b : Option BExpr) :
    (CodegenBooleanExpression st b).2.breakStack = st.breakStack := by
  cases b with
  | none => rfl
  | some b => exact CodegenBooleanExpressionB_breakStack st b

theorem CodegenBooleanExpression_panicked (st : CGState) (b : Option BExpr) :
    (CodegenBooleanExpression st b).2.panicked = st.panicked := by
  cases b with
  | none => rfl
  | some b => exact CodegenBooleanExpressionB_panicked st b

theorem CodegenAssignmentStatement_breakStack (st : CGState) (v : Str) (val : Option Expr)
    (ct : DataType) (p : Position) :
    (CodegenAssignmentStatement st v val ct p).breakStack = st.breakStack := by
  unfold CodegenAssignmentStatement
  dsimp only
  have he := CodegenExpression_breakStack st val
  split
  case h_1 => rw [addCGError_breakStack, he]
  case h_2 vt heq =>
    split
    case h_1 => exact he
    case h_2 exp0 heq2 =>
      split_ifs <;>
        simp_all [emit_breakStack, addCGError_breakStack, codegenCastExpression_breakStack]

theorem CodegenInputStatement_breakStack (st : CGState) (v : Str) (p : Position) :
    (CodegenInputStatement st v p).breakStack = st.breakStack := by
  unfold CodegenInputStatement
  split
  · rfl
  · split_ifs <;> rfl

theorem CodegenOutputStatement_breakStack (st : CGState) (val : Option Expr) :
    (CodegenOutputStatement st val).breakStack = st.breakStack := by
  unfold CodegenOutputStatement
  dsimp only
  have he := CodegenExpression_breakStack st val
  split
  case h_1 => exact he
  case h_2 => split_ifs <;> simp_all [emit_breakStack]

theorem CodegenBreakStatement_breakStack (st : CGState) (p : Position) :
    (CodegenBreakStatement st p).breakStack = st.breakStack := by
  unfold CodegenBreakStatement
  split_ifs <;> rfl

theorem CodegenSwitchJumps_breakStack (st : CGState) (t e : Str)
    (cs : List (Int × Position × List Stmt)) :
    (CodegenSwitchJumps st t e cs).1.breakStack = st.breakStack := by
  induction cs generalizing st with
  | nil => rfl
  | cons c rest ih =>
    obtain ⟨v, p, body⟩ := c
    simp only [CodegenSwitchJumps]
    rw [ih]
    simp [emit_breakStack, getNewLabel_breakStack]

theorem switchTypeCheck_breakStack (st : CGState) (ty : DataType) (p : Position) :
    (switchTypeCheck st ty p).breakStack = st.breakStack := by
  unfold switchTypeCheck
  split_ifs <;> rfl

theorem switchTypeCheck_panicked (st : CGState) (ty : DataType) (p : Position) :
    (switchTypeCheck st ty p).panicked = st.panicked := by
  unfold switchTypeCheck
  split_ifs <;> rfl

theorem popGuard_breakStack_eq (st : CGState) (L : Str) :
    (popGuard st L).breakStack =
      if st.breakStack.getLast? = some L then st.breakStack.dropLast
      else st.breakStack := by
  unfold popGuard
  split_ifs <;> rfl

theorem popGuard_panicked (st : CGState) (L : Str) :
    (popGuard st L).panicked = st.panicked := by
  unfold popGuard
  split_ifs <;> rfl

mutual

theorem CodegenStatement_breakStack (st : CGState) (s? : Option Stmt) :
    (CodegenStatement st s?).breakStack = st.breakStack := by
  cases s? with
  | none => rfl
  | some s => exact CodegenStatementS_breakStack st s

theorem CodegenStatementS_breakStack (st : CGState) (s : Stmt) :
    (CodegenStatementS st s).breakStack = st.breakStack := by
  cases s with
  | assignS v val ct p => exact CodegenAssignmentStatement_breakStack st v val ct p
  | inputS v p => exact CodegenInputStatement_breakStack st v p
  | outputS val p => exact CodegenOutputStatement_breakStack st val
  | breakS p => exact CodegenBreakStatement_breakStack st p
  | blockS ss p =>
    simp only [CodegenStatementS]
    exact CodegenStatementsBlock_breakStack st ss
  | ifS cond ifb elseb p =>
    simp only [CodegenStatementS]
    cases elseb with
    | some e =>
      dsimp only
      rw [emit_breakStack, CodegenStatement_breakStack, emit_breakStack, emit_breakStack,
        CodegenStatement_breakStack, emit_breakStack, getNewLabel_breakStack,
        getNewLabel_breakStack, CodegenBooleanExpression_breakStack]
    | none =>
      dsimp only
      rw [emit_breakStack, CodegenStatement_breakStack, emit_breakStack,
        getNewLabel_breakStack, CodegenBooleanExpression_breakStack]
  | whileS cond body p =>
    simp only [CodegenStatementS]
    rw [emit_breakStack, emit_breakStack, popGuard_breakStack_eq, CodegenStatement_breakStack]
    simp [emit_breakStack, getNewLabel_breakStack, CodegenBooleanExpression_breakStack,
      List.getLast?_concat, List.dropLast_concat]
  | switchS sel cases dflt p =>
    simp only [CodegenStatementS]
    cases he : (CodegenExpression st sel).1 with
    | none =>
      have := CodegenExpression_breakStack st sel
      simp_all
    | some exp =>
      simp only
      rw [emit_breakStack, popGuard_breakStack_eq, CodegenStatementsBlock_breakStack,
        emit_breakStack, CodegenSwitchBodies_breakStack]
      simp [emit_breakStack, getNewLabel_breakStack, CodegenSwitchJumps_breakStack,
        getNewTemporary_breakStack, switchTypeCheck_breakStack,
        CodegenExpression_breakStack, List.getLast?_concat, List.dropLast_concat]

theorem CodegenSwitchBodies_breakStack (st : CGState) (labels : List Str)
    (cs : List (Int × Position × List Stmt)) :
    (CodegenSwitchBodies st labels cs).breakStack = st.breakStack := by
  cases cs with
  | nil => rfl
  | cons c rest =>
    obtain ⟨v, p, body⟩ := c
    simp only [CodegenSwitchBodies]
    rw [CodegenSwitchBodies_breakStack, CodegenStatementsBlock_breakStack, emit_breakStack]

theorem CodegenStatementsBlock_breakStack (st : CGState) (ss : List Stmt) :
    (CodegenStatementsBlock st ss).breakStack = st.breakStack := by
  cases ss with
  | nil => rfl
  | cons s rest =>
    simp only [CodegenStatementsBlock]
    rw [CodegenStatementsBlock_breakStack, CodegenStatementS_breakStack]

end

theorem CodegenAssignmentStatement_panicked (st : CGState) (v : Str) (val : Option Expr)
    (ct : DataType) (p : Position) :
    (CodegenAssignmentStatement st v val ct p).panicked = st.panicked := by
  unfold CodegenAssignmentStatement
  dsimp only
  have he := CodegenExpression_panicked st val
  split
  case h_1 => rw [addCGError_panicked, he]
  case h_2 vt heq =>
    split
    case h_1 => exact he
    case h_2 exp0 heq2 =>
      split_ifs <;>
        simp_all [emit_panicked, addCGError_panicked, codegenCastExpression_panicked]

theorem CodegenInputStatement_panicked (st : CGState) (v : Str) (p : Position) :
    (CodegenInputStatement st v p).panicked = st.panicked := by
  unfold CodegenInputStatement
  split
  · rfl
  · split_ifs <;> rfl

theorem CodegenOutputStatement_panicked (st : CGState) (val : Option Expr) :
    (CodegenOutputStatement st val).panicked = st.panicked := by
  unfold CodegenOutputStatement
  dsimp only
  have he := CodegenExpression_panicked st val
  split
  case h_1 => exact he
  case h_2 => split_ifs <;> simp_all [emit_panicked]

theorem CodegenBreakStatement_panicked (st : CGState) (p : Position) :
    (CodegenBreakStatement st p).panicked = st.panicked := by
  unfold CodegenBreakStatement
  split_ifs <;> rfl

theorem CodegenSwitchJumps_panicked (st : CGState) (t e : Str)
    (cs : List (Int × Position × List Stmt)) :
    (CodegenSwitchJumps st t e cs).1.panicked = st.panicked := by
  induction cs generalizing st with
  | nil => rfl
  | cons c rest ih =>
    obtain ⟨v, p, body⟩ := c
    simp only [CodegenSwitchJumps]
    rw [ih]
    simp [emit_panicked, getNewLabel_panicked]

mutual

theorem CodegenStatement_panicked (st : CGState) (s? : Option Stmt) :
    (CodegenStatement st s?).panicked = st.panicked := by
  cases s? with
  | none => rfl
  | some s => exact CodegenStatementS_panicked st s

theorem CodegenStatementS_panicked (st : CGState) (s : Stmt) :
    (CodegenStatementS st s).panicked = st.panicked := by
  cases s with
  | assignS v val ct p => exact CodegenAssignmentStatement_panicked st v val ct p
  | inputS v p => exact CodegenInputStatement_panicked st v p
  | outputS val p => exact CodegenOutputStatement_panicked st val
  | breakS p => exact CodegenBreakStatement_panicked st p
  | blockS ss p =>
    simp only [CodegenStatementS]
    exact CodegenStatementsBlock_panicked st ss
  | ifS cond ifb elseb p =>
    simp only [CodegenStatementS]
    cases elseb with
    | some e =>
      dsimp only
      rw [emit_panicked, CodegenStatement_panicked, emit_panicked, emit_panicked,
        CodegenStatement_panicked, emit_panicked, getNewLabel_panicked,
        getNewLabel_panicked, CodegenBooleanExpression_panicked]
    | none =>
      dsimp only
      rw [emit_panicked, CodegenStatement_panicked, emit_panicked,
        getNewLabel_panicked, CodegenBooleanExpression_panicked]
  | whileS cond body p =>
    simp only [CodegenStatementS]
    rw [emit_panicked, emit_panicked, popGuard_panicked, CodegenStatement_panicked]
    simp [emit_panicked, getNewLabel_panicked, CodegenBooleanExpression_panicked]
  | switchS sel cases dflt p =>
    simp only [CodegenStatementS]
    cases he : (CodegenExpression st sel).1 with
    | none =>
      have := CodegenExpression_panicked st sel
      simp_all
    | some exp =>
      simp only
      rw [emit_panicked, popGuard_panicked, CodegenStatementsBlock_panicked,
        emit_panicked, CodegenSwitchBodies_panicked]
      simp [emit_panicked, getNewLabel_panicked, CodegenSwitchJumps_panicked,
        getNewTemporary_panicked, switchTypeCheck_panicked,
        CodegenExpression_panicked]

theorem CodegenSwitchBodies_panicked (st : CGState) (labels : List Str)
    (cs : List (Int × Position × List Stmt)) :
    (CodegenSwitchBodies st labels cs).panicked = st.panicked := by
  cases cs with
  | nil => rfl
  | cons c rest =>
    obtain ⟨v, p, body⟩ := c
    simp only [CodegenSwitchBodies]
    rw [CodegenSwitchBodies_panicked, CodegenStatementsBlock_panicked, emit_panicked]

theorem CodegenStatementsBlock_panicked (st : CGState) (ss : List Stmt) :
    (CodegenStatementsBlock st ss).panicked = st.panicked := by
  cases ss with
  | nil => rfl
  | cons s rest =>
    simp only [CodegenStatementsBlock]
    rw [CodegenStatementsBlock_panicked, CodegenStatementS_panicked]

end

theorem buildNames_panicked (st : CGState) (ty : DataType) (p : Position) (ns : List Str) :
    (buildNames st ty p ns).panicked = st.panicked := by
  induction ns generalizing st with
  | nil => rfl
  | cons n rest ih =>
    simp only [buildNames]
    split_ifs <;> rw [ih] <;> rfl

theorem buildVariables_panicked (st : CGState) (ds : List Decl) :
    (buildVariables st ds).panicked = st.panicked := by
  induction ds generalizing st with
  | nil => rfl
  | cons d rest ih =>
    simp only [buildVariables]
    rw [ih, buildNames_panicked]

/-- C10: the break-target stack is restored by every statement: for every
statement node (including the nil statement) and every generator state, after
CodegenStatement returns the break-target stack equals its value on entry.
In particular, inside CodegenWhileStatement and CodegenSwitchStatement the
stack seen at the guarded pop is the pushed stack with the construct's own
end label still on top, so the guard never skips a pop and never
double-pops — this is exactly the fact the while/switch cases of the
induction rely on (via popGuard on a stack of the form base ++ [endLabel]). -/
theorem c10_break_stack_restored (st : CGState) (s? : Option Stmt) :
    (CodegenStatement st s?).breakStack = st.breakStack :=
  CodegenStatement_breakStack st s?

/-- C9: for every Program AST, Codegen runs to completion and returns the
(output, diagnostics) pair — in this embedding CodegenProgram is a total
structurally-recursive function, and Codegen prog is literally that pair —
and no panic escapes: the panic("Invalid type!") branch of
codegenCastExpression (modelled by the panicked flag) is unreachable, because
every reachable call site passes Integer or Float, never Unknown. -/
theorem c9_codegen_total_no_panic (prog : Prog) :
    (CodegenProgram initCG prog).panicked = false ∧
    Codegen prog =
      ((CodegenProgram initCG prog).output, (CodegenProgram initCG prog).errors) := by
  constructor
  · unfold CodegenProgram
    rw [emit_panicked, CodegenStatement_panicked, buildVariables_panicked]
    rfl
  · rfl

/-! ### Scanner lemmas for claim C5 -/

theorem takeWhile_append_of_all {α : Type} (p : α → Bool) (xs ys : List α)
    (h : ∀ x ∈ xs, p x = true) : (xs ++ ys).takeWhile p = xs ++ ys.takeWhile p := by
  induction xs with
  | nil => rfl
  | cons a rest ih =>
    have ha : p a = true := h a (by simp)
    have ih' := ih (fun x hx => h x (by simp [hx]))
    simp [List.takeWhile_cons, ha, ih']

theorem dropWhile_append_of_all {α : Type} (p : α → Bool) (xs ys : List α)
    (h : ∀ x ∈ xs, p x = true) : (xs ++ ys).dropWhile p = ys.dropWhile p := by
  induction xs with
  | nil => rfl
  | cons a rest ih =>
    have ha : p a = true := h a (by simp)
    simp only [List.cons_append, List.dropWhile_cons, ha]
    exact ih (fun x hx => h x (by simp [hx]))

theorem takeWhile_head_false {α : Type} (p : α → Bool) (ys : List α)
    (h : ∀ x ∈ ys.head?, p x = false) : ys.takeWhile p = [] := by
  cases ys with
  | nil => rfl
  | cons a rest =>
    have := h a rfl
    simp [List.takeWhile_cons, this]

theorem dropWhile_head_false {α : Type} (p : α → Bool) (ys : List α)
    (h : ∀ x ∈ ys.head?, p x = false) : ys.dropWhile p = ys := by
  cases ys with
  | nil => rfl
  | cons a rest =>
    have := h a rfl
    simp [List.dropWhile_cons, this]

/-- C5: for every maximal lexeme of the form letter followed by letters,
digits or underscores (first character c at position p, identifier-character
run tail, next input character — if any — not an identifier character), the
scanner consumes exactly that lexeme and classifies it by scanIdentifier's
rules: a keyword-table match returns that keyword's token kind, and a
non-keyword lexeme is an ID exactly when its length is at most 9 and it
contains no underscore, and ILLEGAL otherwise (so a 10-character purely
alphanumeric identifier is ILLEGAL, as is any non-keyword lexeme containing
an underscore). -/
theorem c5_identifier_classification (c : Char) (p : Position)
    (tail rest' : List (Char × Position))
    (hc : isLetterC c = true)
    (htail : ∀ x ∈ tail, identChar x.1 = true)
    (hmax : ∀ x ∈ rest'.head?, identChar x.1 = false) :
    scanIdentifier c p (tail ++ rest') =
      (⟨classifyIdent (c :: tail.map (·.1)), c :: tail.map (·.1), p⟩, rest') ∧
    (∀ k ∈ keywordTable, c :: tail.map (·.1) = k.1 →
      classifyIdent (c :: tail.map (·.1)) = k.2) ∧
    (isKeywordLexeme (c :: tail.map (·.1)) = false →
      (classifyIdent (c :: tail.map (·.1)) = .ID ↔
        (c :: tail.map (·.1)).length ≤ MaxIdentifierLength ∧
          ¬ (c :: tail.map (·.1)).contains '_') ∧
      (classifyIdent (c :: tail.map (·.1)) = .ILLEGAL ↔
        ¬ ((c :: tail.map (·.1)).length ≤ MaxIdentifierLength ∧
          ¬ (c :: tail.map (·.1)).contains '_'))) := by
  refine ⟨?_, ?_, ?_⟩
  · unfold scanIdentifier
    rw [takeWhile_append_of_all _ _ _ htail, takeWhile_head_false _ _ hmax,
      dropWhile_append_of_all _ _ _ htail, dropWhile_head_false _ _ hmax]
    simp
  · intro k hk hlex
    rw [hlex]
    fin_cases hk <;> rfl
  · intro hnk
    simp only [isKeywordLexeme, keywordTable, List.any_cons, List.any_nil,
      Bool.or_eq_false_iff, decide_eq_false_iff_not] at hnk
    obtain ⟨h1, h2, h3, h4, h5, h6, h7, h8, h9, h10, h11, h12, -⟩ := hnk
    have hni : ∀ s : Str, ¬ s = c :: tail.map (·.1) → ¬ c :: tail.map (·.1) = s :=
      fun s hs h => hs h.symm
    simp only [classifyIdent, if_neg (hni _ h1), if_neg (hni _ h2), if_neg (hni _ h3),
      if_neg (hni _ h4), if_neg (hni _ h5), if_neg (hni _ h6), if_neg (hni _ h7),
      if_neg (hni _ h8), if_neg (hni _ h9), if_neg (hni _ h10), if_neg (hni _ h11),
      if_neg (hni _ h12)]
    split_ifs with hP
    · exact ⟨iff_of_true rfl hP, iff_of_false (by decide) (fun hn => hn hP)⟩
    · exact ⟨iff_of_false (by decide) hP, iff_of_true rfl hP⟩

/-- Witness for c5_identifier_classification: the 10-character alphanumeric
lexeme abcdefghij (followed by a semicolon) is scanned as one ILLEGAL token,
and the keyword lexeme while is scanned as the WHILE keyword token. -/
theorem c5_identifier_classification_witness :
    (scanIdentifier 'a' ⟨0, 0⟩
      (annotateFrom ⟨0, 1⟩ (str "bcdefghij") ++ [(';', ⟨0, 10⟩)])).1 =
      ⟨.ILLEGAL, str "abcdefghij", ⟨0, 0⟩⟩ ∧
    (scanIdentifier 'w' ⟨0, 0⟩ (annotateFrom ⟨0, 1⟩ (str "hile") ++ [('(', ⟨0, 5⟩)])).1 =
      ⟨.WHILE, str "while", ⟨0, 0⟩⟩ := by
  constructor
  · have h := c5_identifier_classification 'a' ⟨0, 0⟩
      (annotateFrom ⟨0, 1⟩ (str "bcdefghij")) [(';', ⟨0, 10⟩)]
      (by decide) (by decide) (by decide)
    rw [h.1]
    decide
  · have h := c5_identifier_classification 'w' ⟨0, 0⟩
      (annotateFrom ⟨0, 1⟩ (str "hile")) [('(', ⟨0, 5⟩)]
      (by decide) (by decide) (by decide)
    rw [h.1]
    decide

/-! ### Lemmas and theorems for claim C4 -/

theorem codegenCastExpression_vars (st : CGState) (e : ExprRes) (t : DataType) :
    (codegenCastExpression st e t).2.vars = st.vars := by
  unfold codegenCastExpression
  split
  · rfl
  · cases t <;> rfl

theorem arithTail_vars (st : CGState) (a : Option ExprRes) (op : Operator)
    (b : Option ExprRes) : (arithTail st a op b).2.vars = st.vars := by
  unfold arithTail
  cases a with
  | none => cases b <;> rfl
  | some lhs =>
    cases b with
    | none => rfl
    | some rhs =>
      dsimp only
      cases op <;> split_ifs <;>
        simp [emit, codegenCastExpression_vars, getNewTemporary]

theorem CodegenExpressionE_vars (st : CGState) (e : Expr) :
    (CodegenExpressionE st e).2.vars = st.vars := by
  induction e generalizing st with
  | arithmeticE lhsE op rhsE _ ihl ihr =>
    simp only [CodegenExpressionE]
    rw [arithTail_vars, ihr, ihl]
  | variableE v p =>
    unfold CodegenExpressionE CodegenVariableExpression
    split <;> rfl
  | intLiteral v _ => rfl
  | floatLiteral r _ => rfl

/-- C4 counterexample: the claim fails for a target variable declared with
the Unknown data type (the declared type of a malformed declaration).  With
x bound to Unknown and the successfully generated integer value 1, the
assignment generator returns its input state unchanged: no IASN or RASN
instruction is emitted (and no diagnostic recorded), although the claim's
final clause demands an emission "according to the target's type" whenever
the two error/widening cases do not apply. -/
theorem c4_assignment_counterexample :
    lookupVar [(str "x", DataType.Unknown)] (str "x") = some .Unknown ∧
    CodegenExpression { initCG with vars := [(str "x", DataType.Unknown)] }
      (some (Expr.intLiteral 1 ⟨2, 0⟩)) =
      (some ⟨str "1", .Integer⟩, { initCG with vars := [(str "x", DataType.Unknown)] }) ∧
    CodegenAssignmentStatement { initCG with vars := [(str "x", DataType.Unknown)] }
      (str "x") (some (Expr.intLiteral 1 ⟨2, 0⟩)) .Unknown ⟨2, 0⟩ =
      { initCG with vars := [(str "x", DataType.Unknown)] } := by
  refine ⟨rfl, rfl, ?_⟩
  decide

/-- C4 (amended): for every assignment whose target variable is declared with
type vt and whose value expression generates successfully, with exp1 the
result after an explicit static_cast adjustment: an Integer target with a
Float expression records "cannot assign float value to int variable <name>"
and emits no assignment instruction; a Float target with an Integer
expression first emits an ITOR widening into a fresh temporary and then
RASN target temp; otherwise IASN (Integer target) or RASN (Float target) of
the expression result is emitted — and, the amendment forced by the
counterexample, a target declared with the Unknown type of a malformed
declaration emits no instruction and no diagnostic. -/
theorem c4_assignment_amended (st : CGState) (v : Str) (val : Expr) (ct : DataType)
    (pos : Position) (vt : DataType) (e : ExprRes) (st1 : CGState)
    (hv : lookupVar st.vars v = some vt)
    (he : CodegenExpressionE st val = (some e, st1)) :
    let c1 : ExprRes × CGState :=
      if ct ≠ .Unknown ∧ ct ≠ e.type then codegenCastExpression st1 e ct else (e, st1)
    let result := CodegenAssignmentStatement st v (some val) ct pos
    (vt = .Integer → c1.1.type = .Float →
      result = addCGError c1.2 (str "cannot assign float value to int variable " ++ v) pos) ∧
    (vt = .Float → c1.1.type = .Integer →
      result =
        emit (emit (getNewTemporary c1.2).2
          (str "ITOR " ++ (getNewTemporary c1.2).1 ++ [' '] ++ c1.1.code ++ ['\n']))
          (str "RASN " ++ v ++ [' '] ++ (getNewTemporary c1.2).1 ++ ['\n'])) ∧
    (vt = .Integer → c1.1.type ≠ .Float →
      result = emit c1.2 (str "IASN " ++ v ++ [' '] ++ c1.1.code ++ ['\n'])) ∧
    (vt = .Float → c1.1.type ≠ .Integer →
      result = emit c1.2 (str "RASN " ++ v ++ [' '] ++ c1.1.code ++ ['\n'])) ∧
    (vt = .Unknown → result = c1.2) := by
  intro c1 result
  have hvars : st1.vars = st.vars := by
    have h := CodegenExpressionE_vars st val
    rw [he] at h
    exact h
  have hres : result =
      (match lookupVar st1.vars v with
      | none => addCGError st1 (str "undefined variable " ++ v) pos
      | some vt' =>
        if vt' = .Integer ∧ c1.1.type = .Float then
          addCGError c1.2 (str "cannot assign float value to int variable " ++ v) pos
        else
          let c2 : ExprRes × CGState :=
            if vt' = .Float ∧ c1.1.type = .Integer then codegenCastExpression c1.2 c1.1 .Float
            else c1
          if vt' = .Integer then emit c2.2 (str "IASN " ++ v ++ [' '] ++ c2.1.code ++ ['\n'])
          else if vt' = .Float then
            emit c2.2 (str "RASN " ++ v ++ [' '] ++ c2.1.code ++ ['\n'])
          else c2.2) := by
    show CodegenAssignmentStatement st v (some val) ct pos = _
    unfold CodegenAssignmentStatement CodegenExpression
    dsimp only
    rw [he]
  rw [hvars, hv] at hres
  refine ⟨?_, ?_, ?_, ?_, ?_⟩
  · intro hvt hty
    subst hvt
    rw [hres]
    simp [hty]
  · intro hvt hty
    subst hvt
    rw [hres]
    simp only [hty]
    norm_num
    unfold codegenCastExpression
    rw [hty]
    simp
  · intro hvt hty
    subst hvt
    rw [hres]
    simp [hty]
  · intro hvt hty
    subst hvt
    rw [hres]
    simp only []
    norm_num [hty]
    split_ifs with h1 h2 <;> simp_all
  · intro hvt
    subst hvt
    rw [hres]
    simp

/-- Witness for c4_assignment_amended: assigning the integer literal 5 to an
Integer-typed variable x emits exactly IASN x 5. -/
theorem c4_assignment_amended_witness :
    CodegenAssignmentStatement { initCG with vars := [(str "x", DataType.Integer)] }
      (str "x") (some (Expr.intLiteral 5 ⟨0, 0⟩)) .Unknown ⟨0, 0⟩ =
      emit { initCG with vars := [(str "x", DataType.Integer)] } (str "IASN x 5\n") := by
  have h := c4_assignment_amended { initCG with vars := [(str "x", DataType.Integer)] }
    (str "x") (Expr.intLiteral 5 ⟨0, 0⟩) .Unknown ⟨0, 0⟩ .Integer ⟨str "5", .Integer⟩
    { initCG with vars := [(str "x", DataType.Integer)] } (by decide) (by rfl)
  rw [h.2.2.1 rfl (by decide)]
  decide

/-! ### The switch dispatch header (claim C6) -/

/-- Closed form of CodegenSwitchJumps: it appends exactly the N INQL/JMPZ
pairs to the output, advances the label counter by N, changes nothing else,
and returns the N fresh per-case labels. -/
theorem CodegenSwitchJumps_eq (st : CGState) (temp code : Str)
    (cs : List (Int × Position × List Stmt)) :
    CodegenSwitchJumps st temp code cs =
      ({ st with
          output := st.output ++ switchPairsText temp code st.labelIndex cs,
          labelIndex := st.labelIndex + cs.length },
       switchCaseLabels st.labelIndex cs) := by
  induction cs generalizing st with
  | nil => simp [CodegenSwitchJumps, switchPairsText, switchCaseLabels]
  | cons c rest ih =>
    obtain ⟨v, p, body⟩ := c
    simp only [CodegenSwitchJumps, switchPairsText, switchCaseLabels]
    rw [ih]
    simp [emit, getNewLabel, str, List.append_assoc]
    omega

/-! ### Output monotonicity: the generator only appends to its output -/

theorem strPrefixTrans {a b c : Str} (h1 : a <+: b) (h2 : b <+: c) : a <+: c :=
  h1.trans h2

theorem emit_output (st : CGState) (l : Str) : (emit st l).output = st.output ++ l := rfl

/-- Monotonicity step for a single emit. -/
theorem monoEmit {st x : CGState} (h : st.output <+: x.output) (l : Str) :
    st.output <+: (emit x l).output :=
  h.trans ⟨l, rfl⟩

theorem addCGError_output (st : CGState) (m : Str) (p : Position) :
    (addCGError st m p).output = st.output := rfl

theorem getNewTemporary_output (st : CGState) :
    (getNewTemporary st).2.output = st.output := rfl

theorem getNewLabel_output (st : CGState) : (getNewLabel st).2.output = st.output := rfl

theorem popGuard_output (st : CGState) (L : Str) : (popGuard st L).output = st.output := by
  unfold popGuard
  split_ifs <;> rfl

theorem switchTypeCheck_output (st : CGState) (ty : DataType) (p : Position) :
    (switchTypeCheck st ty p).output = st.output := by
  unfold switchTypeCheck
  split_ifs <;> rfl

theorem codegenCastExpression_output_mono (st : CGState) (e : ExprRes) (t : DataType) :
    st.output <+: (codegenCastExpression st e t).2.output := by
  unfold codegenCastExpression
  split
  · exact List.prefix_rfl
  · cases t <;> simp [emit, getNewTemporary] <;> exact ⟨_, rfl⟩

set_option maxHeartbeats 1000000 in
theorem arithTail_output_mono (st : CGState) (a : Option ExprRes) (op : Operator)
    (b : Option ExprRes) : st.output <+: (arithTail st a op b).2.output := by
  unfold arithTail
  cases a with
  | none => cases b <;> exact List.prefix_rfl
  | some lhs =>
    cases b with
    | none => exact List.prefix_rfl
    | some rhs =>
      dsimp only
      have hpos : st.output <+:
          (codegenCastExpression
            (codegenCastExpression (getNewTemporary st).2 lhs DataType.Float).2
            rhs DataType.Float).2.output :=
        strPrefixTrans
          (codegenCastExpression_output_mono (getNewTemporary st).2 lhs DataType.Float)
          (codegenCastExpression_output_mono _ rhs DataType.Float)
      have hneg : st.output <+: (getNewTemporary st).2.output := List.prefix_rfl
      cases op <;> dsimp only <;> split_ifs <;>
        first
          | exact monoEmit hpos _
          | exact hpos
          | exact monoEmit hneg _
          | exact hneg

theorem CodegenExpressionE_output_mono (st : CGState) (e : Expr) :
    st.output <+: (CodegenExpressionE st e).2.output := by
  induction e generalizing st with
  | arithmeticE lhsE op rhsE _ ihl ihr =>
    simp only [CodegenExpressionE]
    exact strPrefixTrans (strPrefixTrans (ihl st) (ihr _)) (arithTail_output_mono _ _ _ _)
  | variableE v p =>
    unfold CodegenExpressionE CodegenVariableExpression
    split <;> exact List.prefix_rfl
  | intLiteral v _ => exact List.prefix_rfl
  | floatLiteral r _ => exact List.prefix_rfl

theorem CodegenExpression_output_mono (st : CGState) (e : Option Expr) :
    st.output <+: (CodegenExpression st e).2.output := by
  cases e with
  | none => exact List.prefix_rfl
  | some e => exact CodegenExpressionE_output_mono st e

theorem orCombine_output_mono (st : CGState) (a b : Str) :
    st.output <+: (orCombine st a b).2.output := by
  unfold orCombine
  split_ifs
  · exact List.prefix_rfl
  · simp [emit, getNewTemporary, List.append_assoc]

theorem andCombine_output_mono (st : CGState) (a b : Str) :
    st.output <+: (andCombine st a b).2.output := by
  unfold andCombine
  split_ifs
  · exact List.prefix_rfl
  · simp [emit, getNewTemporary]

theorem notCombine_output_mono (st : CGState) (a : Str) :
    st.output <+: (notCombine st a).2.output := by
  unfold notCombine
  split_ifs
  · exact List.prefix_rfl
  · simp [emit, getNewTemporary]

set_option maxHeartbeats 1000000 in
theorem CodegenComparePrim_output_mono (st : CGState) (lhsE : Expr) (op : Operator)
    (rhsE : Expr) : st.output <+: (CodegenComparePrim st lhsE op rhsE).2.output := by
  unfold CodegenComparePrim
  dsimp only
  have h2 : st.output <+: (CodegenExpressionE (CodegenExpressionE st lhsE).2 rhsE).2.output :=
    strPrefixTrans (CodegenExpressionE_output_mono st lhsE)
      (CodegenExpressionE_output_mono _ rhsE)
  split
  case h_1 lhs rhs heq1 heq2 =>
    have hpos : st.output <+:
        (codegenCastExpression
          (codegenCastExpression (CodegenExpressionE (CodegenExpressionE st lhsE).2 rhsE).2
            lhs DataType.Float).2
          rhs DataType.Float).2.output :=
      strPrefixTrans h2
        (strPrefixTrans (codegenCastExpression_output_mono _ lhs DataType.Float)
          (codegenCastExpression_output_mono _ rhs DataType.Float))
    cases op <;> dsimp only <;> split_ifs <;>
      first
        | exact monoEmit hpos _
        | exact hpos
        | exact monoEmit h2 _
        | exact h2
  case h_2 => exact h2

theorem CodegenBooleanExpressionB_output_mono (st : CGState) (b : BExpr) :
    st.output <+: (CodegenBooleanExpressionB st b).2.output := by
  induction b generalizing st with
  | orB l r _ ihl ihr =>
    simp only [CodegenBooleanExpressionB]
    exact strPrefixTrans (strPrefixTrans (ihl st) (ihr _)) (orCombine_output_mono _ _ _)
  | andB l r _ ihl ihr =>
    simp only [CodegenBooleanExpressionB]
    exact strPrefixTrans (strPrefixTrans (ihl st) (ihr _)) (andCombine_output_mono _ _ _)
  | notB v _ ih =>
    simp only [CodegenBooleanExpressionB]
    exact strPrefixTrans (ih st) (notCombine_output_mono _ _)
  | compareB lhs op rhs _ =>
    simp only [CodegenBooleanExpressionB]
    split_ifs <;>
      first
        | exact strPrefixTrans
            (strPrefixTrans (CodegenComparePrim_output_mono _ _ _ _)
              (CodegenComparePrim_output_mono _ _ _ _))
            (orCombine_output_mono _ _ _)
        | exact CodegenComparePrim_output_mono _ _ _ _

theorem CodegenBooleanExpression_output_mono (st : CGState) (b : Option BExpr) :
    st.output <+: (CodegenBooleanExpression st b).2.output := by
  cases b with
  | none => exact List.prefix_rfl
  | some b => exact CodegenBooleanExpressionB_output_mono st b

set_option maxHeartbeats 1000000 in
theorem CodegenAssignmentStatement_output_mono (st : CGState) (v : Str)
    (val : Option Expr) (ct : DataType) (p : Position) :
    st.output <+: (CodegenAssignmentStatement st v val ct p).output := by
  unfold CodegenAssignmentStatement
  dsimp only
  have he := CodegenExpression_output_mono st val
  split
  case h_1 => exact he
  case h_2 vt heq =>
    split
    case h_1 => exact he
    case h_2 exp0 heq2 =>
      have hA : st.output <+:
          (codegenCastExpression (CodegenExpression st val).2 exp0 ct).2.output :=
        strPrefixTrans he (codegenCastExpression_output_mono _ exp0 ct)
      have hAA : st.output <+:
          (codegenCastExpression
            (codegenCastExpression (CodegenExpression st val).2 exp0 ct).2
            (codegenCastExpression (CodegenExpression st val).2 exp0 ct).1
            DataType.Float).2.output :=
        strPrefixTrans hA (codegenCastExpression_output_mono _ _ DataType.Float)
      have hBB : st.output <+:
          (codegenCastExpression (CodegenExpression st val).2 exp0 DataType.Float).2.output :=
        strPrefixTrans he (codegenCastExpression_output_mono _ exp0 DataType.Float)
      split_ifs <;>
        first
          | exact monoEmit hAA _
          | exact hAA
          | exact monoEmit hA _
          | exact hA
          | exact monoEmit hBB _
          | exact hBB
          | exact monoEmit he _
          | exact he

theorem CodegenInputStatement_output_mono (st : CGState) (v : Str) (p : Position) :
    st.output <+: (CodegenInputStatement st v p).output := by
  unfold CodegenInputStatement
  split
  · exact List.prefix_rfl
  · split_ifs <;> first | exact ⟨_, rfl⟩ | exact List.prefix_rfl

theorem CodegenOutputStatement_output_mono (st : CGState) (val : Option Expr) :
    st.output <+: (CodegenOutputStatement st val).output := by
  unfold CodegenOutputStatement
  dsimp only
  have he := CodegenExpression_output_mono st val
  split
  case h_1 => exact he
  case h_2 => split_ifs <;> first | exact monoEmit he _ | exact he

theorem CodegenBreakStatement_output_mono (st : CGState) (p : Position) :
    st.output <+: (CodegenBreakStatement st p).output := by
  unfold CodegenBreakStatement
  split_ifs
  · exact List.prefix_rfl
  · exact ⟨_, rfl⟩

theorem CodegenSwitchJumps_output_mono (st : CGState) (t e : Str)
    (cs : List (Int × Position × List Stmt)) :
    st.output <+: (CodegenSwitchJumps st t e cs).1.output := by
  rw [CodegenSwitchJumps_eq]
  exact ⟨_, rfl⟩

/-- Monotonicity step for emit starting at the emitted-on state. -/
theorem monoEmitL (x : CGState) (l : Str) : x.output <+: (emit x l).output := ⟨l, rfl⟩

set_option maxHeartbeats 1000000 in
mutual

theorem CodegenStatement_output_mono (st : CGState) (s? : Option Stmt) :
    st.output <+: (CodegenStatement st s?).output := by
  cases s? with
  | none => exact List.prefix_rfl
  | some s => exact CodegenStatementS_output_mono st s

theorem CodegenStatementS_output_mono (st : CGState) (s : Stmt) :
    st.output <+: (CodegenStatementS st s).output := by
  cases s with
  | assignS v val ct p => exact CodegenAssignmentStatement_output_mono st v val ct p
  | inputS v p => exact CodegenInputStatement_output_mono st v p
  | outputS val p => exact CodegenOutputStatement_output_mono st val
  | breakS p => exact CodegenBreakStatement_output_mono st p
  | blockS ss p =>
    simp only [CodegenStatementS]
    exact CodegenStatementsBlock_output_mono st ss
  | ifS cond ifb elseb p =>
    simp only [CodegenStatementS]
    cases elseb with
    | some e =>
      dsimp only
      refine strPrefixTrans ?_ (monoEmitL _ _)
      refine strPrefixTrans ?_ (CodegenStatement_output_mono _ (some e))
      refine strPrefixTrans ?_ (monoEmitL _ _)
      refine strPrefixTrans ?_ (monoEmitL _ _)
      refine strPrefixTrans ?_ (CodegenStatement_output_mono _ ifb)
      refine strPrefixTrans ?_ (monoEmitL _ _)
      rw [getNewLabel_output, getNewLabel_output]
      exact CodegenBooleanExpression_output_mono st cond
    | none =>
      dsimp only
      refine strPrefixTrans ?_ (monoEmitL _ _)
      refine strPrefixTrans ?_ (CodegenStatement_output_mono _ ifb)
      refine strPrefixTrans ?_ (monoEmitL _ _)
      rw [getNewLabel_output]
      exact CodegenBooleanExpression_output_mono st cond
  | whileS cond body p =>
    simp only [CodegenStatementS]
    refine strPrefixTrans ?_ (monoEmitL _ _)
    refine strPrefixTrans ?_ (monoEmitL _ _)
    rw [popGuard_output]
    refine strPrefixTrans ?_ (CodegenStatement_output_mono _ body)
    show st.output <+: _
    refine strPrefixTrans ?_ (monoEmitL _ _)
    refine strPrefixTrans ?_ (CodegenBooleanExpression_output_mono _ cond)
    rw [emit_output, getNewLabel_output, getNewLabel_output]
    exact ⟨_, rfl⟩
  | switchS sel cases dflt p =>
    simp only [CodegenStatementS]
    cases he : (CodegenExpression st sel).1 with
    | none =>
      exact CodegenExpression_output_mono st sel
    | some exp =>
      dsimp only
      refine strPrefixTrans ?_ (monoEmitL _ _)
      rw [popGuard_output]
      refine strPrefixTrans ?_ (CodegenStatementsBlock_output_mono _ dflt)
      refine strPrefixTrans ?_ (monoEmitL _ _)
      refine strPrefixTrans ?_ (CodegenSwitchBodies_output_mono _ _ cases)
      show st.output <+: _
      refine strPrefixTrans ?_ (monoEmitL _ _)
      rw [getNewLabel_output, getNewLabel_output]
      refine strPrefixTrans ?_ (CodegenSwitchJumps_output_mono _ _ _ cases)
      rw [getNewTemporary_output, switchTypeCheck_output]
      exact CodegenExpression_output_mono st sel

theorem CodegenSwitchBodies_output_mono (st : CGState) (labels : List Str)
    (cs : List (Int × Position × List Stmt)) :
    st.output <+: (CodegenSwitchBodies st labels cs).output := by
  cases cs with
  | nil => exact List.prefix_rfl
  | cons c rest =>
    obtain ⟨v, p, body⟩ := c
    simp only [CodegenSwitchBodies]
    refine strPrefixTrans ?_ (CodegenSwitchBodies_output_mono _ _ rest)
    refine strPrefixTrans ?_ (CodegenStatementsBlock_output_mono _ body)
    exact monoEmitL _ _

theorem CodegenStatementsBlock_output_mono (st : CGState) (ss : List Stmt) :
    st.output <+: (CodegenStatementsBlock st ss).output := by
  cases ss with
  | nil => exact List.prefix_rfl
  | cons s rest =>
    simp only [CodegenStatementsBlock]
    exact strPrefixTrans (CodegenStatementS_output_mono st s)
      (CodegenStatementsBlock_output_mono _ rest)

end

theorem switchTypeCheck_labelIndex (st : CGState) (ty : DataType) (p : Position) :
    (switchTypeCheck st ty p).labelIndex = st.labelIndex := by
  unfold switchTypeCheck
  split_ifs <;> rfl

theorem getNewTemporary_labelIndex (st : CGState) :
    (getNewTemporary st).2.labelIndex = st.labelIndex := rfl

/-- C6: for every switch statement whose selector expression generates
successfully (producing exp and leaving state st1), (i) the type check
records the diagnostic "switch expression must be an integer" exactly when
the selector's type is not Integer, and (ii) generation continues regardless:
the output extends the post-selector output with exactly one INQL/JMPZ pair
per case — each INQL comparing the one shared temporary against that case's
value, in case order, each JMPZ targeting that case's fresh label @(L+i) —
followed by exactly one unconditional JUMP to the default label @(L+N+1),
followed by the bodies section. -/
theorem c6_switch_codegen_structure (st : CGState) (sel : Option Expr)
    (cases : List (Int × Position × List Stmt)) (dflt : List Stmt) (pos : Position)
    (exp : ExprRes) (st1 : CGState)
    (hsel : CodegenExpression st sel = (some exp, st1)) :
    (switchTypeCheck st1 exp.type pos).errors =
      st1.errors ++
        (if exp.type = DataType.Integer then []
         else [⟨str "switch expression must be an integer", pos⟩]) ∧
    (st1.output ++
        switchPairsText (getNewTemporary (switchTypeCheck st1 exp.type pos)).1 exp.code
          st1.labelIndex cases ++
        (str "JUMP " ++ (str "@" ++ natDigits (st1.labelIndex + cases.length + 1)) ++ ['\n']))
      <+: (CodegenStatementS st (Stmt.switchS sel cases dflt pos)).output := by
  constructor
  · unfold switchTypeCheck addCGError
    split_ifs with h <;> simp_all
  · simp only [CodegenStatementS]
    rw [hsel]
    dsimp only
    refine strPrefixTrans ?_ (monoEmitL _ _)
    rw [popGuard_output]
    refine strPrefixTrans ?_ (CodegenStatementsBlock_output_mono _ dflt)
    refine strPrefixTrans ?_ (monoEmitL _ _)
    refine strPrefixTrans ?_ (CodegenSwitchBodies_output_mono _ _ cases)
    dsimp only
    rw [emit_output, getNewLabel_output, getNewLabel_output, CodegenSwitchJumps_eq]
    dsimp only
    rw [getNewTemporary_output, switchTypeCheck_output, getNewTemporary_labelIndex,
      switchTypeCheck_labelIndex]
    simp [getNewLabel, CodegenSwitchJumps_eq, getNewTemporary_labelIndex,
      switchTypeCheck_labelIndex, List.append_assoc, Nat.add_assoc]

/-- C6 witness: the structure theorem applied to a concrete two-case switch
over the integer variable x, with case values 3 and 7. -/
theorem c6_switch_codegen_structure_witness :
    (switchTypeCheck { initCG with vars := [(str "x", DataType.Integer)] }
        DataType.Integer ⟨0, 0⟩).errors =
      ({ initCG with vars := [(str "x", DataType.Integer)] } : CGState).errors ++
        (if DataType.Integer = DataType.Integer then []
         else [⟨str "switch expression must be an integer", (⟨0, 0⟩ : Position)⟩]) ∧
    (({ initCG with vars := [(str "x", DataType.Integer)] } : CGState).output ++
        switchPairsText
          (getNewTemporary (switchTypeCheck { initCG with vars := [(str "x", DataType.Integer)] }
            DataType.Integer ⟨0, 0⟩)).1 (str "x")
          ({ initCG with vars := [(str "x", DataType.Integer)] } : CGState).labelIndex
          [(3, ⟨0, 0⟩, []), (7, ⟨0, 0⟩, [])] ++
        (str "JUMP " ++
          (str "@" ++
            natDigits (({ initCG with vars := [(str "x", DataType.Integer)] } : CGState).labelIndex
              + ([(3, ⟨0, 0⟩, []), (7, ⟨0, 0⟩, [])] :
                  List (Int × Position × List Stmt)).length + 1)) ++ ['\n']))
      <+: (CodegenStatementS { initCG with vars := [(str "x", DataType.Integer)] }
            (Stmt.switchS (some (Expr.variableE (str "x") ⟨0, 0⟩))
              [(3, ⟨0, 0⟩, []), (7, ⟨0, 0⟩, [])] [] ⟨0, 0⟩)).output :=
  c6_switch_codegen_structure { initCG with vars := [(str "x", DataType.Integer)] }
    (some (Expr.variableE (str "x") ⟨0, 0⟩)) [(3, ⟨0, 0⟩, []), (7, ⟨0, 0⟩, [])] [] ⟨0, 0⟩
    ⟨str "x", DataType.Integer⟩ { initCG with vars := [(str "x", DataType.Integer)] } (by rfl)

/-- C1: refuting evaluation of the full pipeline on the claim's source text.
Parsing "x:int;\n\x7b\n  x = 5;\n  output(x);\n\x7d" yields TWO parse
diagnostics (not zero): ParseAssignmentStatement in part_003 never parses the
right-hand side expression, so the literal 5 is reported against the expected
";" at line 2 column 6 and again against the expected "EOF"; the assignment
and output statements reach the generator with nil value expressions, no IASN
or IPRT is emitted, and the finalized output is the single line "HALT", not
the claimed three lines. -/
theorem c1_pipeline_diverges :
    compile 100 (str "x:int;\n\x7b\n  x = 5;\n  output(x);\n\x7d") =
      some (str "HALT\n",
        [⟨[], str "5", [str ";"], ⟨2, 6⟩⟩, ⟨[], str "5", [str "EOF"], ⟨0, 0⟩⟩],
        []) ∧
    splitNl (str "HALT\n") ≠ [str "IASN x 5", str "IPRT x", str "HALT"] := by
  constructor
  · decide
  · decide

/-! ### Divergence of the boolean-expression productions (claim C2) -/

/-- The three boolean productions of part_003 fail at every recursion depth:
ParseBooleanFactor re-enters ParseBooleanExpression without consuming a token
(on every path), so the mutual recursion never bottoms out and the fuelled
embedding returns none for every fuel. -/
theorem boolParserFuelNone (fuel : Nat) :
    (∀ st, ParseBooleanExpression fuel st = none) ∧
    (∀ st, ParseBooleanTerm fuel st = none) ∧
    (∀ st, ParseBooleanFactor fuel st = none) := by
  induction fuel with
  | zero => exact ⟨fun _ => rfl, fun _ => rfl, fun _ => rfl⟩
  | succ n ih =>
    obtain ⟨ihE, ihT, ihF⟩ := ih
    refine ⟨fun st => ?_, fun st => ?_, fun st => ?_⟩
    · simp [ParseBooleanExpression, ihT]
    · simp [ParseBooleanTerm, ihF]
    · unfold ParseBooleanFactor
      dsimp only
      split_ifs <;> simp [ihE]

theorem ParseBooleanExpression_none (fuel : Nat) (st : PState) :
    ParseBooleanExpression fuel st = none :=
  (boolParserFuelNone fuel).1 st

/-- Any while statement whose WHILE keyword is actually present diverges: the
condition parse never returns. -/
theorem ParseWhileStatement_none (f : Nat) (st : PState)
    (h : st.lookahead.tokenType = TokenType.WHILE) :
    ParseWhileStatement f st = none := by
  cases f with
  | zero => rfl
  | succ n =>
    unfold ParseWhileStatement
    dsimp only
    simp [matchTok, h, ParseBooleanExpression_none]

theorem ParseStatement_none_while (f : Nat) (st : PState)
    (h : st.lookahead.tokenType = TokenType.WHILE) :
    ParseStatement f st = none := by
  cases f with
  | zero => rfl
  | succ n =>
    unfold ParseStatement
    rw [h]
    exact ParseWhileStatement_none n st h

theorem ParseStatements_none_while (f : Nat) (st : PState)
    (h : st.lookahead.tokenType = TokenType.WHILE) :
    ParseStatements f st = none := by
  cases f with
  | zero => rfl
  | succ n =>
    unfold ParseStatements
    simp [ParseStatement_none_while n st h]

theorem ParseStatementsBlock_none_while (f : Nat) (st : PState)
    (h1 : st.lookahead.tokenType = TokenType.LBRACKET)
    (h2 : (advanceP st).lookahead.tokenType = TokenType.WHILE) :
    ParseStatementsBlock f st = none := by
  cases f with
  | zero => rfl
  | succ n =>
    unfold ParseStatementsBlock
    dsimp only
    simp [matchTok, h1, ParseStatements_none_while n _ h2]

theorem ParseProgram_none_hdr (f : Nat) (st : PState)
    (h1 : st.lookahead.tokenType = TokenType.LBRACKET)
    (h2 : (advanceP st).lookahead.tokenType = TokenType.WHILE) :
    ParseProgram f st = none := by
  cases f with
  | zero => rfl
  | succ n =>
    unfold ParseProgram
    dsimp only
    cases n with
    | zero => rfl
    | succ m =>
      have hd : ParseDeclarations (m + 1) st = some ([], st) := by
        unfold ParseDeclarations
        simp [h1]
      simp [hd, ParseStatementsBlock_none_while (m + 1) st h1 h2]

theorem Parse_none_c2loop (f : Nat) :
    Parse f (str "\x7b while (x < 1) output(x); \x7d") = none := by
  have ht : tokenize (str "\x7b while (x < 1) output(x); \x7d") =
      (⟨TokenType.LBRACKET, str "\x7b", ⟨0, 0⟩⟩ : Token) ::
      [⟨TokenType.WHILE, str "while", ⟨0, 2⟩⟩, ⟨TokenType.LPAREN, str "(", ⟨0, 8⟩⟩,
       ⟨TokenType.ID, str "x", ⟨0, 9⟩⟩, ⟨TokenType.RELOP, str "<", ⟨0, 11⟩⟩,
       ⟨TokenType.NUM, str "1", ⟨0, 13⟩⟩, ⟨TokenType.RPAREN, str ")", ⟨0, 14⟩⟩,
       ⟨TokenType.OUTPUT, str "output", ⟨0, 16⟩⟩, ⟨TokenType.LPAREN, str "(", ⟨0, 22⟩⟩,
       ⟨TokenType.ID, str "x", ⟨0, 23⟩⟩, ⟨TokenType.RPAREN, str ")", ⟨0, 24⟩⟩,
       ⟨TokenType.SEMICOLON, str ";", ⟨0, 25⟩⟩, ⟨TokenType.RBRACKET, str "\x7d", ⟨0, 27⟩⟩,
       ⟨TokenType.EOF, str "EOF", ⟨0, 28⟩⟩] := by decide
  unfold Parse
  rw [ht]
  dsimp only
  rw [ParseProgram_none_hdr f _ (by rfl) (by rfl)]
  rfl

/-- C2: the recursive-descent parser of part_003 does NOT terminate on every
input.  ParseBooleanFactor re-enters ParseBooleanExpression on the very same
lookahead without consuming a token, so (first conjunct) every boolean
expression parse fails at every recursion depth of the fuelled embedding —
the Go original recurses forever — and (second conjunct) the full Parse of
the well-formed program "\x7b while (x < 1) output(x); \x7d" returns nothing
at any depth: no Program and no diagnostic list is ever produced. -/
theorem c2_parser_diverges :
    (∀ fuel st, ParseBooleanExpression fuel st = none) ∧
    (∀ fuel, Parse fuel (str "\x7b while (x < 1) output(x); \x7d") = none) :=
  ⟨fun fuel st => ParseBooleanExpression_none fuel st,
   fun fuel => Parse_none_c2loop fuel⟩

/-! ### Label finalization: counterexample program for claim C3 -/

/-- C3 counterexample: the round trip fails on generator output with ten
labels, because the label text "@1" is a prefix of the label text "@10".  The
code generator produces (with zero diagnostics) a quad text defining
@1 .. @10, in which "JMPZ @10 _t5" references @10.  When the loop processes
@1 (substituting "4"), it also rewrites the two later occurrences of "@10":
the reference line becomes "JMPZ 40 _t5" and the definition line becomes
"40:".  In the finalized text, the jump target 40 exceeds the total line
count 18, so it lands on no line at all — in particular not on the
instruction that followed the @10 definition — and the corrupted remnant
"40:" of the label-definition line is never deleted. -/
theorem c3_remove_labels_counterexample :
    (Codegen fiveIfProg).2 = [] ∧
    (Codegen fiveIfProg).1 =
      str "IEQL _t1 x x\nJMPZ @2 _t1\nJUMP @1\n@2:\n@1:\nIEQL _t2 x x\nJMPZ @4 _t2\nJUMP @3\n@4:\n@3:\nIEQL _t3 x x\nJMPZ @6 _t3\nJUMP @5\n@6:\n@5:\nIEQL _t4 x x\nJMPZ @8 _t4\nJUMP @7\n@8:\n@7:\nIEQL _t5 x x\nJMPZ @10 _t5\nJUMP @9\n@10:\n@9:\nHALT\n" ∧
    RemoveLabels (Codegen fiveIfProg).1 =
      str "IEQL _t1 x x\nJMPZ 4 _t1\nJUMP 4\nIEQL _t2 x x\nJMPZ 7 _t2\nJUMP 7\nIEQL _t3 x x\nJMPZ 10 _t3\nJUMP 10\nIEQL _t4 x x\nJMPZ 13 _t4\nJUMP 13\nIEQL _t5 x x\nJMPZ 40 _t5\nJUMP 16\n40:\nHALT\n" ∧
    (splitNl (RemoveLabels (Codegen fiveIfProg).1)).length = 18 ∧
    (splitNl (RemoveLabels (Codegen fiveIfProg).1)).get? 13 = some (str "JMPZ 40 _t5") ∧
    (splitNl (RemoveLabels (Codegen fiveIfProg).1)).get? 15 = some (str "40:") := by
  set_option maxRecDepth 10000 in
  refine ⟨by decide, by decide, by decide, by decide, by decide, by decide⟩

/-! ### replaceAll machinery for the amended C3 round trip -/

theorem length_drop_le (n : Nat) (l : Str) : (List.drop n l).length ≤ l.length := by
  rw [List.length_drop]
  exact Nat.sub_le _ _

/-- The fuel of replaceAllF is irrelevant once it covers the text length:
each step consumes at least one character. -/
theorem replaceAllF_fuel (pat rep : Str) :
    ∀ f1 f2 s, s.length ≤ f1 → s.length ≤ f2 →
      replaceAllF f1 pat rep s = replaceAllF f2 pat rep s := by
  intro f1
  induction f1 with
  | zero =>
    intro f2 s h1 _
    have : s = [] := List.length_eq_zero.mp (Nat.le_zero.mp h1)
    subst this
    cases f2 <;> rfl
  | succ n ih =>
    intro f2 s h1 h2
    cases s with
    | nil => cases f2 <;> rfl
    | cons c rest =>
      cases f2 with
      | zero => exact absurd h2 (by simp)
      | succ m =>
        simp only [replaceAllF]
        split_ifs with h
        · have hlen : (List.drop (pat.length - 1) rest).length ≤ rest.length :=
            length_drop_le _ _
          have hr1 : rest.length ≤ n := by simpa using h1
          have hr2 : rest.length ≤ m := by simpa using h2
          rw [ih m _ (le_trans hlen hr1) (le_trans hlen hr2)]
        · have hr1 : rest.length ≤ n := by simpa using h1
          have hr2 : rest.length ≤ m := by simpa using h2
          rw [ih m _ hr1 hr2]

/-- replaceAllF at sufficient fuel is replaceAll. -/
theorem replaceAllF_eq (pat rep : Str) (f : Nat) (s : Str) (h : s.length ≤ f) :
    replaceAllF f pat rep s = replaceAll pat rep s :=
  replaceAllF_fuel pat rep f s.length s h le_rfl

/-- One unfolding step of replaceAll on a match at the front. -/
theorem replaceAll_cons_match (pat rep : Str) (c : Char) (rest : Str)
    (hne : pat ≠ []) (h : pat <+: (c :: rest)) :
    replaceAll pat rep (c :: rest) =
      rep ++ replaceAll pat rep (List.drop (pat.length - 1) rest) := by
  unfold replaceAll
  simp only [List.length_cons, replaceAllF]
  rw [if_pos ⟨hne, List.isPrefixOf_iff_prefix.mpr h⟩]
  rw [replaceAllF_fuel pat rep rest.length (List.drop (pat.length - 1) rest).length
    (List.drop (pat.length - 1) rest) (length_drop_le _ _) le_rfl]

/-- One unfolding step of replaceAll on a mismatch at the front. -/
theorem replaceAll_cons_skip (pat rep : Str) (c : Char) (rest : Str)
    (h : ¬ pat <+: (c :: rest)) :
    replaceAll pat rep (c :: rest) = c :: replaceAll pat rep rest := by
  unfold replaceAll
  simp only [List.length_cons, replaceAllF]
  rw [if_neg (by
    rintro ⟨-, hp⟩
    exact h (List.isPrefixOf_iff_prefix.mp hp))]

theorem replaceAll_nil (pat rep : Str) : replaceAll pat rep [] = [] := rfl

/-- A text in which the pattern matches at no position is unchanged. -/
theorem replaceAll_noOccur (pat rep s : Str)
    (h : ∀ i, ¬ pat <+: s.drop i) : replaceAll pat rep s = s := by
  induction s with
  | nil => rfl
  | cons c rest ih =>
    rw [replaceAll_cons_skip pat rep c rest (h 0)]
    rw [ih (fun i => h (i + 1))]

/-- Walking a region in which the pattern matches at no position. -/
theorem replaceAll_walk (pat rep : Str) :
    ∀ (a t : Str), (∀ i, i < a.length → ¬ pat <+: (a.drop i ++ t)) →
      replaceAll pat rep (a ++ t) = a ++ replaceAll pat rep t := by
  intro a
  induction a with
  | nil => intro t _; rfl
  | cons c a' ih =>
    intro t h
    have h0 : ¬ pat <+: (c :: (a' ++ t)) := by
      have := h 0 (by simp)
      simpa using this
    rw [List.cons_append, replaceAll_cons_skip pat rep c (a' ++ t) h0]
    rw [ih t (fun i hi => by
      have := h (i + 1) (by simpa using Nat.succ_lt_succ hi)
      simpa using this)]
    rfl

/-- A newline-free pattern matches at the front of a line-plus-newline text
exactly when it matches at the front of the line. -/
theorem prefix_boundary (pat x y : Str) (hnil : pat ≠ []) (hnl : '\n' ∉ pat) :
    pat <+: (x ++ '\n' :: y) ↔ pat <+: x := by
  constructor
  · intro h
    by_cases hle : pat.length ≤ x.length
    · exact List.prefix_of_prefix_length_le h (List.prefix_append x ('\n' :: y)) hle
    · exfalso
      obtain ⟨r, hr⟩ := h
      have h1 : (x ++ '\n' :: y).get? x.length = some '\n' := by
        rw [List.get?_append_right le_rfl]
        simp
      have h2 : pat.get? x.length = some '\n' := by
        have h4 : (pat ++ r).get? x.length = pat.get? x.length :=
          List.get?_append (by omega)
        rw [← h4, hr, h1]
      exact hnl (List.get?_mem h2)
  · intro h
    exact strPrefixTrans h (List.prefix_append x ('\n' :: y))

/-- A pattern whose head character does not occur in the line never matches
while that line (plus following text) is scanned. -/
theorem replaceAll_nl_cons (pat rep : Str) (hnil : pat ≠ []) (hnl : '\n' ∉ pat)
    (t : Str) : replaceAll pat rep ('\n' :: t) = '\n' :: replaceAll pat rep t := by
  apply replaceAll_cons_skip
  intro hp
  obtain ⟨r, hr⟩ := hp
  cases pat with
  | nil => exact hnil rfl
  | cons p0 pr =>
    apply hnl
    have : p0 = '\n' := by
      have := congrArg (List.get? · 0) hr
      simpa using this
    simp [this]

/-- A newline-free pattern is replaced independently on the two sides of a
newline. -/
theorem replaceAll_line (pat rep : Str) (hnil : pat ≠ []) (hnl : '\n' ∉ pat) :
    ∀ (n : Nat) (l t : Str), l.length ≤ n →
      replaceAll pat rep (l ++ '\n' :: t) =
        replaceAll pat rep l ++ '\n' :: replaceAll pat rep t := by
  intro n
  induction n with
  | zero =>
    intro l t hl
    have : l = [] := List.length_eq_zero.mp (Nat.le_zero.mp hl)
    subst this
    simpa using replaceAll_nl_cons pat rep hnil hnl t
  | succ n ih =>
    intro l t hl
    cases l with
    | nil => simpa using replaceAll_nl_cons pat rep hnil hnl t
    | cons c l' =>
      by_cases hm : pat <+: (c :: l')
      · have hm2 : pat <+: (c :: (l' ++ '\n' :: t)) := by
          have := (prefix_boundary pat (c :: l') t hnil hnl).mpr hm
          simpa using this
        have hplen : pat.length - 1 ≤ l'.length := by
          have := hm.length_le
          simp at this
          omega
        rw [List.cons_append, replaceAll_cons_match pat rep c (l' ++ '\n' :: t) hnil hm2]
        rw [List.drop_append_of_le_length hplen]
        rw [ih _ t (by
          have := length_drop_le (pat.length - 1) l'
          have hlen' : l'.length ≤ n := by simpa using hl
          omega)]
        rw [replaceAll_cons_match pat rep c l' hnil hm]
        simp [List.append_assoc]
      · have hm2 : ¬ pat <+: (c :: (l' ++ '\n' :: t)) := by
          intro hp
          exact hm ((prefix_boundary pat (c :: l') t hnil hnl).mp (by simpa using hp))
        rw [List.cons_append, replaceAll_cons_skip pat rep c _ hm2]
        rw [ih l' t (by simpa using hl)]
        rw [replaceAll_cons_skip pat rep c l' hm]
        rfl

/-- A newline-free pattern distributes over the joined lines. -/
theorem replaceAll_joinNl (pat rep : Str) (hnil : pat ≠ []) (hnl : '\n' ∉ pat) :
    ∀ lines : List Str,
      replaceAll pat rep (joinNl lines) = joinNl (lines.map (replaceAll pat rep)) := by
  intro lines
  induction lines with
  | nil => rfl
  | cons l ls ih =>
    cases ls with
    | nil => rfl
    | cons l2 ls' =>
      show replaceAll pat rep (l ++ '\n' :: joinNl (l2 :: ls')) = _
      rw [replaceAll_line pat rep hnil hnl l.length l _ le_rfl, ih]
      rfl

/-- Characters within the pattern region of a prefix match. -/
theorem prefix_get (p t : Str) (h : p <+: t) (i : Nat) (hi : i < p.length) :
    t.get? i = p.get? i := by
  obtain ⟨r, rfl⟩ := h
  exact List.get?_append hi

/-- The line-deletion pattern L ++ "\n" cannot match against a newline-free
text u (plus a newline and following text) unless u is exactly L. -/
theorem no_match_mid (L u J : Str) (hnil : L ≠ []) (hnl : '\n' ∉ L)
    (hu : '\n' ∉ u) (hneq : u ≠ L) :
    ¬ (L ++ ['\n']) <+: (u ++ '\n' :: J) := by
  intro hp
  rcases Nat.lt_trichotomy L.length u.length with h | h | h
  · have e1 : (u ++ '\n' :: J).get? L.length = u.get? L.length := List.get?_append h
    have e2 : (L ++ ['\n']).get? L.length = some '\n' := by
      rw [List.get?_append_right le_rfl]
      simp
    have e3 := prefix_get _ _ hp L.length (by simp)
    rw [e1, e2] at e3
    exact hu (List.get?_mem e3)
  · have hLu : L <+: u :=
      List.prefix_of_prefix_length_le
        (strPrefixTrans (List.prefix_append L ['\n']) hp)
        (List.prefix_append u ('\n' :: J)) (le_of_eq h)
    exact hneq (hLu.eq_of_length h).symm
  · have e1 : (u ++ '\n' :: J).get? u.length = some '\n' := by
      rw [List.get?_append_right le_rfl]
      simp
    have e2 : (L ++ ['\n']).get? u.length = L.get? u.length := List.get?_append h
    have e3 := prefix_get _ _ hp u.length (by simp; omega)
    rw [e1, e2] at e3
    exact hnl (List.get?_mem e3.symm)

/-- Replacement of an exact pattern occurrence at the front. -/
theorem replaceAll_match_start (pat rep t : Str) (hnil : pat ≠ []) :
    replaceAll pat rep (pat ++ t) = rep ++ replaceAll pat rep t := by
  cases pat with
  | nil => exact absurd rfl hnil
  | cons c p0 =>
    rw [List.cons_append, replaceAll_cons_match _ _ _ _ (by simp) ⟨t, by simp⟩]
    have hd : (c :: p0).length - 1 = p0.length := by simp
    rw [hd, List.drop_left]

theorem removeAllL_ne_nil (L : Str) (ls : List Str) (h : ls ≠ []) :
    removeAllL L ls ≠ [] := by
  induction ls with
  | nil => exact absurd rfl h
  | cons l ls ih =>
    cases ls with
    | nil => simp [removeAllL]
    | cons l2 ls' =>
      show (if l = L then removeAllL L (l2 :: ls') else l :: removeAllL L (l2 :: ls')) ≠ []
      split_ifs
      · exact ih (by simp)
      · simp

theorem joinNl_cons (l : Str) (ls : List Str) (h : ls ≠ []) :
    joinNl (l :: ls) = l ++ '\n' :: joinNl ls := by
  cases ls with
  | nil => exact absurd rfl h
  | cons l2 ls' => rfl

/-- Deleting a label line: replacing L ++ "\n" by the empty string on a
joined line list removes exactly the non-last lines equal to L, provided no
other non-last line even ends with L. -/
theorem replaceAll_delete (L : Str) (hnil : L ≠ []) (hnl : '\n' ∉ L) :
    ∀ lines : List Str, (∀ l ∈ lines, '\n' ∉ l) →
      (∀ l ∈ lines.dropLast, L <:+ l → l = L) →
      replaceAll (L ++ ['\n']) [] (joinNl lines) = joinNl (removeAllL L lines) := by
  intro lines
  induction lines with
  | nil => intro _ _; rfl
  | cons l ls ih =>
    intro hfree hsuf
    cases ls with
    | nil =>
      show replaceAll (L ++ ['\n']) [] (joinNl [l]) = joinNl (removeAllL L [l])
      have hj : joinNl [l] = l := rfl
      have hno : ∀ i, ¬ (L ++ ['\n']) <+: l.drop i := by
        intro i hp
        have hmem : '\n' ∈ l := by
          have h1 : '\n' ∈ L ++ ['\n'] := by simp
          have h2 := hp.subset h1
          exact List.mem_of_mem_drop h2
        exact hfree l (by simp) hmem
      rw [hj, replaceAll_noOccur _ _ _ hno]
      rfl
    | cons l2 ls' =>
      rw [joinNl_cons l (l2 :: ls') (by simp)]
      have ihall := ih (fun x hx => hfree x (List.mem_cons_of_mem l hx))
        (fun x hx => hsuf x (List.mem_cons_of_mem l hx))
      by_cases hL : l = L
      · subst hL
        rw [show l ++ '\n' :: joinNl (l2 :: ls') = (l ++ ['\n']) ++ joinNl (l2 :: ls')
          from by simp]
        rw [replaceAll_match_start _ [] _ (by simp)]
        rw [ihall]
        have hr : removeAllL l (l :: l2 :: ls') = removeAllL l (l2 :: ls') := by
          simp [removeAllL]
        rw [hr]
        rfl
      · have hcond : ∀ i, i < (l ++ ['\n']).length →
            ¬ (L ++ ['\n']) <+: ((l ++ ['\n']).drop i ++ joinNl (l2 :: ls')) := by
          intro i hi
          have hile : i ≤ l.length := by
            simp at hi
            omega
          rw [List.drop_append_of_le_length hile]
          rw [show (l.drop i ++ ['\n']) ++ joinNl (l2 :: ls') =
            l.drop i ++ '\n' :: joinNl (l2 :: ls') from by simp]
          apply no_match_mid L (l.drop i) (joinNl (l2 :: ls')) hnil hnl
          · intro hmem
            exact hfree l (by simp) (List.mem_of_mem_drop hmem)
          · intro heq
            apply hL
            apply hsuf l (List.mem_cons_self l _)
            rw [← heq]
            exact List.drop_suffix i l
        rw [show l ++ '\n' :: joinNl (l2 :: ls') = (l ++ ['\n']) ++ joinNl (l2 :: ls')
          from by simp]
        rw [replaceAll_walk (L ++ ['\n']) [] (l ++ ['\n']) (joinNl (l2 :: ls')) hcond]
        rw [ihall]
        have hr : removeAllL L (l :: l2 :: ls') = l :: removeAllL L (l2 :: ls') := by
          simp [removeAllL, hL]
        rw [hr, joinNl_cons _ _ (removeAllL_ne_nil L (l2 :: ls') (by simp))]
        simp

/-! digit facts about natDigits -/

theorem natDigitsAux_mem : ∀ (f n : Nat) (c : Char),
    c ∈ natDigitsAux f n → c ∈ str "0123456789" := by
  intro f
  induction f with
  | zero => intro n c h; simp [natDigitsAux] at h
  | succ f ih =>
    intro n c h
    cases n with
    | zero => simp [natDigitsAux] at h
    | succ m =>
      simp only [natDigitsAux] at h
      rcases List.mem_append.mp h with h1 | h2
      · exact ih _ c h1
      · have hc : c = Char.ofNat (48 + (m + 1) % 10) := by simpa using h2
        subst hc
        have h10 : (m + 1) % 10 < 10 := Nat.mod_lt _ (by norm_num)
        generalize hr : (m + 1) % 10 = r at h10
        interval_cases r <;> decide

theorem natDigits_mem (n : Nat) (c : Char) (h : c ∈ natDigits n) :
    c ∈ str "0123456789" := by
  unfold natDigits at h
  split_ifs at h
  · have : c = '0' := by simpa using h
    subst this
    decide
  · exact natDigitsAux_mem _ _ _ h

theorem natDigits_char (n : Nat) (c : Char) (h : c ∈ natDigits n) :
    c ≠ '@' ∧ c ≠ ':' ∧ c ≠ '\n' := by
  have hm : c ∈ ['0', '1', '2', '3', '4', '5', '6', '7', '8', '9'] :=
    natDigits_mem n c h
  fin_cases hm <;> exact ⟨by decide, by decide, by decide⟩

theorem natDigits_ne_nil (n : Nat) : natDigits n ≠ [] := by
  unfold natDigits
  split_ifs with h
  · simp
  · cases n with
    | zero => exact absurd rfl h
    | succ m =>
      show natDigitsAux (m + 2) (m + 1) ≠ []
      simp only [natDigitsAux]
      simp

/-- Single-digit rendering for labels 1 .. 9. -/
theorem natDigits_single (d : Nat) (h1 : 1 ≤ d) (h9 : d ≤ 9) :
    natDigits d = [Char.ofNat (48 + d)] := by
  interval_cases d <;> decide

theorem natDigits_inj9 (d e : Nat) (hd1 : 1 ≤ d) (hd9 : d ≤ 9)
    (he1 : 1 ≤ e) (he9 : e ≤ 9) (h : natDigits d = natDigits e) : d = e := by
  interval_cases d <;> interval_cases e <;> first | rfl | exact absurd h (by decide)

theorem substTok_nil (qs : List QLine) (t : QuadTok) : substTok qs [] t = t := by
  cases t <;> simp [substTok]

theorem substQLine_nil (qs : List QLine) (l : QLine) : substQLine qs [] l = l := by
  cases l <;> simp [substQLine, substTok_nil, List.map_id'']

theorem substTok_congr (qs : List QLine) (σ1 σ2 : List Nat)
    (h : ∀ e, e ∈ σ1 ↔ e ∈ σ2) (t : QuadTok) :
    substTok qs σ1 t = substTok qs σ2 t := by
  cases t with
  | txt s => rfl
  | ref d =>
    simp only [substTok]
    by_cases hd : d ∈ σ1
    · rw [if_pos hd, if_pos ((h d).mp hd)]
    · rw [if_neg hd, if_neg (fun hc => hd ((h d).mpr hc))]

theorem substQLine_congr (qs : List QLine) (σ1 σ2 : List Nat)
    (h : ∀ e, e ∈ σ1 ↔ e ∈ σ2) (l : QLine) :
    substQLine qs σ1 l = substQLine qs σ2 l := by
  cases l with
  | lbl d => rfl
  | ins toks =>
    simp only [substQLine, QLine.ins.injEq]
    exact List.map_congr_left (fun t _ => substTok_congr qs σ1 σ2 h t)

/-! ### Character-level facts about rendered lines -/

theorem getLast?_mem {α : Type} (l : List α) (a : α) (h : l.getLast? = some a) :
    a ∈ l := by
  induction l with
  | nil => simp at h
  | cons x xs ih =>
    cases xs with
    | nil =>
      simp at h
      simp [h]
    | cons y ys =>
      rw [List.getLast?_cons_cons] at h
      exact List.mem_cons_of_mem x (ih h)

theorem substTok_OK (k : Nat) (qs : List QLine) (σ : List Nat) (t : QuadTok)
    (h : tokOK k t) : tokOK k (substTok qs σ t) := by
  cases t with
  | txt s => exact h
  | ref d =>
    simp only [substTok]
    split_ifs
    · exact ⟨fun hc => ((natDigits_char _ _ hc).1 rfl), fun hc => ((natDigits_char _ _ hc).2.2 rfl)⟩
    · exact h

theorem renderTok_nl_free (k : Nat) (t : QuadTok) (h : tokOK k t) :
    '\n' ∉ renderTok t := by
  cases t with
  | txt s => exact h.2
  | ref d =>
    intro hc
    rcases List.mem_cons.mp hc with h1 | h1
    · exact absurd h1 (by decide)
    · exact (natDigits_char _ _ h1).2.2 rfl

theorem renderToks_nl_free (k : Nat) (toks : List QuadTok)
    (h : ∀ t ∈ toks, tokOK k t) : '\n' ∉ renderToks toks := by
  induction toks with
  | nil => simp [renderToks]
  | cons t ts ih =>
    simp only [renderToks]
    intro hc
    rcases List.mem_append.mp hc with h1 | h1
    · exact renderTok_nl_free k t (h t (by simp)) h1
    · exact ih (fun x hx => h x (List.mem_cons_of_mem t hx)) h1

theorem renderQLine_lbl_nl_free (d : Nat) : '\n' ∉ renderQLine (QLine.lbl d) := by
  simp only [renderQLine]
  intro hc
  rcases List.mem_cons.mp hc with h1 | h1
  · exact absurd h1 (by decide)
  · rcases List.mem_append.mp h1 with h2 | h2
    · exact (natDigits_char _ _ h2).2.2 rfl
    · have h3 : '\n' = ':' := by simpa using h2
      exact absurd h3 (by decide)

theorem renderQLine_lbl_ne_nil (d : Nat) : renderQLine (QLine.lbl d) ≠ [] := by
  simp [renderQLine]

theorem renderQLine_lbl_getLast (d : Nat) :
    (renderQLine (QLine.lbl d)).getLast? = some ':' := by
  show ('@' :: (natDigits d ++ [':'])).getLast? = some ':'
  rw [show '@' :: (natDigits d ++ [':']) = ('@' :: natDigits d) ++ [':'] from by simp]
  exact List.getLast?_concat _

theorem renderQLine_lbl_inj (d e : Nat) (hd1 : 1 ≤ d) (hd9 : d ≤ 9)
    (he1 : 1 ≤ e) (he9 : e ≤ 9)
    (h : renderQLine (QLine.lbl d) = renderQLine (QLine.lbl e)) : d = e := by
  revert h
  interval_cases d <;> interval_cases e <;> decide

theorem renderToks_append (a b : List QuadTok) :
    renderToks (a ++ b) = renderToks a ++ renderToks b := by
  induction a with
  | nil => rfl
  | cons t ts ih => simp [renderToks, ih]

theorem notColon_of_digits (x s : Str) (hdig : ∀ c ∈ s, c ∈ str "0123456789")
    (hne : s ≠ []) : (x ++ s).getLast? ≠ some ':' := by
  intro hc
  rw [List.getLast?_append_of_ne_nil _ hne] at hc
  have h2 := getLast?_mem _ _ hc
  have h3 : (':' : Char) ∈ ['0','1','2','3','4','5','6','7','8','9'] := hdig _ h2
  simp at h3

/-- Substitution never makes an instruction line end with ':'. -/
theorem subst_last_not_colon (k : Nat) (qs : List QLine) (σ : List Nat)
    (toks : List QuadTok) (hok : ∀ t ∈ toks, tokOK k t)
    (h : (renderToks toks).getLast? ≠ some ':') :
    (renderToks (toks.map (substTok qs σ))).getLast? ≠ some ':' := by
  induction toks using List.reverseRecOn with
  | nil => simpa [renderToks] using h
  | append_singleton ts t ih =>
    rw [List.map_append, renderToks_append]
    rw [renderToks_append] at h
    cases t with
    | txt s =>
      have e1 : renderToks (List.map (substTok qs σ) [QuadTok.txt s]) = s := by
        simp [renderToks, renderTok, substTok]
      have e2 : renderToks [QuadTok.txt s] = s := by simp [renderToks, renderTok]
      rw [e1]
      rw [e2] at h
      cases hs : s with
      | nil =>
        subst hs
        rw [List.append_nil]
        rw [List.append_nil] at h
        exact ih (fun x hx => hok x (List.mem_append_left _ hx)) h
      | cons c cs =>
        subst hs
        rw [List.getLast?_append_of_ne_nil _ (by simp)] at h ⊢
        exact h
    | ref d =>
      by_cases hd : d ∈ σ
      · have e1 : renderToks (List.map (substTok qs σ) [QuadTok.ref d]) =
            natDigits (lblNum qs d) := by
          simp [renderToks, renderTok, substTok, hd]
        rw [e1]
        exact notColon_of_digits _ _ (fun c hc => natDigits_mem _ c hc)
          (natDigits_ne_nil _)
      · have e1 : renderToks (List.map (substTok qs σ) [QuadTok.ref d]) =
            '@' :: natDigits d := by
          simp [renderToks, renderTok, substTok, hd]
        rw [e1]
        rw [show ('@' :: natDigits d) = ['@'] ++ natDigits d from rfl,
          ← List.append_assoc]
        exact notColon_of_digits _ _ (fun c hc => natDigits_mem _ c hc)
          (natDigits_ne_nil _)

/-! ### Substitution of one label across a rendered line -/

/-- Walking text that does not contain the pattern's head character. -/
theorem replaceAll_walk_head (p0 : Char) (pr rep : Str) :
    ∀ (s t : Str), p0 ∉ s →
      replaceAll (p0 :: pr) rep (s ++ t) = s ++ replaceAll (p0 :: pr) rep t := by
  intro s
  induction s with
  | nil => intro t _; rfl
  | cons c s' ih =>
    intro t hs
    rw [List.cons_append, replaceAll_cons_skip _ _ _ _ (fun hp => by
      have := (List.cons_prefix_cons.mp hp).1
      exact hs (by simp [this]))]
    rw [ih t (fun hc => hs (List.mem_cons_of_mem c hc))]
    rfl

/-- No occurrence of an '@'-headed pattern inside '@'-free text. -/
theorem no_at_noOccur (pr x : Str) (hx : '@' ∉ x) :
    ∀ i, ¬ ('@' :: pr) <+: x.drop i := by
  intro i hp
  cases hd : x.drop i with
  | nil =>
    rw [hd] at hp
    simp at hp
  | cons c r =>
    rw [hd] at hp
    have h1 := (List.cons_prefix_cons.mp hp).1
    have h2 : c ∈ x := List.mem_of_mem_drop (hd ▸ List.mem_cons_self c r)
    exact hx (h1 ▸ h2)

/-- Substituting one more label in a rendered instruction line. -/
theorem replaceAll_renderToks (k : Nat) (qs : List QLine) (σ : List Nat) (d : Nat)
    (hd1 : 1 ≤ d) (hd9 : d ≤ 9) (hk9 : k ≤ 9) :
    ∀ toks : List QuadTok, (∀ t ∈ toks, tokOK k t) →
      replaceAll ('@' :: natDigits d) (natDigits (lblNum qs d))
        (renderToks (toks.map (substTok qs σ)))
      = renderToks (toks.map (substTok qs (d :: σ))) := by
  intro toks
  induction toks with
  | nil => intro _; rfl
  | cons t ts ih =>
    intro hok
    have ihts := ih (fun x hx => hok x (List.mem_cons_of_mem t hx))
    cases t with
    | txt s =>
      have hfree : '@' ∉ s := (hok (QuadTok.txt s) (by simp)).1
      show replaceAll _ _ (renderToks (QuadTok.txt s :: ts.map (substTok qs σ))) = _
      rw [show renderToks (QuadTok.txt s :: ts.map (substTok qs σ)) =
        s ++ renderToks (ts.map (substTok qs σ)) from rfl]
      rw [replaceAll_walk_head '@' _ _ s _ hfree, ihts]
      rfl
    | ref e =>
      have he : 1 ≤ e ∧ e ≤ k := hok (QuadTok.ref e) (by simp)
      by_cases heσ : e ∈ σ
      · have e1 : substTok qs σ (QuadTok.ref e) = QuadTok.txt (natDigits (lblNum qs e)) := by
          simp [substTok, heσ]
        have e2 : substTok qs (d :: σ) (QuadTok.ref e) =
            QuadTok.txt (natDigits (lblNum qs e)) := by
          simp [substTok, List.mem_cons_of_mem d heσ]
        show replaceAll _ _ (renderToks (substTok qs σ (QuadTok.ref e) ::
          ts.map (substTok qs σ))) = renderToks (substTok qs (d :: σ) (QuadTok.ref e) ::
          ts.map (substTok qs (d :: σ)))
        rw [e1, e2]
        rw [show renderToks (QuadTok.txt (natDigits (lblNum qs e)) ::
          ts.map (substTok qs σ)) =
          natDigits (lblNum qs e) ++ renderToks (ts.map (substTok qs σ)) from rfl]
        rw [replaceAll_walk_head '@' _ _ _ _
          (fun hc => (natDigits_char _ _ hc).1 rfl), ihts]
        rfl
      · by_cases hed : e = d
        · subst hed
          have e1 : substTok qs σ (QuadTok.ref e) = QuadTok.ref e := by
            simp [substTok, heσ]
          have e2 : substTok qs (e :: σ) (QuadTok.ref e) =
              QuadTok.txt (natDigits (lblNum qs e)) := by
            simp [substTok]
          show replaceAll _ _ (renderToks (substTok qs σ (QuadTok.ref e) ::
            ts.map (substTok qs σ))) = renderToks (substTok qs (e :: σ) (QuadTok.ref e) ::
            ts.map (substTok qs (e :: σ)))
          rw [e1, e2]
          rw [show renderToks (QuadTok.ref e :: ts.map (substTok qs σ)) =
            ('@' :: natDigits e) ++ renderToks (ts.map (substTok qs σ)) from by
              simp [renderToks, renderTok]]
          rw [replaceAll_match_start _ _ _ (by simp), ihts]
          rfl
        · have e1 : substTok qs σ (QuadTok.ref e) = QuadTok.ref e := by
            simp [substTok, heσ]
          have e2 : substTok qs (d :: σ) (QuadTok.ref e) = QuadTok.ref e := by
            simp [substTok, heσ, hed]
          show replaceAll _ _ (renderToks (substTok qs σ (QuadTok.ref e) ::
            ts.map (substTok qs σ))) = renderToks (substTok qs (d :: σ) (QuadTok.ref e) ::
            ts.map (substTok qs (d :: σ)))
          rw [e1, e2]
          rw [show renderToks (QuadTok.ref e :: ts.map (substTok qs σ)) =
            '@' :: (natDigits e ++ renderToks (ts.map (substTok qs σ))) from by
              simp [renderToks, renderTok]]
          rw [replaceAll_cons_skip _ _ _ _ (fun hp => by
            have h1 := (List.cons_prefix_cons.mp hp).2
            rw [natDigits_single d hd1 hd9, natDigits_single e he.1 (le_trans he.2 hk9)]
              at h1
            have h2 : Char.ofNat (48 + d) = Char.ofNat (48 + e) := by simpa using h1
            have h3 : natDigits d = natDigits e := by
              rw [natDigits_single d hd1 hd9, natDigits_single e he.1 (le_trans he.2 hk9),
                h2]
            exact hed (natDigits_inj9 d e hd1 hd9 he.1 (le_trans he.2 hk9) h3).symm)]
          rw [replaceAll_walk_head '@' _ _ (natDigits e) _
            (fun hc => (natDigits_char _ _ hc).1 rfl), ihts]
          rfl

/-- Substituting one more label across any rendered line (the label's own
definition line is already deleted, so other label lines have e ≠ d). -/
theorem replaceAll_subst_qline (k : Nat) (qs : List QLine) (σ : List Nat) (d : Nat)
    (hd1 : 1 ≤ d) (hd9 : d ≤ 9) (hk9 : k ≤ 9) (l : QLine) (hok : lineOK k l)
    (hlbl : ∀ e, l = QLine.lbl e → e ≠ d) :
    replaceAll ('@' :: natDigits d) (natDigits (lblNum qs d))
      (renderQLine (substQLine qs σ l)) = renderQLine (substQLine qs (d :: σ) l) := by
  cases l with
  | ins toks => exact replaceAll_renderToks k qs σ d hd1 hd9 hk9 toks hok.1
  | lbl e =>
    have hede : e ≠ d := hlbl e rfl
    have he : 1 ≤ e ∧ e ≤ k := hok
    show replaceAll _ _ (renderQLine (QLine.lbl e)) = renderQLine (QLine.lbl e)
    apply replaceAll_noOccur
    intro i
    cases i with
    | zero =>
      intro hp
      have h1 : natDigits d <+: natDigits e ++ [':'] := by
        simpa [renderQLine] using hp
      rw [natDigits_single d hd1 hd9, natDigits_single e he.1 (le_trans he.2 hk9)] at h1
      have h2 : Char.ofNat (48 + d) = Char.ofNat (48 + e) := by simpa using h1
      have h3 : natDigits d = natDigits e := by
        rw [natDigits_single d hd1 hd9, natDigits_single e he.1 (le_trans he.2 hk9), h2]
      exact hede (natDigits_inj9 d e hd1 hd9 he.1 (le_trans he.2 hk9) h3).symm
    | succ j =>
      have hshape : (renderQLine (QLine.lbl e)).drop (j + 1) =
          (natDigits e ++ [':']).drop j := by
        simp [renderQLine]
      rw [hshape]
      apply no_at_noOccur
      intro hc
      rcases List.mem_append.mp hc with h1 | h1
      · exact (natDigits_char _ _ h1).1 rfl
      · have : '@' = ':' := by simpa using h1
        exact absurd this (by decide)

/-! ### List utilities for the simulation -/

theorem removeAllL_eq_self (L : Str) : ∀ ls : List Str, (∀ x ∈ ls, x ≠ L) →
    removeAllL L ls = ls := by
  intro ls
  induction ls with
  | nil => intro _; rfl
  | cons l ls ih =>
    intro h
    cases ls with
    | nil => rfl
    | cons l2 ls' =>
      show (if l = L then removeAllL L (l2 :: ls') else l :: removeAllL L (l2 :: ls')) = _
      rw [if_neg (h l (by simp))]
      rw [ih (fun x hx => h x (List.mem_cons_of_mem l hx))]

theorem removeAllL_append_single (L : Str) : ∀ (A B : List Str),
    (∀ x ∈ A, x ≠ L) → B ≠ [] → (∀ x ∈ B, x ≠ L) →
    removeAllL L (A ++ L :: B) = A ++ B := by
  intro A
  induction A with
  | nil =>
    intro B _ hBne hB
    cases B with
    | nil => exact absurd rfl hBne
    | cons b B' =>
      show (if L = L then removeAllL L (b :: B') else _) = _
      rw [if_pos rfl, removeAllL_eq_self L (b :: B') hB]
      rfl
  | cons a A' ih =>
    intro B hA hBne hB
    have hne : A' ++ L :: B ≠ [] := by simp
    show removeAllL L (a :: (A' ++ L :: B)) = _
    cases hA' : A' ++ L :: B with
    | nil => exact absurd hA' hne
    | cons y ys =>
      have hred : removeAllL L (a :: y :: ys) =
          if a = L then removeAllL L (y :: ys) else a :: removeAllL L (y :: ys) := rfl
      rw [hred, if_neg (hA a (by simp)), ← hA']
      rw [ih B (fun x hx => hA x (List.mem_cons_of_mem a hx)) hBne hB]
      rfl

theorem splitNl_nlfree (l : Str) (h : '\n' ∉ l) : splitNl l = [l] := by
  induction l with
  | nil => rfl
  | cons c rest ih =>
    have hc : ¬ c = '\n' := fun hh => h (by simp [hh])
    show (if c = '\n' then [] :: splitNl rest else
      match splitNl rest with
      | [] => [[c]]
      | l :: ls => (c :: l) :: ls) = _
    rw [if_neg hc, ih (fun hh => h (List.mem_cons_of_mem c hh))]

theorem splitNl_append_nl (l t : Str) (h : '\n' ∉ l) :
    splitNl (l ++ '\n' :: t) = l :: splitNl t := by
  induction l with
  | nil =>
    show (if '\n' = '\n' then [] :: splitNl t else _) = _
    rw [if_pos rfl]
  | cons c rest ih =>
    have hc : ¬ c = '\n' := fun hh => h (by simp [hh])
    show splitNl (c :: (rest ++ '\n' :: t)) = (c :: rest) :: splitNl t
    simp only [splitNl]
    rw [if_neg hc, ih (fun hh => h (List.mem_cons_of_mem c hh))]

theorem splitNl_joinNl : ∀ lines : List Str, lines ≠ [] →
    (∀ l ∈ lines, '\n' ∉ l) → splitNl (joinNl lines) = lines := by
  intro lines
  induction lines with
  | nil => intro h _; exact absurd rfl h
  | cons l ls ih =>
    intro _ hfree
    cases ls with
    | nil => exact splitNl_nlfree l (hfree l (by simp))
    | cons l2 ls' =>
      rw [joinNl_cons l (l2 :: ls') (by simp)]
      rw [splitNl_append_nl l _ (hfree l (by simp))]
      rw [ih (by simp) (fun x hx => hfree x (List.mem_cons_of_mem l hx))]

theorem findIdx_append_not {α : Type} (p : α → Bool) :
    ∀ (pre : List α) (l : α) (suf : List α), (∀ x ∈ pre, ¬ p x) → p l →
      (pre ++ l :: suf).findIdx p = pre.length := by
  intro pre
  induction pre with
  | nil =>
    intro l suf _ hl
    simp [List.findIdx_cons, hl]
  | cons a pre' ih =>
    intro l suf hpre hl
    rw [List.cons_append, List.findIdx_cons]
    have ha : ¬ p a := hpre a (by simp)
    simp only [ha, cond_false, Bool.false_eq_true, if_false]
    rw [ih l suf (fun x hx => hpre x (List.mem_cons_of_mem a hx)) hl]
    rfl

theorem endsIns_getLast : ∀ qs : List QLine, endsIns qs = true →
    ∃ toks, qs.getLast? = some (QLine.ins toks) := by
  intro qs
  induction qs with
  | nil => intro h; simp [endsIns] at h
  | cons l ls ih =>
    intro h
    cases ls with
    | nil =>
      cases l with
      | lbl d => simp [endsIns] at h
      | ins toks => exact ⟨toks, rfl⟩
    | cons l2 ls' =>
      have h2 : endsIns (l2 :: ls') = true := by
        cases l <;> simpa [endsIns] using h
      obtain ⟨toks, ht⟩ := ih h2
      exact ⟨toks, by rw [List.getLast?_cons_cons]; exact ht⟩

theorem subst_line_nl_free (k : Nat) (qs : List QLine) (σ : List Nat) (l : QLine)
    (hok : lineOK k l) : '\n' ∉ renderQLine (substQLine qs σ l) := by
  cases l with
  | lbl d => exact renderQLine_lbl_nl_free d
  | ins toks =>
    exact renderToks_nl_free k _ (fun t ht => by
      obtain ⟨t0, ht0, rfl⟩ := List.mem_map.mp ht
      exact substTok_OK k qs σ t0 (hok.1 t0 ht0))

theorem head?_filter {α : Type} (p : α → Bool) : ∀ l : List α,
    (l.filter p).head? = l.find? p := by
  intro l
  induction l with
  | nil => rfl
  | cons a l ih =>
    by_cases ha : p a
    · simp [List.filter_cons, List.find?_cons, ha]
    · simp [List.filter_cons, List.find?_cons, ha, ih]

theorem countP_not_add {α : Type} (p : α → Bool) : ∀ l : List α,
    l.countP (fun x => ! (p x)) + l.countP p = l.length := by
  intro l
  induction l with
  | nil => rfl
  | cons a l ih =>
    simp only [List.countP_cons, List.length_cons]
    by_cases ha : p a <;> simp [ha] <;> omega

/-! ### The RemoveLabels loop simulation -/

theorem lbl_unique (k : Nat) (qs : List QLine) (hWF : QuadWF k qs)
    (pre suf : List QLine) (d : Nat) (h : qs = pre ++ QLine.lbl d :: suf)
    (hd1 : 1 ≤ d) (hdk : d ≤ k) :
    QLine.lbl d ∉ pre ∧ QLine.lbl d ∉ suf := by
  have hu := hWF.2.2.2.1 d (List.mem_range'.mpr ⟨d - 1, by omega, by omega⟩)
  rw [h, List.filter_append, List.filter_cons] at hu
  simp only [decide_True, if_true, List.length_append, List.length_cons,
    show decide (QLine.lbl d = QLine.lbl d) = true from by simp] at hu
  have hp : (pre.filter (fun l => l = QLine.lbl d)).length = 0 := by omega
  have hs : (suf.filter (fun l => l = QLine.lbl d)).length = 0 := by omega
  constructor
  · intro hc
    have := List.filter_eq_nil_iff.mp (List.length_eq_zero.mp hp) _ hc
    simp at this
  · intro hc
    have := List.filter_eq_nil_iff.mp (List.length_eq_zero.mp hs) _ hc
    simp at this

theorem suf_ne_nil_of_lbl (k : Nat) (qs : List QLine) (hWF : QuadWF k qs)
    (pre suf : List QLine) (d : Nat) (h : qs = pre ++ QLine.lbl d :: suf) :
    suf ≠ [] := by
  intro hc
  subst hc
  obtain ⟨toks, ht⟩ := endsIns_getLast qs hWF.2.2.2.2
  rw [h] at ht
  rw [show pre ++ [QLine.lbl d] = pre ++ [QLine.lbl d] from rfl,
    List.getLast?_concat] at ht
  simp at ht

theorem rl_step_ins (k : Nat) (qs : List QLine) (hWF : QuadWF k qs)
    (pre suf : List QLine) (toks : List QuadTok)
    (h : qs = pre ++ QLine.ins toks :: suf) :
    rlStep (viewStateRL qs pre (QLine.ins toks :: suf))
      (pre.length, renderQLine (QLine.ins toks)) =
    viewStateRL qs (pre ++ [QLine.ins toks]) suf := by
  have hok : lineOK k (QLine.ins toks) :=
    hWF.2.2.1 _ (by rw [h]; exact List.mem_append_right _ (by simp))
  unfold rlStep
  dsimp only
  have hcol : ¬ (renderQLine (QLine.ins toks)).getLast? = some ':' := hok.2
  rw [if_neg hcol]
  unfold viewStateRL viewLines
  simp only [Prod.mk.injEq]
  constructor
  · have h1 : (pre ++ [QLine.ins toks]).filter (fun l => ¬ isLbl l) =
        pre.filter (fun l => ¬ isLbl l) ++ [QLine.ins toks] := by
      simp [List.filter_append, isLbl]
    have h2 : lblsOf (pre ++ [QLine.ins toks]) = lblsOf pre := by
      simp [lblsOf, List.filterMap_append]
    rw [h1, h2]
    simp [List.append_assoc]
  · simp [countLbl, List.countP_append, isLbl]

theorem view_ins_not_colon (k : Nat) (qs : List QLine) (σ : List Nat) (p : QLine)
    (hok : lineOK k p) (hins : isLbl p = false) :
    (renderQLine (substQLine qs σ p)).getLast? ≠ some ':' := by
  cases p with
  | lbl e => simp [isLbl] at hins
  | ins toks => exact subst_last_not_colon k qs σ toks hok.1 hok.2

theorem suffix_L_getLast {L x : Str} (hLne : L ≠ []) (hs : L <:+ x) :
    x.getLast? = L.getLast? := by
  obtain ⟨w, rfl⟩ := hs
  exact List.getLast?_append_of_ne_nil _ hLne

theorem renderQLine_lbl_length (e : Nat) (h1 : 1 ≤ e) (h9 : e ≤ 9) :
    (renderQLine (QLine.lbl e)).length = 3 := by
  simp [renderQLine, natDigits_single e h1 h9]

set_option maxHeartbeats 1000000 in
theorem rl_step_lbl (k : Nat) (qs : List QLine) (hWF : QuadWF k qs)
    (pre suf : List QLine) (d : Nat) (h : qs = pre ++ QLine.lbl d :: suf) :
    rlStep (viewStateRL qs pre (QLine.lbl d :: suf))
      (pre.length, renderQLine (QLine.lbl d)) =
    viewStateRL qs (pre ++ [QLine.lbl d]) suf := by
  have hdmem : QLine.lbl d ∈ qs := by
    rw [h]
    exact List.mem_append_right _ (by simp)
  have hdb : 1 ≤ d ∧ d ≤ k := hWF.2.2.1 _ hdmem
  have hk9 : k ≤ 9 := hWF.2.1
  have hd9 : d ≤ 9 := le_trans hdb.2 hk9
  obtain ⟨hdpre, hdsuf⟩ := lbl_unique k qs hWF pre suf d h hdb.1 hdb.2
  have hsufne := suf_ne_nil_of_lbl k qs hWF pre suf d h
  have hokq : ∀ x ∈ qs, lineOK k x := hWF.2.2.1
  have hokpre : ∀ x ∈ pre, lineOK k x := fun x hx =>
    hokq x (by rw [h]; exact List.mem_append_left _ hx)
  have hoksuf : ∀ x ∈ suf, lineOK k x := fun x hx =>
    hokq x (by rw [h]; exact List.mem_append_right _ (List.mem_cons_of_mem _ hx))
  have hLne : renderQLine (QLine.lbl d) ≠ [] := renderQLine_lbl_ne_nil d
  have hLnl : '\n' ∉ renderQLine (QLine.lbl d) := renderQLine_lbl_nl_free d
  have hLlast : (renderQLine (QLine.lbl d)).getLast? = some ':' := renderQLine_lbl_getLast d
  have hlines : viewLines qs pre (QLine.lbl d :: suf) =
      ((pre.filter (fun l => ¬ isLbl l)).map
        (fun l => renderQLine (substQLine qs (lblsOf pre) l))) ++
      renderQLine (QLine.lbl d) ::
      (suf.map (fun l => renderQLine (substQLine qs (lblsOf pre) l))) := by
    unfold viewLines
    rw [List.map_append]
    rfl
  -- properties of the A and B segments
  have hAprop : ∀ x ∈ (pre.filter (fun l => ¬ isLbl l)).map
      (fun l => renderQLine (substQLine qs (lblsOf pre) l)),
      x.getLast? ≠ some ':' := by
    intro x hx
    obtain ⟨p, hp, rfl⟩ := List.mem_map.mp hx
    have hpm := List.mem_filter.mp hp
    exact view_ins_not_colon k qs (lblsOf pre) p (hokpre p hpm.1) (by
      have := hpm.2
      simpa using this)
  have hBprop : ∀ x ∈ suf.map (fun l => renderQLine (substQLine qs (lblsOf pre) l)),
      x ≠ renderQLine (QLine.lbl d) := by
    intro x hx
    obtain ⟨p, hp, rfl⟩ := List.mem_map.mp hx
    cases p with
    | ins toks =>
      exact fun he => (view_ins_not_colon k qs (lblsOf pre) (QLine.ins toks)
        (hoksuf _ hp) rfl) (he ▸ hLlast)
    | lbl e =>
      intro he
      have heb : 1 ≤ e ∧ e ≤ k := hoksuf _ hp
      have : e = d := renderQLine_lbl_inj e d heb.1 (le_trans heb.2 hk9) hdb.1 hd9 (by
        simpa [substQLine] using he)
      exact hdsuf (this ▸ hp)
  have hAne : ∀ x ∈ (pre.filter (fun l => ¬ isLbl l)).map
      (fun l => renderQLine (substQLine qs (lblsOf pre) l)),
      x ≠ renderQLine (QLine.lbl d) := by
    intro x hx he
    exact (hAprop x hx) (he ▸ hLlast)
  -- the deletion
  have hdel : replaceAll (renderQLine (QLine.lbl d) ++ ['\n']) []
      (joinNl (viewLines qs pre (QLine.lbl d :: suf))) =
      joinNl (((pre.filter (fun l => ¬ isLbl l)) ++ suf).map
        (fun l => renderQLine (substQLine qs (lblsOf pre) l))) := by
    rw [hlines]
    rw [replaceAll_delete _ hLne hLnl _ ?hfree ?hsufc]
    case hfree =>
      intro x hx
      rcases List.mem_append.mp hx with h1 | h1
      · obtain ⟨p, hp, rfl⟩ := List.mem_map.mp h1
        exact subst_line_nl_free k qs _ p (hokpre p (List.mem_filter.mp hp).1)
      · rcases List.mem_cons.mp h1 with h2 | h2
        · rw [h2]; exact hLnl
        · obtain ⟨p, hp, rfl⟩ := List.mem_map.mp h2
          exact subst_line_nl_free k qs _ p (hoksuf p hp)
    case hsufc =>
      intro x hx hs
      have hx2 := List.dropLast_subset _ hx
      rcases List.mem_append.mp hx2 with h1 | h1
      · exact absurd ((suffix_L_getLast hLne hs).trans hLlast) (hAprop x h1)
      · rcases List.mem_cons.mp h1 with h2 | h2
        · exact h2
        · obtain ⟨p, hp, rfl⟩ := List.mem_map.mp h2
          cases p with
          | ins toks =>
            exact absurd ((suffix_L_getLast hLne hs).trans hLlast)
              (view_ins_not_colon k qs (lblsOf pre) (QLine.ins toks) (hoksuf _ hp) rfl)
          | lbl e =>
            have heb : 1 ≤ e ∧ e ≤ k := hoksuf _ hp
            have hlen : (renderQLine (QLine.lbl d)).length =
                (renderQLine (substQLine qs (lblsOf pre) (QLine.lbl e))).length := by
              show (renderQLine (QLine.lbl d)).length = (renderQLine (QLine.lbl e)).length
              rw [renderQLine_lbl_length d hdb.1 hd9,
                renderQLine_lbl_length e heb.1 (le_trans heb.2 hk9)]
            exact (hs.eq_of_length hlen).symm
    rw [removeAllL_append_single _ _ _ hAne (by
        simpa using hsufne) hBprop]
    rw [← List.map_append]
  -- the substituted number is the label's line number
  have hnum : pre.length - countLbl pre + 1 = lblNum qs d := by
    unfold lblNum lblIdx
    have hidx : List.findIdx (fun l => l = QLine.lbl d) qs = pre.length := by
      rw [h]
      apply findIdx_append_not
      · intro x hx
        simp only [decide_eq_true_eq]
        exact fun hc => hdpre (hc ▸ hx)
      · simp
    rw [hidx, h, List.take_left]
  -- the label substitution across the remaining lines
  have hsubst : replaceAll ('@' :: natDigits d) (natDigits (lblNum qs d))
      (joinNl (((pre.filter (fun l => ¬ isLbl l)) ++ suf).map
        (fun l => renderQLine (substQLine qs (lblsOf pre) l)))) =
      joinNl (((pre.filter (fun l => ¬ isLbl l)) ++ suf).map
        (fun l => renderQLine (substQLine qs (d :: lblsOf pre) l))) := by
    rw [replaceAll_joinNl _ _ (by simp) (by
      intro hc
      rcases List.mem_cons.mp hc with h1 | h1
      · exact absurd h1 (by decide)
      · exact (natDigits_char _ _ h1).2.2 rfl)]
    rw [List.map_map]
    congr 1
    apply List.map_congr_left
    intro p hp
    show replaceAll _ _ (renderQLine (substQLine qs (lblsOf pre) p)) = _
    apply replaceAll_subst_qline k qs _ d hdb.1 hd9 hk9 p
    · rcases List.mem_append.mp hp with h1 | h1
      · exact hokpre p (List.mem_filter.mp h1).1
      · exact hoksuf p h1
    · intro e hpe
      rcases List.mem_append.mp hp with h1 | h1
      · have := (List.mem_filter.mp h1).2
        rw [hpe] at this
        simp [isLbl] at this
      · intro hed
        rw [hpe, hed] at h1
        exact hdsuf h1
  -- assemble the step
  unfold rlStep
  dsimp only
  rw [if_pos hLlast]
  have hview1 : (viewStateRL qs pre (QLine.lbl d :: suf)).1 =
      joinNl (viewLines qs pre (QLine.lbl d :: suf)) := rfl
  have hview2 : (viewStateRL qs pre (QLine.lbl d :: suf)).2 = countLbl pre := rfl
  rw [hview1, hview2, hdel]
  have hdrop : (renderQLine (QLine.lbl d)).dropLast = '@' :: natDigits d := by
    show ('@' :: (natDigits d ++ [':'])).dropLast = _
    rw [show '@' :: (natDigits d ++ [':']) = ('@' :: natDigits d) ++ [':'] from by simp,
      List.dropLast_concat]
  rw [hdrop, hnum, hsubst]
  unfold viewStateRL viewLines
  simp only [Prod.mk.injEq]
  constructor
  · have hf : (pre ++ [QLine.lbl d]).filter (fun l => ¬ isLbl l) =
        pre.filter (fun l => ¬ isLbl l) := by
      simp [List.filter_append, isLbl]
    have hσ : lblsOf (pre ++ [QLine.lbl d]) = lblsOf pre ++ [d] := by
      simp [lblsOf, List.filterMap_append]
    rw [hf, hσ]
    congr 1
    apply List.map_congr_left
    intro p hp
    exact congrArg renderQLine (substQLine_congr qs (d :: lblsOf pre)
      (lblsOf pre ++ [d]) (fun e => by simp [or_comm]) p)
  · simp [countLbl, List.countP_append, isLbl]

theorem rl_fold (k : Nat) (qs : List QLine) (hWF : QuadWF k qs) :
    ∀ (suf pre : List QLine), qs = pre ++ suf →
      List.foldl rlStep (viewStateRL qs pre suf)
        (List.enumFrom pre.length (suf.map renderQLine)) = viewStateRL qs qs [] := by
  intro suf
  induction suf with
  | nil =>
    intro pre h
    rw [List.append_nil] at h
    subst h
    rfl
  | cons l suf' ih =>
    intro pre h
    have he : List.enumFrom pre.length ((l :: suf').map renderQLine) =
        (pre.length, renderQLine l) ::
          List.enumFrom (pre.length + 1) (suf'.map renderQLine) := rfl
    rw [he, List.foldl_cons]
    have hstep : rlStep (viewStateRL qs pre (l :: suf')) (pre.length, renderQLine l) =
        viewStateRL qs (pre ++ [l]) suf' := by
      cases l with
      | ins toks => exact rl_step_ins k qs hWF pre suf' toks h
      | lbl d => exact rl_step_lbl k qs hWF pre suf' d h
    rw [hstep]
    have hlen : pre.length + 1 = (pre ++ [l]).length := by simp
    rw [hlen]
    exact ih (pre ++ [l]) (by rw [h]; simp)

theorem qs_ne_nil_of_WF (k : Nat) (qs : List QLine) (hWF : QuadWF k qs) : qs ≠ [] := by
  intro hc
  subst hc
  exact absurd hWF.2.2.2.2 (by decide)

theorem render_nl_free (k : Nat) (qs : List QLine) (hWF : QuadWF k qs) :
    ∀ x ∈ qs.map renderQLine, '\n' ∉ x := by
  intro x hx
  obtain ⟨p, hp, rfl⟩ := List.mem_map.mp hx
  have := subst_line_nl_free k qs [] p (hWF.2.2.1 p hp)
  rwa [substQLine_nil] at this

/-- Closed form of RemoveLabels on a well-formed generated text: delete the
label lines, substitute every reference by its assigned line number. -/
theorem RemoveLabels_wf (k : Nat) (qs : List QLine) (hWF : QuadWF k qs) :
    RemoveLabels (joinNl (qs.map renderQLine)) =
      joinNl ((qs.filter (fun l => ¬ isLbl l)).map
        (fun l => renderQLine (substQLine qs (lblsOf qs) l))) := by
  unfold RemoveLabels
  have hsplit : splitNl (joinNl (qs.map renderQLine)) = qs.map renderQLine :=
    splitNl_joinNl _ (by
      intro hc
      exact qs_ne_nil_of_WF k qs hWF (List.map_eq_nil_iff.mp hc))
      (render_nl_free k qs hWF)
  rw [hsplit]
  have hstart : ((joinNl (qs.map renderQLine) : Str), (0 : Nat)) = viewStateRL qs [] qs := by
    unfold viewStateRL viewLines countLbl
    simp only [List.filter_nil, List.nil_append, List.countP_nil, Prod.mk.injEq]
    constructor
    · congr 1
      apply List.map_congr_left
      intro p _
      rw [show lblsOf ([] : List QLine) = [] from rfl, substQLine_nil]
    · trivial
  show (List.foldl rlStep ((joinNl (qs.map renderQLine) : Str), (0 : Nat))
    (List.enumFrom 0 (qs.map renderQLine))).1 = _
  rw [hstart]
  rw [show (0 : Nat) = ([] : List QLine).length from rfl]
  rw [rl_fold k qs hWF qs [] rfl]
  unfold viewStateRL viewLines
  simp

theorem joinNl_mem_char (c : Char) : ∀ lines : List Str, c ∈ joinNl lines →
    c = '\n' ∨ ∃ l ∈ lines, c ∈ l := by
  intro lines
  induction lines with
  | nil => intro h; simp [joinNl] at h
  | cons l ls ih =>
    intro h
    cases ls with
    | nil =>
      right
      exact ⟨l, by simp, h⟩
    | cons l2 ls' =>
      rw [joinNl_cons l (l2 :: ls') (by simp)] at h
      rcases List.mem_append.mp h with h1 | h1
      · exact Or.inr ⟨l, by simp, h1⟩
      · rcases List.mem_cons.mp h1 with h2 | h2
        · exact Or.inl h2
        · rcases ih h2 with h3 | ⟨x, hx, hcx⟩
          · exact Or.inl h3
          · exact Or.inr ⟨x, List.mem_cons_of_mem l hx, hcx⟩

theorem mem_lblsOf (qs : List QLine) (d : Nat) (h : QLine.lbl d ∈ qs) :
    d ∈ lblsOf qs := by
  unfold lblsOf
  exact List.mem_filterMap.mpr ⟨QLine.lbl d, h, rfl⟩

theorem renderToks_at_free (k : Nat) (qs : List QLine) (σ : List Nat) :
    ∀ toks : List QuadTok, (∀ t ∈ toks, tokOK k t) →
      (∀ e, QuadTok.ref e ∈ toks → e ∈ σ) →
      '@' ∉ renderToks (toks.map (substTok qs σ)) := by
  intro toks
  induction toks with
  | nil => intro _ _; simp [renderToks]
  | cons t ts ih =>
    intro hok hcov
    have ihx := ih (fun x hx => hok x (List.mem_cons_of_mem t hx))
      (fun e he => hcov e (List.mem_cons_of_mem t he))
    intro hc
    show False
    rw [List.map_cons] at hc
    rw [show renderToks (substTok qs σ t :: ts.map (substTok qs σ)) =
      renderTok (substTok qs σ t) ++ renderToks (ts.map (substTok qs σ)) from rfl] at hc
    rcases List.mem_append.mp hc with h1 | h1
    · cases t with
      | txt s =>
        exact (hok (QuadTok.txt s) (by simp)).1 (by simpa [substTok, renderTok] using h1)
      | ref e =>
        have he : e ∈ σ := hcov e (by simp)
        rw [show substTok qs σ (QuadTok.ref e) =
          QuadTok.txt (natDigits (lblNum qs e)) from by simp [substTok, he]] at h1
        exact (natDigits_char _ _ (by simpa [renderTok] using h1)).1 rfl
    · exact ihx h1

/-- Every label referenced in a well-formed quad is defined, so the final
substitution set covers every reference. -/
theorem WF_ref_covered (k : Nat) (qs : List QLine) (hWF : QuadWF k qs)
    (e : Nat) (he1 : 1 ≤ e) (hek : e ≤ k) : e ∈ lblsOf qs := by
  have hu := hWF.2.2.2.1 e (List.mem_range'.mpr ⟨e - 1, by omega, by omega⟩)
  have hne : qs.filter (fun l => l = QLine.lbl e) ≠ [] := by
    intro hc
    rw [hc] at hu
    simp at hu
  obtain ⟨x, hx⟩ := List.exists_mem_of_ne_nil _ hne
  have := List.mem_filter.mp hx
  have hxe : x = QLine.lbl e := by simpa using this.2
  exact mem_lblsOf qs e (hxe ▸ this.1)

theorem filtered_ne_nil (k : Nat) (qs : List QLine) (hWF : QuadWF k qs) :
    qs.filter (fun l => ¬ isLbl l) ≠ [] := by
  obtain ⟨toks, ht⟩ := endsIns_getLast qs hWF.2.2.2.2
  have hmem : QLine.ins toks ∈ qs := getLast?_mem _ _ ht
  exact List.ne_nil_of_mem (List.mem_filter.mpr ⟨hmem, by simp [isLbl]⟩)

theorem result_lines (k : Nat) (qs : List QLine) (hWF : QuadWF k qs) :
    splitNl (RemoveLabels (joinNl (qs.map renderQLine))) =
      (qs.filter (fun l => ¬ isLbl l)).map
        (fun l => renderQLine (substQLine qs (lblsOf qs) l)) := by
  rw [RemoveLabels_wf k qs hWF]
  apply splitNl_joinNl
  · intro hc
    exact filtered_ne_nil k qs hWF (List.map_eq_nil_iff.mp hc)
  · intro x hx
    obtain ⟨p, hp, rfl⟩ := List.mem_map.mp hx
    exact subst_line_nl_free k qs _ p (hWF.2.2.1 p (List.mem_filter.mp hp).1)

theorem result_at_free (k : Nat) (qs : List QLine) (hWF : QuadWF k qs) :
    '@' ∉ RemoveLabels (joinNl (qs.map renderQLine)) := by
  rw [RemoveLabels_wf k qs hWF]
  intro hc
  rcases joinNl_mem_char '@' _ hc with h1 | ⟨x, hx, hcx⟩
  · exact absurd h1 (by decide)
  · obtain ⟨p, hp, rfl⟩ := List.mem_map.mp hx
    have hpm := List.mem_filter.mp hp
    cases p with
    | lbl e => simp [isLbl] at hpm
    | ins toks =>
      have hok := hWF.2.2.1 _ hpm.1
      exact renderToks_at_free k qs (lblsOf qs) toks hok.1 (fun e he => by
        have het := hok.1 _ he
        exact WF_ref_covered k qs hWF e het.1 het.2) hcx

theorem result_no_colon (k : Nat) (qs : List QLine) (hWF : QuadWF k qs) :
    ∀ x ∈ splitNl (RemoveLabels (joinNl (qs.map renderQLine))),
      x.getLast? ≠ some ':' := by
  rw [result_lines k qs hWF]
  intro x hx
  obtain ⟨p, hp, rfl⟩ := List.mem_map.mp hx
  have hpm := List.mem_filter.mp hp
  exact view_ins_not_colon k qs (lblsOf qs) p (hWF.2.2.1 p hpm.1) (by
    have := hpm.2
    simpa using this)

theorem filter_notLbl_length : ∀ qs : List QLine,
    (qs.filter (fun l => ¬ isLbl l)).length + countLbl qs = qs.length := by
  intro qs
  have h1 : qs.filter (fun l => ¬ isLbl l) = qs.filter (fun l => ! isLbl l) := by
    apply List.filter_congr
    intro a _
    simp [decide_not]
  rw [h1]
  have h2 := countP_not_add (fun l => isLbl l) qs
  have h3 : (qs.filter (fun l => ! isLbl l)).length = qs.countP (fun l => ! isLbl l) :=
    (List.countP_eq_length_filter _ _).symm
  unfold countLbl
  omega

theorem lbl_mem_of_lblsOf (qs : List QLine) (d : Nat) (h : d ∈ lblsOf qs) :
    QLine.lbl d ∈ qs := by
  unfold lblsOf at h
  obtain ⟨l, hl, heq⟩ := List.mem_filterMap.mp h
  cases l with
  | ins toks => simp at heq
  | lbl e =>
    have : e = d := by simpa using heq
    exact this ▸ hl

/-- The landing property: the line number assigned to label d, read as a
1-based index into the finalized lines, lands exactly on the (substituted)
instruction that immediately followed d's definition line: the first
non-label line after it. -/
theorem result_landing (k : Nat) (qs : List QLine) (hWF : QuadWF k qs)
    (d : Nat) (hd1 : 1 ≤ d) (hdk : d ≤ k) :
    ∃ target : QLine,
      (qs.drop (lblIdx qs d + 1)).find? (fun l => ¬ isLbl l) = some target ∧
      (splitNl (RemoveLabels (joinNl (qs.map renderQLine)))).get? (lblNum qs d - 1) =
        some (renderQLine (substQLine qs (lblsOf qs) target)) := by
  have hdmem : QLine.lbl d ∈ qs :=
    lbl_mem_of_lblsOf qs d (WF_ref_covered k qs hWF d hd1 hdk)
  obtain ⟨pre, suf, h⟩ := List.append_of_mem hdmem
  obtain ⟨hdpre, hdsuf⟩ := lbl_unique k qs hWF pre suf d h hd1 hdk
  have hsufne := suf_ne_nil_of_lbl k qs hWF pre suf d h
  have hidx : lblIdx qs d = pre.length := by
    unfold lblIdx
    rw [h]
    apply findIdx_append_not
    · intro x hx
      simp only [decide_eq_true_eq]
      exact fun hc => hdpre (hc ▸ hx)
    · simp
  have hdropq : qs.drop (lblIdx qs d + 1) = suf := by
    rw [hidx, h, ← List.drop_drop, List.drop_left]
    rfl
  obtain ⟨toksL, hlast⟩ := endsIns_getLast qs hWF.2.2.2.2
  have hinsuf : QLine.ins toksL ∈ suf := by
    have hql : qs.getLast? = suf.getLast? := by
      rw [h, show QLine.lbl d :: suf = [QLine.lbl d] ++ suf from rfl,
        ← List.append_assoc, List.getLast?_append_of_ne_nil _ hsufne]
    rw [hql] at hlast
    exact getLast?_mem _ _ hlast
  have hfind : (suf.find? (fun l => ¬ isLbl l)).isSome := by
    cases hf : suf.find? (fun l => ¬ isLbl l) with
    | some _ => simp
    | none =>
      have := List.find?_eq_none.mp hf (QLine.ins toksL) hinsuf
      simp [isLbl] at this
  obtain ⟨target, htarget⟩ := Option.isSome_iff_exists.mp hfind
  refine ⟨target, by rw [hdropq]; exact htarget, ?_⟩
  rw [result_lines k qs hWF]
  have hfilters : qs.filter (fun l => ¬ isLbl l) =
      pre.filter (fun l => ¬ isLbl l) ++ suf.filter (fun l => ¬ isLbl l) := by
    rw [h, List.filter_append, List.filter_cons]
    simp [isLbl]
  have hlenpre : (pre.filter (fun l => ¬ isLbl l)).length = lblNum qs d - 1 := by
    unfold lblNum
    rw [hidx, h, List.take_left]
    have h2 := filter_notLbl_length pre
    omega
  rw [hfilters, List.map_append]
  rw [List.get?_append_right (by
    rw [List.length_map, hlenpre])]
  rw [List.length_map, hlenpre, Nat.sub_self]
  rw [List.get?_map, List.get?_zero, head?_filter]
  rw [htarget]
  rfl

/-- C3, amended: the claimed round trip is restored for texts whose labels
are @1 .. @k with k ≤ 9 (for k ≥ 10 the counterexample above shows it
fails).  For every structurally well-formed generator text — each line
either a label definition "@d:" (each d in 1..k defined exactly once) or an
instruction built from '@'-free text and label references, never ending in
':' and ending with a final instruction line — RemoveLabels (i) deletes
exactly the label-definition lines and substitutes every label reference by
its assigned decimal line number, (ii) leaves no '@' anywhere (hence no
token @N), (iii) leaves no line ending in ':' (hence none of the form @N:),
and (iv) the number assigned to each label d, read as a 1-based line index
into the finalized text, lands exactly on the first non-label line that
followed d's definition — the instruction that immediately followed it. -/
theorem c3_remove_labels_amended (k : Nat) (qs : List QLine) (hWF : QuadWF k qs) :
    RemoveLabels (joinNl (qs.map renderQLine)) =
      joinNl ((qs.filter (fun l => ¬ isLbl l)).map
        (fun l => renderQLine (substQLine qs (lblsOf qs) l))) ∧
    '@' ∉ RemoveLabels (joinNl (qs.map renderQLine)) ∧
    (∀ x ∈ splitNl (RemoveLabels (joinNl (qs.map renderQLine))),
      x.getLast? ≠ some ':') ∧
    (∀ d, 1 ≤ d → d ≤ k →
      ∃ target : QLine,
        (qs.drop (lblIdx qs d + 1)).find? (fun l => ¬ isLbl l) = some target ∧
        (splitNl (RemoveLabels (joinNl (qs.map renderQLine)))).get?
          (lblNum qs d - 1) =
          some (renderQLine (substQLine qs (lblsOf qs) target))) :=
  ⟨RemoveLabels_wf k qs hWF, result_at_free k qs hWF, result_no_colon k qs hWF,
   fun d h1 h2 => result_landing k qs hWF d h1 h2⟩

/-- C3 amended witness: the round trip at the concrete two-label quad. -/
theorem c3_remove_labels_amended_witness :
    RemoveLabels (joinNl (c3WitnessLines.map renderQLine)) =
      joinNl ((c3WitnessLines.filter (fun l => ¬ isLbl l)).map
        (fun l => renderQLine (substQLine c3WitnessLines (lblsOf c3WitnessLines) l))) ∧
    '@' ∉ RemoveLabels (joinNl (c3WitnessLines.map renderQLine)) ∧
    (∀ x ∈ splitNl (RemoveLabels (joinNl (c3WitnessLines.map renderQLine))),
      x.getLast? ≠ some ':') ∧
    (∀ d, 1 ≤ d → d ≤ 2 →
      ∃ target : QLine,
        (c3WitnessLines.drop (lblIdx c3WitnessLines d + 1)).find?
          (fun l => ¬ isLbl l) = some target ∧
        (splitNl (RemoveLabels (joinNl (c3WitnessLines.map renderQLine)))).get?
          (lblNum c3WitnessLines d - 1) =
          some (renderQLine (substQLine c3WitnessLines (lblsOf c3WitnessLines) target))) :=
  c3_remove_labels_amended 2 c3WitnessLines (by decide)
